import Mathlib

/-!
# serverstatd: the ICMP probe worker and the supervisor

A shallow embedding of `icmp_host.h`, `icmp_host.c` and `icmp.c`, and of
`launch_proc` and `main_term_handler` of `serverstatd.c`.

Conventions of the embedding

* Memory is a list of bytes (`List Nat`, every byte below 256).  The host is
  little-endian: a `uint16_t` at byte offset `o` is `b[o] + 256 * b[o+1]`, and
  `htons`/`ntohs` swap the two bytes.
* `uint16_t` values are `Nat` reduced `% 65536`, `unsigned` values are `Nat`
  reduced `% 2^32`, `int` values are `Int` wrapped to 32 bits by `wrap32`
  (two's complement, arithmetic right shift).
* `calloc`, `sendto`, `recvmsg` and the cached clock are the environment: their
  results are inputs of the functions that call them.
* Pointers into a `TAILQ` are positions in the list that embeds it.
* Calls that leave the process (`sendto`, `imsg_compose` through
  `compose_to_father`) are recorded as a list of `effect`s; logging is not
  recorded.
* System calls of the supervisor (`fork`, `chroot`, `kill`, `wait`, ...) are
  recorded in call order as a list of `sys_call`s; their results are inputs.
* A libevent timer is `ev_timer`: `evtimer_add` makes it pending, and a timer
  that fires is no longer pending when its callback runs (the timers are not
  persistent).
-/

namespace Serverstatd

/-! ## Machine integers and memory -/

/-- Wrap an integer to a 32-bit two's complement `int`. -/
def wrap32 (x : Int) : Int := (x + 2147483648) % 4294967296 - 2147483648

/-- Read the `uint16_t` stored at byte offset `off` (little-endian host). -/
def rd16 (buf : List Nat) (off : Nat) : Nat :=
  buf.getD off 0 + 256 * buf.getD (off + 1) 0

/-- Store the `uint16_t` `v` at byte offset `off` (little-endian host). -/
def wr16 (buf : List Nat) (off : Nat) (v : Nat) : List Nat :=
  (buf.set off (v % 256)).set (off + 1) (v / 256 % 256)

/-- `htons` on a little-endian host: swap the two bytes of a `uint16_t`. -/
def htons (x : Nat) : Nat := (x % 256) * 256 + (x / 256) % 256

/-- `ntohs` on a little-endian host: swap the two bytes of a `uint16_t`. -/
def ntohs (x : Nat) : Nat := (x % 256) * 256 + (x / 256) % 256

/-! ## `in_cksum` (icmp_host.c) -/

/-- The `while (nleft > 1)` loop of `in_cksum`: `w` is the memory from the
current position of the word pointer on; the result is the accumulator, the
remaining byte count and the memory from the final position of `w` on. -/
def in_cksum_loop : List Nat → Int → Int → Int × Int × List Nat
  | b0 :: b1 :: w, nleft, sum =>
    if nleft > 1 then
      in_cksum_loop w (nleft - 2) (wrap32 (sum + ((b0 + 256 * b1 : Nat) : Int)))
    else (sum, nleft, b0 :: b1 :: w)
  | w, nleft, sum => (sum, nleft, w)

/-- The carry fold at the end of `in_cksum`:
`sum = (sum >> 16) + (sum & 0xffff); sum += (sum >> 16); answer = ~sum`,
with `answer` a `uint16_t`. -/
def in_cksum_fold (sum : Int) : Int :=
  let sum1 := wrap32 (sum / 65536 + sum % 65536)
  let sum2 := wrap32 (sum1 + sum1 / 65536)
  (-sum2 - 1) % 65536

/-- The routine `in_cksum(addr, len)`: `addr` is the memory the pointer refers
to, `len` the byte count. -/
def in_cksum (addr : List Nat) (len : Int) : Int :=
  let r := in_cksum_loop addr len 0
  let sum := if r.2.1 = 1 then wrap32 (r.1 + ((r.2.2.headD 0 : Nat) : Int)) else r.1
  in_cksum_fold sum

/-- The sum of the 16-bit words of an even-length buffer, as a natural number
(no wrap-around): the quantity the loop of `in_cksum` accumulates. -/
def wordsum : List Nat → Nat
  | b0 :: b1 :: w => (b0 + 256 * b1) + wordsum w
  | _ => 0

/-- Every element of the buffer is a byte. -/
def is_bytes (buf : List Nat) : Prop := ∀ b ∈ buf, b < 256

instance (buf : List Nat) : Decidable (is_bytes buf) := by
  unfold is_bytes; exact inferInstance


/-! ## Data model (icmp_host.h, serverstatd.h) -/

/-- The default retry budget, `#define IH_DEF_RETRYCOUNT (3)`. -/
def IH_DEF_RETRYCOUNT : Nat := 3

/-- ICMP message type of an echo reply (netinet/ip_icmp.h). -/
def ICMP_ECHOREPLY : Nat := 0

/-- ICMP message type of an echo request (netinet/ip_icmp.h). -/
def ICMP_ECHO : Nat := 8

/-- Minimum length of an ICMP header (netinet/ip_icmp.h). -/
def ICMP_MINLEN : Nat := 8

/-- Address family of IPv4 socket addresses (sys/socket.h). -/
def AF_INET : Nat := 2

/-- Address family of IPv6 socket addresses (sys/socket.h, the Linux value). -/
def AF_INET6 : Nat := 10

/-- The value of `sizeof(struct sockaddr_in)`. -/
def SIZEOF_SOCKADDR_IN : Nat := 16

/-- The value of `sizeof(ip->ip_buf)` and of `sizeof(buf)` in the receive handler. -/
def IP_BUF_SIZE : Nat := 1536

/-- The modulus of `size_t` (64-bit). -/
def SIZE_MOD : Nat := 18446744073709551616

/-- The modulus of `unsigned`. -/
def UINT_MOD : Nat := 4294967296

/-- The enumeration `enum icmp_host_status`.  The header spells the enumerator of
value 0 `IHS_DOWM`; the code refers to it as `IHS_DOWN`. -/
inductive icmp_host_status
  | IHS_DOWN
  | IHS_UP
deriving DecidableEq, Repr

/-- The enumeration `enum proc_msg_type`. -/
inductive proc_msg_type
  | IMSG_SOCKET_RAW
  | IMSG_HOST_UP
  | IMSG_HOST_DOWN
deriving DecidableEq, Repr

/-- The state of a libevent timer `struct event *`: the pointer is `NULL`
(never created), or the event exists and is not pending, or it is pending and
fires after `secs` seconds. -/
inductive ev_timer
  | null
  | idle
  | pending (secs : Nat)
deriving DecidableEq, Repr

/-- The structure `struct icmp_packet`: one outstanding probe. -/
structure icmp_packet where
  ip_tv : Nat
  ip_seq : Nat
  ip_buf : List Nat
deriving DecidableEq, Repr

/-- The structure `struct icmp_host`.  `ih_iplist` is the `TAILQ` of outstanding
packets, head first; `ih_ss_family` is `ih_ss.ss_family`; `ih_to` is the state
of the timeout event.  The configuration strings and the back pointer `ih_pc`
are not part of the embedding. -/
structure icmp_host where
  ih_iplist : List icmp_packet
  ih_ss_family : Nat
  ih_id : Nat
  ih_seq : Nat
  ih_retrycount : Nat
  ih_ipcount : Nat
  ih_ihs : icmp_host_status
  ih_to : ev_timer
deriving DecidableEq, Repr

/-- What the worker hands to the outside: a `sendto` on the raw socket (socket,
the host whose `ih_ss` is the destination, the bytes transmitted) or a call of
`compose_to_father` (message type, and the id of the host whose snapshot is the
payload, if any). -/
inductive effect
  | sendto (sd : Int) (dest : Nat) (data : List Nat)
  | compose_to_father (type : proc_msg_type) (ih_id : Option Nat)
deriving DecidableEq, Repr

/-- The environment of one `icmp_send`: whether `calloc` in `new_ip` returned
memory, the cached time of day, and the return value of `sendto`. -/
structure send_env where
  alloc_ok : Bool
  now : Nat
  sent : Int

/-- The outcome of `recvmsg` in `icmp_parse`: the return value, the contents of
the buffer `p` after the call, and the name length and address family of the
source address. -/
structure recv_msg where
  ret : Int
  buf : List Nat
  msg_namelen : Nat
  sa_family : Nat

/-- The worker's state: the configured hosts `sc.sc_ihlist`, and the probe data
`ipd_sd` (raw socket) and `ipd_sdev` (whether the socket's read event is
registered). -/
structure worker where
  sc_ihlist : List icmp_host
  ipd_sd : Int
  ipd_sdev : Bool
deriving DecidableEq, Repr

/-! ## icmp_host.c -/

/-- The constructor `new_ih(id)`: a zeroed host with its id set, or `NULL` when
`calloc` fails. -/
def new_ih (alloc_ok : Bool) (id : Nat) : Option icmp_host :=
  if alloc_ok then
    some { ih_iplist := [], ih_ss_family := 0, ih_id := id % 65536, ih_seq := 0,
           ih_retrycount := 0, ih_ipcount := 0,
           ih_ihs := icmp_host_status.IHS_DOWN, ih_to := ev_timer.null }
  else none

/-- The lookup `find_ih(id)`: the first host of the list with this id, as its
position and its contents. -/
def find_ih : List icmp_host → Nat → Option (Nat × icmp_host)
  | [], _ => none
  | ih :: rest, id =>
    if ih.ih_id ≠ id then (find_ih rest id).map (fun r => (r.1 + 1, r.2))
    else some (0, ih)

/-- The constructor `new_ip(ih, pc)`: a new packet at the head of the host's
list, carrying the host's next sequence number and an echo request with its
checksum; `NULL` when `calloc` fails. -/
def new_ip (alloc_ok : Bool) (now : Nat) (ih : icmp_host) :
    Option (icmp_host × icmp_packet) :=
  if alloc_ok then
    let seq := ih.ih_seq
    let b0 := List.replicate IP_BUF_SIZE 0
    let b1 := b0.set 0 ICMP_ECHO
    let b2 := b1.set 1 0
    let b3 := wr16 b2 2 0
    let b4 := wr16 b3 6 (htons seq)
    let b5 := wr16 b4 4 ih.ih_id
    let b6 := wr16 b5 2 (in_cksum b5 (IP_BUF_SIZE : Nat)).toNat
    let ip : icmp_packet := { ip_tv := now, ip_seq := seq, ip_buf := b6 }
    some ({ ih with ih_iplist := ip :: ih.ih_iplist,
                    ih_ipcount := (ih.ih_ipcount + 1) % UINT_MOD,
                    ih_seq := (ih.ih_seq + 1) % 65536 }, ip)
  else none

/-- The scan of `find_ip` over a packet list. -/
def find_ip_list : List icmp_packet → Nat → Option (Nat × icmp_packet)
  | [], _ => none
  | ip :: rest, seq =>
    if ip.ip_seq ≠ seq then (find_ip_list rest seq).map (fun r => (r.1 + 1, r.2))
    else some (0, ip)

/-- The lookup `find_ip(ih, seq)`: the first outstanding packet of the host with
this sequence number, as its position and its contents. -/
def find_ip (ih : icmp_host) (seq : Nat) : Option (Nat × icmp_packet) :=
  find_ip_list ih.ih_iplist seq

/-- The removal `free_ip(ih, ip)`, the packet given by its position. -/
def free_ip (ih : icmp_host) (ip : Nat) : icmp_host :=
  { ih with ih_ipcount := (ih.ih_ipcount + UINT_MOD - 1) % UINT_MOD,
            ih_iplist := ih.ih_iplist.eraseIdx ip }

/-- Arm a timer, `evtimer_add(ev, tv)`; a timer that was never created stays so. -/
def evtimer_add : ev_timer → Nat → ev_timer
  | ev_timer.null, _ => ev_timer.null
  | _, secs => ev_timer.pending secs

/-- The function `reschedule_icmp_send(ih)`: 10 seconds for a host that is up,
60 seconds otherwise. -/
def reschedule_icmp_send (ih : icmp_host) : icmp_host :=
  if ih.ih_ihs = icmp_host_status.IHS_UP then
    { ih with ih_to := evtimer_add ih.ih_to 10 }
  else
    { ih with ih_to := evtimer_add ih.ih_to 60 }

/-! ## icmp.c -/

/-- The function `icmp_send(sd, ih, pc)`: the host afterwards, the effects, and
the return value. -/
def icmp_send (sd : Int) (env : send_env) (ih : icmp_host) :
    icmp_host × List effect × Int :=
  match new_ip env.alloc_ok env.now ih with
  | none => (ih, [], -1)
  | some (ih1, ip) =>
    let effs := [effect.sendto sd ih1.ih_id (ip.ip_buf.take 512)]
    if env.sent ≤ 0 then (ih1, effs, -1)
    else (reschedule_icmp_send ih1, effs, 0)

/-- The result of `icmp_parse`: `fatal` when `recvmsg` failed, `reject` for the
return value -1, `ok iplen` for the return value 0 with the ICMP header at
offset `iplen` of the buffer. -/
inductive parse_result
  | fatal
  | reject
  | ok (iplen : Nat)
deriving DecidableEq, Repr

/-- The function `icmp_parse`, on the outcome of its `recvmsg`.  `bytesread` is the
return value converted to `size_t`, so the comparison with -1 is one with the
largest `size_t`; `msg_name` is the address of the caller's `ss` and never
`NULL`; `ip_hl` is the low nibble of the first byte of the buffer. -/
def icmp_parse (m : recv_msg) : parse_result :=
  let bytesread := (m.ret % (SIZE_MOD : Int)).toNat
  if bytesread = SIZE_MOD - 1 then parse_result.fatal
  else if m.msg_namelen < SIZEOF_SOCKADDR_IN ∨ m.sa_family ≠ AF_INET then
    parse_result.reject
  else
    let iplen := (m.buf.getD 0 0 % 16) * 4
    if bytesread < iplen + ICMP_MINLEN then parse_result.reject
    else parse_result.ok iplen

/-- The function `icmp_raw_socket_handler`: `none` when the process ends in
`fatal`, otherwise the hosts afterwards and the effects. -/
def icmp_raw_socket_handler (ihl : List icmp_host) (m : recv_msg) :
    Option (List icmp_host × List effect) :=
  match icmp_parse m with
  | parse_result.fatal => none
  | parse_result.reject => some (ihl, [])
  | parse_result.ok iplen =>
    match find_ih ihl (rd16 m.buf (iplen + 4)) with
    | none => some (ihl, [])
    | some (i, ih) =>
      if m.buf.getD iplen 0 ≠ ICMP_ECHOREPLY then some (ihl, [])
      else
        match find_ip ih (ntohs (rd16 m.buf (iplen + 6))) with
        | none => some (ihl, [])
        | some (k, _) =>
          let r : icmp_host × List effect :=
            if ih.ih_ihs = icmp_host_status.IHS_DOWN then
              ({ ih with ih_ihs := icmp_host_status.IHS_UP },
               [effect.compose_to_father proc_msg_type.IMSG_HOST_UP (some ih.ih_id)])
            else (ih, [])
          let ih2 := { r.1 with ih_retrycount := IH_DEF_RETRYCOUNT }
          let ih3 := reschedule_icmp_send ih2
          some (ihl.set i (free_ip ih3 k), r.2)

/-- The loop `TAILQ_FOREACH_SAFE(ip, &ih->ih_iplist, ip_entry, ipn) free_ip(ih, ip)`
of `ih_timeout`: one `free_ip` of the head for every packet of the list. -/
def free_all_ip : List icmp_packet → icmp_host → icmp_host
  | [], ih => ih
  | _ :: rest, ih => free_all_ip rest (free_ip ih 0)

/-- The callback `ih_timeout` of a host's timer: the host afterwards and the
effects. -/
def ih_timeout (sd : Int) (env : send_env) (ih : icmp_host) : icmp_host × List effect :=
  if ih.ih_ihs = icmp_host_status.IHS_UP ∧ ih.ih_retrycount = 0 then
    let ih1 := { ih with ih_ihs := icmp_host_status.IHS_DOWN }
    let effs := [effect.compose_to_father proc_msg_type.IMSG_HOST_DOWN (some ih.ih_id)]
    let ih2 := free_all_ip ih1.ih_iplist ih1
    (reschedule_icmp_send ih2, effs)
  else
    let ih1 :=
      if ih.ih_retrycount ≠ 0 then
        { ih with ih_retrycount := (ih.ih_retrycount + UINT_MOD - 1) % UINT_MOD }
      else ih
    let r := icmp_send sd env ih1
    (r.1, r.2.1)

/-- The function `init_ih(ih, pc)`, given whether `inet_pton` accepts the address
as IPv4 and as IPv6: `none` when the worker ends in `fatal`. -/
def init_ih (pton4 pton6 : Bool) (ih : icmp_host) : Option icmp_host :=
  if pton4 then
    some { ih with ih_ss_family := AF_INET, ih_to := ev_timer.idle,
                   ih_retrycount := IH_DEF_RETRYCOUNT }
  else if pton6 then
    some { ih with ih_ss_family := AF_INET6, ih_to := ev_timer.idle,
                   ih_retrycount := IH_DEF_RETRYCOUNT }
  else none

/-- The loop of `icmp_handler` that initialises every configured host; `pton i`
is the outcome of `inet_pton` for the host at position `i`. -/
def init_all (pton : Nat → Bool × Bool) : Nat → List icmp_host → Option (List icmp_host)
  | _, [] => some []
  | i, ih :: rest =>
    match init_ih (pton i).1 (pton i).2 ih with
    | none => none
    | some ih1 =>
      match init_all pton (i + 1) rest with
      | none => none
      | some rest1 => some (ih1 :: rest1)

/-- The function `icmp_handler` up to the dispatch loop: the worker's initial
state and the request for the raw socket. -/
def icmp_handler (hosts : List icmp_host) (pton : Nat → Bool × Bool) :
    Option (worker × List effect) :=
  match init_all pton 0 hosts with
  | none => none
  | some ihl =>
    some ({ sc_ihlist := ihl, ipd_sd := -1, ipd_sdev := false },
          [effect.compose_to_father proc_msg_type.IMSG_SOCKET_RAW none])

/-- The loop `TAILQ_FOREACH(ih, &sc.sc_ihlist, ih_entry) icmp_send(ipd->ipd_sd, ih, pc)`
of the `IMSG_SOCKET_RAW` case; `env i` is the environment of the send to the
host at position `i`. -/
def send_all (sd : Int) (env : Nat → send_env) : Nat → List icmp_host →
    List icmp_host × List effect
  | _, [] => ([], [])
  | i, ih :: rest =>
    let r := icmp_send sd (env i) ih
    let rr := send_all sd env (i + 1) rest
    (r.1 :: rr.1, r.2.1 ++ rr.2)

/-- The `IMSG_SOCKET_RAW` case of `icmp_main_dispatcher`: keep the descriptor,
register its read event, send one probe to every host. -/
def socket_raw (w : worker) (fd : Int) (env : Nat → send_env) : worker × List effect :=
  let r := send_all fd env 0 w.sc_ihlist
  ({ sc_ihlist := r.1, ipd_sd := fd, ipd_sdev := true }, r.2)

/-- A message that `imsg_get` returns: its `hdr.type` and the descriptor `fd` that
came with it. -/
structure imsg where
  type : Nat
  fd : Int

/-- The value of an enumerator of `enum proc_msg_type`. -/
def proc_msg_type.code : proc_msg_type → Nat
  | proc_msg_type.IMSG_SOCKET_RAW => 0
  | proc_msg_type.IMSG_HOST_UP => 1
  | proc_msg_type.IMSG_HOST_DOWN => 2

/-- The loop `while (1)` of `icmp_main_dispatcher` over the messages that
`imsg_get` returns before it returns 0 or -1; `env k i` is the environment of the
send to the host at position `i` while message `k` is handled. -/
def imsg_loop (env : Nat → Nat → send_env) : Nat → List imsg → worker → worker × List effect
  | _, [], w => (w, [])
  | k, msg :: rest, w =>
    let r := if msg.type = proc_msg_type.IMSG_SOCKET_RAW.code then socket_raw w msg.fd (env k)
             else (w, [])
    let rr := imsg_loop env (k + 1) rest r.1
    (rr.1, r.2 ++ rr.2)

/-- The callback `icmp_main_dispatcher`: `read_ret` is the return value of
`imsg_read` and `eagain` whether `errno` is `EAGAIN`; `none` when the worker ends
in `fatal`. -/
def icmp_main_dispatcher (w : worker) (read_ret : Int) (eagain : Bool) (msgs : List imsg)
    (env : Nat → Nat → send_env) : Option (worker × List effect) :=
  if read_ret = -1 ∧ eagain = false then none
  else some (imsg_loop env 0 msgs w)

/-! ## The event loop of the worker -/

/-- What the dispatch loop of the worker can deliver: the raw socket from the
supervisor, the expiry of the timer of the host at position `i`, or a datagram
on the raw socket. -/
inductive event
  | socket_raw (fd : Int) (env : Nat → send_env)
  | timeout (i : Nat) (env : send_env)
  | datagram (m : recv_msg)

/-- One callback of the dispatch loop.  A timer fires only when it is pending
and is no longer pending when its callback runs; a datagram is read only once
the socket's read event is registered.  `none` when the event cannot occur in
this state or the worker ends in `fatal`. -/
def step (w : worker) : event → Option (worker × List effect)
  | event.socket_raw fd env => some (socket_raw w fd env)
  | event.timeout i env =>
    match w.sc_ihlist[i]? with
    | none => none
    | some ih =>
      match ih.ih_to with
      | ev_timer.pending _ =>
        let r := ih_timeout w.ipd_sd env { ih with ih_to := ev_timer.idle }
        some ({ w with sc_ihlist := w.sc_ihlist.set i r.1 }, r.2)
      | _ => none
  | event.datagram m =>
    if w.ipd_sdev then
      match icmp_raw_socket_handler w.sc_ihlist m with
      | none => none
      | some r => some ({ w with sc_ihlist := r.1 }, r.2)
    else none

/-- A sequence of callbacks, with all their effects in order. -/
def run (w : worker) : List event → Option (worker × List effect)
  | [] => some (w, [])
  | e :: es =>
    match step w e with
    | none => none
    | some (w1, effs1) =>
      match run w1 es with
      | none => none
      | some (w2, effs2) => some (w2, effs1 ++ effs2)

/-- A sequence of expiries of one host's timer, the callback alone (the host
receives nothing in between): the host afterwards and all effects in order. -/
def timeouts (sd : Int) : List send_env → icmp_host → icmp_host × List effect
  | [], ih => (ih, [])
  | env :: envs, ih =>
    let r := ih_timeout sd env ih
    let rr := timeouts sd envs r.1
    (rr.1, r.2 ++ rr.2)

/-- The number of `IMSG_HOST_DOWN` reports in a list of effects. -/
def count_down (effs : List effect) : Nat :=
  (effs.filter (fun e => match e with
    | effect.compose_to_father proc_msg_type.IMSG_HOST_DOWN _ => true
    | _ => false)).length

/-- The number of `IMSG_HOST_UP` reports in a list of effects. -/
def count_up (effs : List effect) : Nat :=
  (effs.filter (fun e => match e with
    | effect.compose_to_father proc_msg_type.IMSG_HOST_UP _ => true
    | _ => false)).length

/-- The sequence numbers of a host's outstanding packets, head first. -/
def iplist_seqs (ih : icmp_host) : List Nat := ih.ih_iplist.map icmp_packet.ip_seq

/-- Successive calls of `new_ip` on one host that all obtain memory; `nows` are
the times of the calls. -/
def new_ip_n : List Nat → icmp_host → icmp_host
  | [], ih => ih
  | now :: nows, ih =>
    match new_ip true now ih with
    | some r => new_ip_n nows r.1
    | none => ih

/-- The number of `sendto` calls towards the host with identifier `id` in a list
of effects: the number of probes created for it. -/
def count_sendto (id : Nat) (effs : List effect) : Nat :=
  (effs.filter (fun e => match e with
    | effect.sendto _ dest _ => dest = id
    | _ => false)).length

/-- The sequence numbers of the first `n` probes of a host whose counter started
at 0, the latest first. -/
def past_seqs (n : Nat) : List Nat := (List.range n).reverse.map (fun j => j % 65536)

/-- The host has created `n` probes since its counter was 0: its counter is
`n mod 65536` and the sequence numbers of its outstanding packets are among those
of the `n` probes, in the order of `past_seqs n`. -/
def seqs_after (ih : icmp_host) (n : Nat) : Prop :=
  ih.ih_seq = n % 65536 ∧ (iplist_seqs ih).Sublist (past_seqs n)

/-- Every host of the worker has created at most `c id` probes, `id` its
identifier. -/
def seqs_bounded (w : worker) (c : Nat → Nat) : Prop :=
  ∀ ih ∈ w.sc_ihlist, ∃ n, n ≤ c ih.ih_id ∧ seqs_after ih n

/-- The `k` sequence numbers that precede the counter value `s`, the latest
first: `s - 1`, `s - 2`, ..., `s - k` modulo 2^16. -/
def recent_seqs : Nat → Nat → List Nat
  | _, 0 => []
  | s, k + 1 => (s + 65535) % 65536 :: recent_seqs ((s + 65535) % 65536) k

/-- The counter of the host is a `uint16_t` and its outstanding packets carry,
head first, some of the `k` sequence numbers that precede the counter. -/
def seqs_recent (ih : icmp_host) (k : Nat) : Prop :=
  ih.ih_seq < 65536 ∧ (iplist_seqs ih).Sublist (recent_seqs ih.ih_seq k)

/-- The destinations of the `sendto` calls in a list of effects, in order. -/
def sendto_dests : List effect → List Nat
  | [] => []
  | effect.sendto _ dest _ :: rest => dest :: sendto_dests rest
  | effect.compose_to_father _ _ :: rest => sendto_dests rest

/-- The contract of `recvmsg` with one buffer of `plen` bytes: it fails with -1 or
returns the number of bytes it stored, which is at most `plen`. -/
def recvmsg_ok (plen : Nat) (m : recv_msg) : Prop :=
  m.ret = -1 ∨ (0 ≤ m.ret ∧ m.ret ≤ (plen : Int))

instance (plen : Nat) (m : recv_msg) : Decidable (recvmsg_ok plen m) := by
  unfold recvmsg_ok; exact inferInstance

/-- The offsets of the receive buffer that `icmp_parse` and
`icmp_raw_socket_handler` read for a datagram whose ICMP header is at `iplen`: the
byte of `ip_hl`, `icmp_type`, the two bytes of `icmp_id` and the two bytes of
`icmp_seq`. -/
def handler_reads (iplen : Nat) : List Nat :=
  [0, iplen, iplen + 4, iplen + 5, iplen + 6, iplen + 7]

/-- The bytes of the buffer of an echo request as `new_ip` lays it out: type, code,
checksum `c`, identifier `id` (host order), sequence number `seq` (network order)
and 1528 zero bytes. -/
def echo_request (id seq c : Nat) : List Nat :=
  [ICMP_ECHO, 0, c % 256, c / 256 % 256, id % 256, id / 256 % 256,
    htons seq % 256, htons seq / 256 % 256] ++ List.replicate 1528 0

/-! ## serverstatd.c -/

/-- The signal number of `SIGTERM` (signal.h). -/
def SIGTERM : Nat := 15

/-- The value of `errno` for an interrupted call (errno.h). -/
def EINTR : Nat := 4

/-- The value of `errno` when there is no child to wait for (errno.h). -/
def ECHILD : Nat := 10

/-- The fields of `struct proc_ctx` that the supervisor sets: the recorded process
id and the two endpoints `pc_sp[0]`, `pc_sp[1]` of the channel. -/
structure proc_ctx where
  pc_pid : Int
  pc_sp0 : Int
  pc_sp1 : Int
deriving DecidableEq, Repr

/-- The entry of `pcs` as the source declares it: no process, no channel. -/
def pcs_entry : proc_ctx := { pc_pid := 0, pc_sp0 := -1, pc_sp1 := -1 }

/-- The fields of `struct passwd` that `launch_proc` reads. -/
structure passwd where
  pw_dir : String
  pw_uid : Nat
  pw_gid : Nat
deriving DecidableEq, Repr

/-- The strings of `struct serverstatd_conf`. -/
structure serverstatd_conf where
  sc_user : String
  sc_chroot : String
deriving DecidableEq, Repr

/-- What the supervisor and the child it forks ask of the system, in the order of
the calls.  `pc_func` is the call of the role's entry point; `exit` stands for
`exit` and `_exit`. -/
inductive sys_call
  | socketpair
  | fork
  | log_warn
  | close (fd : Int)
  | getpwnam (user : String)
  | chroot (dir : String)
  | setgroups (gid : Nat)
  | setresgid (gid : Nat)
  | setresuid (uid : Nat)
  | pc_func
  | kill (pid : Int) (sig : Nat)
  | wait
  | exit (status : Int)
  | fatal
deriving DecidableEq, Repr

/-- Modelled from the spec: `fatal` (log.c, not among the sources) reports the
error and terminates the calling process; it does not return.  The calls of a
process that ends in `fatal` after `calls`. -/
def fatal_after (calls : List sys_call) : List sys_call := calls ++ [sys_call.fatal]

/-- The environment of `launch_proc`: the return value of `socketpair` and the
descriptors it stores, and the return values of `fork`, `getpwnam`, `chroot`,
`setgroups`, `setresgid` and `setresuid`. -/
structure launch_env where
  socketpair_ret : Int
  sp0 : Int
  sp1 : Int
  fork_ret : Int
  pw : Option passwd
  chroot_ret : Int
  setgroups_ret : Int
  setresgid_ret : Int
  setresuid_ret : Int

/-- How `launch_proc` ends in the process that runs it: it returns (in the parent,
also when `fork` failed), the process exits, or it ends in `fatal`. -/
inductive launch_result
  | returned (pc : proc_ctx) (ret : Int)
  | exited (status : Int)
  | fatal
deriving DecidableEq, Repr

/-- The function `launch_proc(pc)`, built without `MACOSX_SUPPORT`: how it ends and
the calls made, in the parent when `fork` returns a pid or -1 and in the child
when it returns 0. -/
def launch_proc (env : launch_env) (sc : serverstatd_conf) (pc : proc_ctx) :
    launch_result × List sys_call :=
  if env.socketpair_ret = -1 then
    (launch_result.fatal, fatal_after [sys_call.socketpair])
  else
    let pc1 : proc_ctx := { pc with pc_sp0 := env.sp0, pc_sp1 := env.sp1 }
    if env.fork_ret = 0 then
      let t0 := [sys_call.socketpair, sys_call.fork, sys_call.close pc1.pc_sp0,
                 sys_call.getpwnam sc.sc_user]
      match env.pw with
      | none => (launch_result.fatal, fatal_after t0)
      | some pw =>
        let dir := if sc.sc_chroot = "" then pw.pw_dir else sc.sc_chroot
        let t1 := t0 ++ [sys_call.chroot dir]
        if env.chroot_ret ≠ 0 then (launch_result.fatal, fatal_after t1)
        else if env.setgroups_ret ≠ 0 then
          (launch_result.fatal, fatal_after (t1 ++ [sys_call.setgroups pw.pw_gid]))
        else if env.setresgid_ret ≠ 0 then
          (launch_result.fatal,
           fatal_after (t1 ++ [sys_call.setgroups pw.pw_gid, sys_call.setresgid pw.pw_gid]))
        else if env.setresuid_ret ≠ 0 then
          (launch_result.fatal,
           fatal_after (t1 ++ [sys_call.setgroups pw.pw_gid, sys_call.setresgid pw.pw_gid,
             sys_call.setresuid pw.pw_uid]))
        else
          (launch_result.exited 0,
           t1 ++ [sys_call.setgroups pw.pw_gid, sys_call.setresgid pw.pw_gid,
             sys_call.setresuid pw.pw_uid, sys_call.pc_func, sys_call.exit 0])
    else
      let t := if env.fork_ret = -1 then
          [sys_call.socketpair, sys_call.fork, sys_call.log_warn, sys_call.close pc1.pc_sp1]
        else [sys_call.socketpair, sys_call.fork, sys_call.close pc1.pc_sp1]
      (launch_result.returned { pc1 with pc_sp1 := -1, pc_pid := env.fork_ret } env.fork_ret, t)

/-- One return of `wait(NULL)`: the return value and, for -1, `errno`. -/
structure wait_ret where
  pid : Int
  errno : Nat
deriving DecidableEq, Repr

/-- How `main_term_handler` ends: the process exits, it ends in `fatal`, or it is
still blocked in `wait`. -/
inductive handler_end
  | exited (status : Int)
  | fatal
  | blocked
deriving DecidableEq, Repr

/-- The loop `for (n = 0; n < NOF(sizeof(pcs), sizeof(pcs[0])); n++)` of
`main_term_handler`: a `kill` with `SIGTERM` for every entry whose recorded pid is
not 0. -/
def kill_all : List proc_ctx → List sys_call
  | [] => []
  | pc :: rest =>
    if pc.pc_pid = 0 then kill_all rest
    else sys_call.kill pc.pc_pid SIGTERM :: kill_all rest

/-- The loop `do ... while` of `main_term_handler` and the `exit(0)` after it, on
the successive returns of `wait`; when they are used up the handler is blocked in
the next `wait`. -/
def wait_loop : List wait_ret → handler_end × List sys_call
  | [] => (handler_end.blocked, [sys_call.wait])
  | r :: rest =>
    if r.pid = -1 ∧ r.errno ≠ EINTR ∧ r.errno ≠ ECHILD then
      (handler_end.fatal, fatal_after [sys_call.wait])
    else if r.pid ≠ -1 ∨ (r.pid = -1 ∧ r.errno = EINTR) then
      ((wait_loop rest).1, sys_call.wait :: (wait_loop rest).2)
    else (handler_end.exited 0, [sys_call.wait, sys_call.exit 0])

/-- The signal handler `main_term_handler` on the entries of `pcs`. -/
def main_term_handler (pcs : List proc_ctx) (waits : List wait_ret) :
    handler_end × List sys_call :=
  ((wait_loop waits).1, kill_all pcs ++ (wait_loop waits).2)

/-- A return of `wait` after which the loop of `main_term_handler` calls `wait`
again: a reaped child, or an interrupted call. -/
def wait_again (r : wait_ret) : Prop := r.pid ≠ -1 ∨ r.errno = EINTR

instance (r : wait_ret) : Decidable (wait_again r) := by
  unfold wait_again; exact inferInstance

/-- An environment in which every call of `launch_proc` succeeds and `fork`
returns 0: the child. -/
def launch_env_child : launch_env :=
  { socketpair_ret := 0, sp0 := 4, sp1 := 5, fork_ret := 0,
    pw := some { pw_dir := "/var/empty", pw_uid := 1000, pw_gid := 1000 },
    chroot_ret := 0, setgroups_ret := 0, setresgid_ret := 0, setresuid_ret := 0 }

/-- A configuration with a user and no chroot directory of its own. -/
def conf_example : serverstatd_conf := { sc_user := "_serverstatd", sc_chroot := "" }

/-! ## Concrete inputs -/

/-- An environment in which `calloc` and `sendto` succeed. -/
def env_ok : send_env := { alloc_ok := true, now := 0, sent := 512 }

/-- An environment in which `calloc` succeeds and `sendto` fails. -/
def env_fail : send_env := { alloc_ok := true, now := 0, sent := -1 }

/-- Modelled from the spec: the configuration loader (`parse_config`, not among
the sources) returns one host per configured entry; each is created by `new_ih`
with its identifier. -/
def config_hosts (ids : List Nat) : List icmp_host := ids.filterMap (new_ih true)

/-- The host with identifier 7 after its first probe and the matched reply to it:
up, with the full retry budget and no outstanding packet. -/
def up_host : icmp_host :=
  { ih_iplist := [], ih_ss_family := AF_INET, ih_id := 7, ih_seq := 1,
    ih_retrycount := IH_DEF_RETRYCOUNT, ih_ipcount := 0,
    ih_ihs := icmp_host_status.IHS_UP, ih_to := ev_timer.pending 10 }

/-- The host with identifier 7 after `new_ih` and `init_ih`, before its first
probe. -/
def idle_host : icmp_host :=
  { ih_iplist := [], ih_ss_family := AF_INET, ih_id := 7, ih_seq := 0,
    ih_retrycount := IH_DEF_RETRYCOUNT, ih_ipcount := 0,
    ih_ihs := icmp_host_status.IHS_DOWN, ih_to := ev_timer.idle }

/-- A host that is down with an empty list, its counter at 65535 and its timer
pending. -/
def late_host : icmp_host :=
  { ih_iplist := [], ih_ss_family := AF_INET, ih_id := 7, ih_seq := 65535,
    ih_retrycount := IH_DEF_RETRYCOUNT, ih_ipcount := 0,
    ih_ihs := icmp_host_status.IHS_DOWN, ih_to := ev_timer.pending 60 }

/-- Two hosts with the identifier 7: the first has no outstanding packet, the
second has sent one probe. -/
def dup_hosts : List icmp_host := [idle_host, (icmp_send 3 env_ok idle_host).1]

/-- The host `up_host` after three expiries of its timer without a reply, up with
its retry counter at 0. -/
def up_host_spent : icmp_host := (timeouts 3 [env_ok, env_ok, env_ok] up_host).1

/-- Every configured address is an IPv4 address. -/
def pton_v4 : Nat → Bool × Bool := fun _ => (true, false)

/-- A datagram of 28 bytes from an IPv4 source: an IP header of 20 bytes and an
ICMP header with the given type, identifier (host order) and sequence number
(network order). -/
def icmp_datagram (type id seq : Nat) : recv_msg :=
  { ret := 28,
    buf := [69, 0, 0, 28, 0, 0, 0, 0, 64, 1, 0, 0, 10, 0, 0, 1, 10, 0, 0, 2,
            type, 0, 0, 0, id % 256, id / 256 % 256, seq / 256 % 256, seq % 256],
    msg_namelen := 16,
    sa_family := AF_INET }

/-- A buffer of 65540 bytes whose checksum field (the first word) is zero and
whose words sum to 2^31 - 1. -/
def cksum_edge_buf : List Nat := 0 :: 0 :: (List.replicate (2 * 32768) 255 ++ [255, 127])

open icmp_host_status proc_msg_type

/-! ## Lemmas: the checksum -/

theorem wrap32_add_left (a b : Int) : wrap32 (wrap32 a + b) = wrap32 (a + b) := by
  unfold wrap32; omega

theorem wrap32_id (a : Int) (h0 : -2147483648 ≤ a) (h1 : a < 2147483648) : wrap32 a = a := by
  unfold wrap32; omega

theorem in_cksum_loop_even : ∀ (buf : List Nat) (a : Int), buf.length % 2 = 0 →
    in_cksum_loop buf (buf.length : Int) (wrap32 a)
      = (wrap32 (a + (wordsum buf : Nat)), 0, [])
  | [], a, _ => by simp [in_cksum_loop, wordsum]
  | [_], _, h => by simp at h
  | b0 :: b1 :: w, a, h => by
    have hw : w.length % 2 = 0 := by
      simp only [List.length_cons] at h; omega
    have ih := in_cksum_loop_even w (a + ((b0 + 256 * b1 : Nat) : Int)) hw
    have hgt : ((w.length : Int) + 1 + 1 > 1) := by omega
    simp only [in_cksum_loop, List.length_cons, Nat.cast_add, Nat.cast_one, hgt, if_true]
    have e : (w.length : Int) + 1 + 1 - 2 = (w.length : Int) := by omega
    rw [e, wrap32_add_left]
    simp only [Nat.cast_add] at ih
    rw [ih]
    simp only [wordsum, Nat.cast_add]
    congr 2
    omega

theorem in_cksum_even (buf : List Nat) (h : buf.length % 2 = 0) :
    in_cksum buf (buf.length : Int) = in_cksum_fold (wrap32 (wordsum buf : Nat)) := by
  have := in_cksum_loop_even buf 0 h
  have w0 : wrap32 0 = 0 := by decide
  rw [w0] at this
  simp [in_cksum, this]


theorem in_cksum_fold_of_nonneg (x : Int) (h0 : 0 ≤ x) (h1 : x < 2147483648) :
    in_cksum_fold x
      = if x / 65536 + x % 65536 < 65536 then 65535 - (x / 65536 + x % 65536)
        else 131070 - (x / 65536 + x % 65536) := by
  have hf0 : 0 ≤ x / 65536 + x % 65536 := by omega
  have hf1 : x / 65536 + x % 65536 < 98304 := by omega
  simp only [in_cksum_fold]
  generalize x / 65536 + x % 65536 = f at hf0 hf1 ⊢
  have e1 : wrap32 f = f := wrap32_id f (by omega) (by omega)
  have hq : f / 65536 = if f < 65536 then 0 else 1 := by
    split <;> omega
  have e2 : wrap32 (f + f / 65536) = f + f / 65536 :=
    wrap32_id _ (by rw [hq]; split <;> omega) (by rw [hq]; split <;> omega)
  rw [e1, e2, hq]
  split <;> omega

theorem fold_verify (S : Int) (h0 : 0 ≤ S) (h1 : S ≤ 2147450880) :
    in_cksum_fold (wrap32 (S + in_cksum_fold (wrap32 S))) = 0 := by
  have eS : wrap32 S = S := wrap32_id S (by omega) (by omega)
  rw [eS, in_cksum_fold_of_nonneg S h0 (by omega)]
  split
  · rename_i hlt
    have b : S + (65535 - (S / 65536 + S % 65536)) < 2147483648 := by omega
    have a : 0 ≤ S + (65535 - (S / 65536 + S % 65536)) := by omega
    rw [wrap32_id _ (by omega) b, in_cksum_fold_of_nonneg _ a b]
    split <;> omega
  · rename_i hge
    have b : S + (131070 - (S / 65536 + S % 65536)) < 2147483648 := by omega
    have a : 0 ≤ S + (131070 - (S / 65536 + S % 65536)) := by omega
    rw [wrap32_id _ (by omega) b, in_cksum_fold_of_nonneg _ a b]
    split <;> omega


theorem in_cksum_fold_range (x : Int) : 0 ≤ in_cksum_fold x ∧ in_cksum_fold x < 65536 := by
  simp only [in_cksum_fold]
  omega

theorem wr16_length (buf : List Nat) (off v : Nat) : (wr16 buf off v).length = buf.length := by
  simp [wr16]

theorem wordsum_wr16 : ∀ (k : Nat) (buf : List Nat) (c : Nat), 2 * k + 1 < buf.length →
    rd16 buf (2 * k) = 0 → c < 65536 → wordsum (wr16 buf (2 * k) c) = wordsum buf + c
  | _, [], _, h, _, _ => by simp at h
  | _, [_], _, h, _, _ => by simp at h
  | 0, b0 :: b1 :: w, c, _, hz, hc => by
    simp only [rd16, Nat.mul_zero, List.getD_cons_zero, Nat.zero_add, List.getD_cons_succ] at hz
    simp only [wr16, Nat.mul_zero, List.set_cons_zero, Nat.zero_add, List.set_cons_succ, wordsum]
    omega
  | k + 1, b0 :: b1 :: w, c, h, hz, hc => by
    have e : 2 * (k + 1) = (2 * k + 1) + 1 := by omega
    have h2 : 2 * k + 1 < w.length := by simp only [List.length_cons] at h; omega
    have hz2 : rd16 w (2 * k) = 0 := by
      rw [e] at hz
      simpa only [rd16, List.getD_cons_succ] using hz
    have ih := wordsum_wr16 k w c h2 hz2 hc
    rw [e]
    simp only [wr16, List.set_cons_succ, wordsum] at ih ⊢
    omega

theorem wordsum_le_of_bytes : ∀ (buf : List Nat), is_bytes buf →
    wordsum buf ≤ 65535 * (buf.length / 2)
  | [], _ => by simp [wordsum]
  | [_], _ => by simp [wordsum]
  | b0 :: b1 :: w, h => by
    have h0 : b0 < 256 := h b0 (by simp)
    have h1 : b1 < 256 := h b1 (by simp)
    have hw : is_bytes w := fun b hb => h b (by simp [hb])
    have ih := wordsum_le_of_bytes w hw
    simp only [wordsum, List.length_cons]
    omega

theorem in_cksum_store_verify (buf : List Nat) (k : Nat)
    (heven : buf.length % 2 = 0) (hk : 2 * k + 1 < buf.length)
    (hzero : rd16 buf (2 * k) = 0) (hsum : wordsum buf ≤ 2147450880) :
    in_cksum (wr16 buf (2 * k) (in_cksum buf (buf.length : Int)).toNat) (buf.length : Int) = 0 := by
  have e1 := in_cksum_even buf heven
  have hS0 : (0 : Int) ≤ ((wordsum buf : Nat) : Int) := Int.ofNat_nonneg _
  have hS1 : ((wordsum buf : Nat) : Int) ≤ 2147450880 := by
    have := Int.ofNat_le.mpr hsum
    simpa using this
  have hr := in_cksum_fold_range (wrap32 ((wordsum buf : Nat) : Int))
  rw [e1]
  generalize hc : in_cksum_fold (wrap32 ((wordsum buf : Nat) : Int)) = c at hr
  have hcn : c.toNat < 65536 := by omega
  have hcast : ((c.toNat : Nat) : Int) = c := Int.toNat_of_nonneg hr.1
  have hlen := wr16_length buf (2 * k) c.toNat
  have e2 := in_cksum_even (wr16 buf (2 * k) c.toNat) (by rw [hlen]; exact heven)
  rw [hlen] at e2
  rw [e2, wordsum_wr16 k buf _ hk hzero hcn, Nat.cast_add, hcast, ← hc]
  exact fold_verify _ hS0 hS1

theorem wordsum_replicate : ∀ (n : Nat) (rest : List Nat),
    wordsum (List.replicate (2 * n) 255 ++ rest) = n * 65535 + wordsum rest
  | 0, rest => by simp
  | n + 1, rest => by
    have e : 2 * (n + 1) = (2 * n + 1) + 1 := by omega
    have ih := wordsum_replicate n rest
    rw [e]
    simp only [List.replicate_succ, List.cons_append, wordsum, List.append_eq] at ih ⊢
    omega



theorem cksum_edge_buf_length : cksum_edge_buf.length = 65540 := by
  rw [cksum_edge_buf, List.length_cons, List.length_cons, List.length_append,
    List.length_replicate]
  rfl

theorem cksum_edge_buf_wordsum : wordsum cksum_edge_buf = 2147483647 := by
  rw [cksum_edge_buf, wordsum, wordsum_replicate 32768 [255, 127]]
  rfl

theorem cksum_edge_buf_cksum : in_cksum cksum_edge_buf (65540 : Nat) = 32768 := by
  have h := in_cksum_even cksum_edge_buf (by rw [cksum_edge_buf_length])
  rw [cksum_edge_buf_length, cksum_edge_buf_wordsum] at h
  rw [h]
  decide

theorem cksum_edge_buf_rd16 : rd16 cksum_edge_buf (2 * 0) = 0 := by
  rw [cksum_edge_buf]
  rfl

theorem cksum_edge_buf_verify :
    in_cksum (wr16 cksum_edge_buf 0 32768) (65540 : Nat) = 1 := by
  have hl : (wr16 cksum_edge_buf 0 32768).length = 65540 := by
    rw [wr16_length, cksum_edge_buf_length]
  have h := in_cksum_even (wr16 cksum_edge_buf 0 32768) (by rw [hl])
  rw [hl] at h
  rw [h]
  have hw := wordsum_wr16 0 cksum_edge_buf 32768 (by rw [cksum_edge_buf_length]; omega)
    cksum_edge_buf_rd16 (by omega)
  rw [hw, cksum_edge_buf_wordsum]
  decide

theorem cksum_edge_buf_is_bytes : is_bytes cksum_edge_buf := by
  intro b hb
  simp only [cksum_edge_buf, List.mem_cons, List.mem_append, List.mem_replicate,
    List.mem_nil_iff, or_false] at hb
  omega

/-! ## C1: the checksum verifies -/

/-- C1 (counterexample): the buffer `cksum_edge_buf` has an even length, a zero
checksum field at offset 0 and 16-bit words that sum to 2^31 - 1, less than
2^31; with its checksum 32768 stored into the field, the words sum to more than
the largest `int`, the accumulator of `in_cksum` wraps, and the verification
returns 1, not 0. -/
theorem in_cksum_verify_wraps_at_edge :
    is_bytes cksum_edge_buf ∧ cksum_edge_buf.length % 2 = 0 ∧
    2 * 0 + 1 < cksum_edge_buf.length ∧ rd16 cksum_edge_buf (2 * 0) = 0 ∧
    wordsum cksum_edge_buf < 2 ^ 31 ∧
    in_cksum (wr16 cksum_edge_buf (2 * 0)
        (in_cksum cksum_edge_buf (cksum_edge_buf.length : Int)).toNat)
      (cksum_edge_buf.length : Int) = 1 := by
  refine ⟨cksum_edge_buf_is_bytes, ?_, ?_, cksum_edge_buf_rd16, ?_, ?_⟩
  · rw [cksum_edge_buf_length]
  · rw [cksum_edge_buf_length]; omega
  · rw [cksum_edge_buf_wordsum]; omega
  · rw [cksum_edge_buf_length, cksum_edge_buf_cksum]
    exact cksum_edge_buf_verify

/-- C1 (amended): for every even-length buffer that has an aligned 16-bit
checksum field set to zero and whose 16-bit words sum to at most 2^31 - 32768
(in particular every buffer of bytes of at most 1536 bytes): if
`c = in_cksum(buffer)` is stored into that field, `in_cksum` of the resulting
buffer returns 0. -/
theorem in_cksum_verify_zero (buf : List Nat) (k : Nat)
    (heven : buf.length % 2 = 0) (hk : 2 * k + 1 < buf.length)
    (hzero : rd16 buf (2 * k) = 0)
    (hsum : wordsum buf ≤ 2 ^ 31 - 32768 ∨ (is_bytes buf ∧ buf.length ≤ 1536)) :
    in_cksum (wr16 buf (2 * k) (in_cksum buf (buf.length : Int)).toNat)
      (buf.length : Int) = 0 := by
  apply in_cksum_store_verify buf k heven hk hzero
  rcases hsum with h | ⟨hb, hl⟩
  · omega
  · have := wordsum_le_of_bytes buf hb
    have h2 : buf.length / 2 ≤ 768 := by omega
    have h3 : 65535 * (buf.length / 2) ≤ 65535 * 768 := Nat.mul_le_mul_left _ h2
    omega

/-- C1 (witness): an 8-byte echo request header with id 5 and sequence 1. -/
theorem in_cksum_verify_zero_witness :
    ([8, 0, 0, 0, 5, 0, 0, 1] : List Nat).length % 2 = 0 ∧
    rd16 [8, 0, 0, 0, 5, 0, 0, 1] (2 * 1) = 0 ∧
    in_cksum (wr16 [8, 0, 0, 0, 5, 0, 0, 1] (2 * 1)
        (in_cksum [8, 0, 0, 0, 5, 0, 0, 1]
          (([8, 0, 0, 0, 5, 0, 0, 1] : List Nat).length : Int)).toNat)
      (([8, 0, 0, 0, 5, 0, 0, 1] : List Nat).length : Int) = 0 :=
  ⟨by decide, by decide,
   in_cksum_verify_zero [8, 0, 0, 0, 5, 0, 0, 1] 1 (by decide) (by decide) (by decide)
     (Or.inl (by decide))⟩

/-! ## Lemmas: what each operation changes -/

theorem reschedule_icmp_send_eq (ih : icmp_host) :
    reschedule_icmp_send ih
      = { ih with ih_to := evtimer_add ih.ih_to (if ih.ih_ihs = IHS_UP then 10 else 60) } := by
  unfold reschedule_icmp_send
  split <;> rfl

theorem new_ip_none (now : Nat) (ih : icmp_host) : new_ip false now ih = none := rfl

theorem new_ip_some (now : Nat) (ih : icmp_host) :
    ∃ ip : icmp_packet, ip.ip_seq = ih.ih_seq ∧ ip.ip_tv = now ∧
      new_ip true now ih
        = some ({ ih with ih_iplist := ip :: ih.ih_iplist,
                          ih_ipcount := (ih.ih_ipcount + 1) % UINT_MOD,
                          ih_seq := (ih.ih_seq + 1) % 65536 }, ip) :=
  ⟨_, rfl, rfl, rfl⟩

/-- The three outcomes of `icmp_send`. -/
theorem icmp_send_cases (sd : Int) (env : send_env) (ih : icmp_host) :
    (env.alloc_ok = false ∧ icmp_send sd env ih = (ih, [], -1)) ∨
    (∃ ip : icmp_packet, ip.ip_seq = ih.ih_seq ∧ env.alloc_ok = true ∧
      ((env.sent ≤ 0 ∧ icmp_send sd env ih
          = ({ ih with ih_iplist := ip :: ih.ih_iplist,
                       ih_ipcount := (ih.ih_ipcount + 1) % UINT_MOD,
                       ih_seq := (ih.ih_seq + 1) % 65536 },
             [effect.sendto sd ih.ih_id (ip.ip_buf.take 512)], -1)) ∨
       (0 < env.sent ∧ icmp_send sd env ih
          = ({ ih with ih_iplist := ip :: ih.ih_iplist,
                       ih_ipcount := (ih.ih_ipcount + 1) % UINT_MOD,
                       ih_seq := (ih.ih_seq + 1) % 65536,
                       ih_to := evtimer_add ih.ih_to (if ih.ih_ihs = IHS_UP then 10 else 60) },
             [effect.sendto sd ih.ih_id (ip.ip_buf.take 512)], 0)))) := by
  cases ha : env.alloc_ok
  · left
    refine ⟨rfl, ?_⟩
    simp only [icmp_send, ha, new_ip_none]
  · right
    obtain ⟨ip, hseq, _, hnew⟩ := new_ip_some env.now ih
    refine ⟨ip, hseq, rfl, ?_⟩
    by_cases hs : env.sent ≤ 0
    · left
      refine ⟨hs, ?_⟩
      simp only [icmp_send, ha, hnew, hs, if_true]
    · right
      refine ⟨by omega, ?_⟩
      simp only [icmp_send, ha, hnew, hs, if_false, reschedule_icmp_send_eq]

theorem icmp_send_ihs (sd : Int) (env : send_env) (ih : icmp_host) :
    (icmp_send sd env ih).1.ih_ihs = ih.ih_ihs := by
  rcases icmp_send_cases sd env ih with ⟨_, h⟩ | ⟨ip, _, _, ⟨_, h⟩ | ⟨_, h⟩⟩ <;> rw [h]

theorem icmp_send_retrycount (sd : Int) (env : send_env) (ih : icmp_host) :
    (icmp_send sd env ih).1.ih_retrycount = ih.ih_retrycount := by
  rcases icmp_send_cases sd env ih with ⟨_, h⟩ | ⟨ip, _, _, ⟨_, h⟩ | ⟨_, h⟩⟩ <;> rw [h]

theorem icmp_send_id (sd : Int) (env : send_env) (ih : icmp_host) :
    (icmp_send sd env ih).1.ih_id = ih.ih_id := by
  rcases icmp_send_cases sd env ih with ⟨_, h⟩ | ⟨ip, _, _, ⟨_, h⟩ | ⟨_, h⟩⟩ <;> rw [h]

theorem icmp_send_no_report (sd : Int) (env : send_env) (ih : icmp_host) :
    ∀ e ∈ (icmp_send sd env ih).2.1, ∃ data, e = effect.sendto sd ih.ih_id data := by
  rcases icmp_send_cases sd env ih with ⟨_, h⟩ | ⟨ip, _, _, ⟨_, h⟩ | ⟨_, h⟩⟩ <;> rw [h] <;>
    simp

theorem free_all_ip_eq : ∀ (l : List icmp_packet) (ih : icmp_host), ih.ih_iplist = l →
    (free_all_ip l ih).ih_iplist = [] ∧ (free_all_ip l ih).ih_ihs = ih.ih_ihs ∧
    (free_all_ip l ih).ih_retrycount = ih.ih_retrycount ∧
    (free_all_ip l ih).ih_seq = ih.ih_seq ∧ (free_all_ip l ih).ih_id = ih.ih_id ∧
    (free_all_ip l ih).ih_to = ih.ih_to
  | [], ih, h => by simp [free_all_ip, h]
  | _ :: rest, ih, h => by
    have := free_all_ip_eq rest (free_ip ih 0) (by simp [free_ip, h])
    simpa [free_all_ip, free_ip] using this


/-- The two branches of `ih_timeout`. -/
theorem ih_timeout_down (sd : Int) (env : send_env) (ih : icmp_host)
    (hup : ih.ih_ihs = IHS_UP) (hr : ih.ih_retrycount = 0) :
    (ih_timeout sd env ih).2 = [effect.compose_to_father IMSG_HOST_DOWN (some ih.ih_id)] ∧
    (ih_timeout sd env ih).1.ih_ihs = IHS_DOWN ∧
    (ih_timeout sd env ih).1.ih_iplist = [] ∧
    (ih_timeout sd env ih).1.ih_retrycount = 0 ∧
    (ih_timeout sd env ih).1.ih_seq = ih.ih_seq ∧
    (ih_timeout sd env ih).1.ih_id = ih.ih_id ∧
    (ih_timeout sd env ih).1.ih_to = evtimer_add ih.ih_to 60 := by
  have hc : ih.ih_ihs = IHS_UP ∧ ih.ih_retrycount = 0 := ⟨hup, hr⟩
  have e : ih_timeout sd env ih
      = (reschedule_icmp_send (free_all_ip ih.ih_iplist { ih with ih_ihs := IHS_DOWN }),
         [effect.compose_to_father IMSG_HOST_DOWN (some ih.ih_id)]) := by
    unfold ih_timeout
    rw [if_pos hc]
  obtain ⟨f1, f2, f3, f4, f5, f6⟩ :=
    free_all_ip_eq ih.ih_iplist { ih with ih_ihs := IHS_DOWN } rfl
  simp only [] at f2 f3 f4 f5 f6
  rw [e, reschedule_icmp_send_eq]
  generalize free_all_ip ih.ih_iplist { ih with ih_ihs := IHS_DOWN } = g
    at f1 f2 f3 f4 f5 f6 ⊢
  simp [f1, f2, f3, f4, f5, f6, hr]

theorem ih_timeout_send (sd : Int) (env : send_env) (ih : icmp_host)
    (h : ¬ (ih.ih_ihs = IHS_UP ∧ ih.ih_retrycount = 0)) :
    ih_timeout sd env ih
      = ((icmp_send sd env
            (if ih.ih_retrycount ≠ 0 then
              { ih with ih_retrycount := (ih.ih_retrycount + UINT_MOD - 1) % UINT_MOD }
             else ih)).1,
         (icmp_send sd env
            (if ih.ih_retrycount ≠ 0 then
              { ih with ih_retrycount := (ih.ih_retrycount + UINT_MOD - 1) % UINT_MOD }
             else ih)).2.1) := by
  simp only [ih_timeout, h, if_false]

theorem ih_timeout_ihs (sd : Int) (env : send_env) (ih : icmp_host) :
    (ih_timeout sd env ih).1.ih_ihs
      = if ih.ih_ihs = IHS_UP ∧ ih.ih_retrycount = 0 then IHS_DOWN else ih.ih_ihs := by
  by_cases h : ih.ih_ihs = IHS_UP ∧ ih.ih_retrycount = 0
  · rw [if_pos h]; exact (ih_timeout_down sd env ih h.1 h.2).2.1
  · rw [if_neg h, ih_timeout_send sd env ih h, icmp_send_ihs]
    split <;> rfl

theorem ih_timeout_retrycount (sd : Int) (env : send_env) (ih : icmp_host)
    (hr : ih.ih_retrycount < UINT_MOD) :
    (ih_timeout sd env ih).1.ih_retrycount = ih.ih_retrycount - 1 := by
  by_cases h : ih.ih_ihs = IHS_UP ∧ ih.ih_retrycount = 0
  · rw [(ih_timeout_down sd env ih h.1 h.2).2.2.2.1, h.2]
  · rw [ih_timeout_send sd env ih h, icmp_send_retrycount]
    simp only [UINT_MOD] at hr ⊢
    split
    · simp only; omega
    · omega

theorem ih_timeout_id (sd : Int) (env : send_env) (ih : icmp_host) :
    (ih_timeout sd env ih).1.ih_id = ih.ih_id := by
  by_cases h : ih.ih_ihs = IHS_UP ∧ ih.ih_retrycount = 0
  · exact (ih_timeout_down sd env ih h.1 h.2).2.2.2.2.2.1
  · rw [ih_timeout_send sd env ih h, icmp_send_id]
    split <;> rfl

theorem ih_timeout_idle_ihs (sd : Int) (env : send_env) (ih : icmp_host) :
    (ih_timeout sd env { ih with ih_to := ev_timer.idle }).1.ih_ihs
      = if ih.ih_ihs = IHS_UP ∧ ih.ih_retrycount = 0 then IHS_DOWN else ih.ih_ihs :=
  ih_timeout_ihs sd env _

/-! ## Lemmas: lookups -/

theorem find_ih_some : ∀ (l : List icmp_host) (id i : Nat) (ih : icmp_host),
    find_ih l id = some (i, ih) →
    l[i]? = some ih ∧ ih.ih_id = id ∧ ∀ j g, j < i → l[j]? = some g → g.ih_id ≠ id
  | [], _, _, _, h => by simp [find_ih] at h
  | x :: rest, id, i, ih, h => by
    by_cases hx : x.ih_id = id
    · simp only [find_ih, hx, ne_eq, not_true_eq_false, if_false, Option.some.injEq,
        Prod.mk.injEq] at h
      obtain ⟨rfl, rfl⟩ := h
      exact ⟨by simp, hx, fun j g hj => by omega⟩
    · simp only [find_ih, ne_eq, hx, not_false_eq_true, if_true, Option.map_eq_some',
        Prod.mk.injEq, Prod.exists] at h
      obtain ⟨a, b, hab, rfl, rfl⟩ := h
      obtain ⟨h1, h2, h3⟩ := find_ih_some rest id a b hab
      refine ⟨by simpa using h1, h2, ?_⟩
      intro j g hj hg
      cases j with
      | zero => simp at hg; subst hg; exact hx
      | succ j => exact h3 j g (by omega) (by simpa using hg)

theorem find_ih_none : ∀ (l : List icmp_host) (id : Nat),
    find_ih l id = none ↔ ∀ ih ∈ l, ih.ih_id ≠ id
  | [], _ => by simp [find_ih]
  | x :: rest, id => by
    by_cases hx : x.ih_id = id
    · simp [find_ih, hx]
    · simp [find_ih, hx, find_ih_none rest id]

theorem find_ih_first : ∀ (l : List icmp_host) (i : Nat) (ih : icmp_host),
    l[i]? = some ih → (∀ j g, j < i → l[j]? = some g → g.ih_id ≠ ih.ih_id) →
    find_ih l ih.ih_id = some (i, ih)
  | [], _, _, h, _ => by simp at h
  | x :: rest, 0, ih, h, _ => by
    simp at h; subst h; simp [find_ih]
  | x :: rest, i + 1, ih, h, hf => by
    have hx : x.ih_id ≠ ih.ih_id := hf 0 x (by omega) (by simp)
    have := find_ih_first rest i ih (by simpa using h)
      (fun j g hj hg => hf (j + 1) g (by omega) (by simpa using hg))
    simp [find_ih, hx, this]

theorem find_ih_of_nodup (l : List icmp_host) (i : Nat) (ih : icmp_host)
    (hn : (l.map icmp_host.ih_id).Nodup) (h : l[i]? = some ih) :
    find_ih l ih.ih_id = some (i, ih) := by
  apply find_ih_first l i ih h
  intro j g hj hg heq
  have hi : i < (l.map icmp_host.ih_id).length := by
    rcases List.getElem?_eq_some.mp h with ⟨hi, _⟩
    simpa using hi
  have e1 : (l.map icmp_host.ih_id)[i]? = some ih.ih_id := by simp [h]
  have e2 : (l.map icmp_host.ih_id)[j]? = some ih.ih_id := by simp [hg, heq]
  exact (List.nodup_iff_getElem?_ne_getElem?.mp hn) j i hj hi (by rw [e1, e2])

theorem find_ip_list_some : ∀ (l : List icmp_packet) (seq k : Nat) (p : icmp_packet),
    find_ip_list l seq = some (k, p) →
    ∃ l1 l2, l = l1 ++ p :: l2 ∧ l1.length = k ∧ p.ip_seq = seq ∧
      ∀ x ∈ l1, x.ip_seq ≠ seq
  | [], _, _, _, h => by simp [find_ip_list] at h
  | x :: rest, seq, k, p, h => by
    by_cases hx : x.ip_seq = seq
    · simp only [find_ip_list, hx, ne_eq, not_true_eq_false, if_false, Option.some.injEq,
        Prod.mk.injEq] at h
      obtain ⟨rfl, rfl⟩ := h
      exact ⟨[], rest, rfl, rfl, hx, by simp⟩
    · simp only [find_ip_list, ne_eq, hx, not_false_eq_true, if_true, Option.map_eq_some',
        Prod.mk.injEq, Prod.exists] at h
      obtain ⟨a, b, hab, rfl, rfl⟩ := h
      obtain ⟨l1, l2, e, hl, hs, hall⟩ := find_ip_list_some rest seq a b hab
      refine ⟨x :: l1, l2, by simp [e], by simp [hl], hs, ?_⟩
      intro y hy
      rcases List.mem_cons.mp hy with rfl | hy
      · exact hx
      · exact hall y hy

theorem find_ip_list_none : ∀ (l : List icmp_packet) (seq : Nat),
    find_ip_list l seq = none ↔ ∀ p ∈ l, p.ip_seq ≠ seq
  | [], _ => by simp [find_ip_list]
  | x :: rest, seq => by
    by_cases hx : x.ip_seq = seq
    · simp [find_ip_list, hx]
    · simp [find_ip_list, hx, find_ip_list_none rest seq]

theorem eraseIdx_append_cons {α : Type} (l1 l2 : List α) (p : α) :
    (l1 ++ p :: l2).eraseIdx l1.length = l1 ++ l2 := by
  induction l1 with
  | nil => rfl
  | cons a t ih => simp [ih]


/-! ## Lemmas: the receive handler -/

/-- The host a matched echo reply leaves behind. -/
theorem icmp_raw_socket_handler_matched (ihl : List icmp_host) (m : recv_msg)
    (iplen i k : Nat) (ih : icmp_host) (p : icmp_packet)
    (hparse : icmp_parse m = parse_result.ok iplen)
    (hfind : find_ih ihl (rd16 m.buf (iplen + 4)) = some (i, ih))
    (htype : m.buf.getD iplen 0 = ICMP_ECHOREPLY)
    (hip : find_ip ih (ntohs (rd16 m.buf (iplen + 6))) = some (k, p)) :
    icmp_raw_socket_handler ihl m
      = some (ihl.set i
                { ih with ih_ihs := IHS_UP, ih_retrycount := IH_DEF_RETRYCOUNT,
                          ih_to := evtimer_add ih.ih_to 10,
                          ih_ipcount := (ih.ih_ipcount + UINT_MOD - 1) % UINT_MOD,
                          ih_iplist := ih.ih_iplist.eraseIdx k },
              if ih.ih_ihs = IHS_DOWN then
                [effect.compose_to_father IMSG_HOST_UP (some ih.ih_id)]
              else []) := by
  simp only [icmp_raw_socket_handler, hparse, hfind, htype, ne_eq, not_true_eq_false,
    if_false, hip]
  cases hs : ih.ih_ihs
  · simp [reschedule_icmp_send_eq, free_ip]
  · simp [reschedule_icmp_send_eq, free_ip, hs]

/-- Every run of the receive handler that returns either drops the datagram or
is a matched echo reply. -/
theorem icmp_raw_socket_handler_cases (ihl : List icmp_host) (m : recv_msg)
    (l1 : List icmp_host) (effs : List effect)
    (h : icmp_raw_socket_handler ihl m = some (l1, effs)) :
    (l1 = ihl ∧ effs = []) ∨
    ∃ iplen i k ih p, icmp_parse m = parse_result.ok iplen ∧
      find_ih ihl (rd16 m.buf (iplen + 4)) = some (i, ih) ∧
      m.buf.getD iplen 0 = ICMP_ECHOREPLY ∧
      find_ip ih (ntohs (rd16 m.buf (iplen + 6))) = some (k, p) := by
  cases hparse : icmp_parse m with
  | fatal => simp [icmp_raw_socket_handler, hparse] at h
  | reject =>
    simp only [icmp_raw_socket_handler, hparse, Option.some.injEq, Prod.mk.injEq] at h
    exact Or.inl ⟨h.1.symm, h.2.symm⟩
  | ok iplen =>
    cases hfind : find_ih ihl (rd16 m.buf (iplen + 4)) with
    | none =>
      simp only [icmp_raw_socket_handler, hparse, hfind, Option.some.injEq, Prod.mk.injEq] at h
      exact Or.inl ⟨h.1.symm, h.2.symm⟩
    | some r =>
      obtain ⟨i, ih⟩ := r
      by_cases htype : m.buf.getD iplen 0 = ICMP_ECHOREPLY
      · cases hip : find_ip ih (ntohs (rd16 m.buf (iplen + 6))) with
        | none =>
          simp only [icmp_raw_socket_handler, hparse, hfind, htype, ne_eq, not_true_eq_false,
            if_false, hip, Option.some.injEq, Prod.mk.injEq] at h
          exact Or.inl ⟨h.1.symm, h.2.symm⟩
        | some q =>
          obtain ⟨k, p⟩ := q
          exact Or.inr ⟨iplen, i, k, ih, p, rfl, hfind, htype, hip⟩
      · simp only [icmp_raw_socket_handler, hparse, hfind, ne_eq, htype, not_false_eq_true,
          if_true, Option.some.injEq, Prod.mk.injEq] at h
        exact Or.inl ⟨h.1.symm, h.2.symm⟩

/-- A datagram that matches no host, is no echo reply, or matches no outstanding
packet leaves the hosts as they are and has no effect. -/
theorem icmp_raw_socket_handler_drop (ihl : List icmp_host) (m : recv_msg) (iplen : Nat)
    (hparse : icmp_parse m = parse_result.ok iplen)
    (hdrop : find_ih ihl (rd16 m.buf (iplen + 4)) = none ∨
      m.buf.getD iplen 0 ≠ ICMP_ECHOREPLY ∨
      ∃ i ih, find_ih ihl (rd16 m.buf (iplen + 4)) = some (i, ih) ∧
        find_ip ih (ntohs (rd16 m.buf (iplen + 6))) = none) :
    icmp_raw_socket_handler ihl m = some (ihl, []) := by
  rcases hdrop with h | h | ⟨i, ih, h1, h2⟩
  · simp only [icmp_raw_socket_handler, hparse, h]
  · cases hfind : find_ih ihl (rd16 m.buf (iplen + 4)) with
    | none => simp only [icmp_raw_socket_handler, hparse, hfind]
    | some r =>
      obtain ⟨i, ih⟩ := r
      simp only [icmp_raw_socket_handler, hparse, hfind, ne_eq, h, not_false_eq_true, if_true]
  · by_cases htype : m.buf.getD iplen 0 = ICMP_ECHOREPLY
    · simp only [icmp_raw_socket_handler, hparse, h1, htype, ne_eq, not_true_eq_false,
        if_false, h2]
    · simp only [icmp_raw_socket_handler, hparse, h1, ne_eq, htype, not_false_eq_true, if_true]

/-! ## Lemmas: the loops over the host list -/

theorem send_all_getElem? (sd : Int) (env : Nat → send_env) :
    ∀ (l : List icmp_host) (n i : Nat),
      (send_all sd env n l).1[i]? = (l[i]?).map (fun ih => (icmp_send sd (env (n + i)) ih).1)
  | [], _, _ => by simp [send_all]
  | x :: rest, n, 0 => by simp [send_all]
  | x :: rest, n, i + 1 => by
    have := send_all_getElem? sd env rest (n + 1) i
    simp only [send_all, List.getElem?_cons_succ, this]
    have e : n + 1 + i = n + (i + 1) := by omega
    rw [e]

theorem send_all_mem (sd : Int) (env : Nat → send_env) :
    ∀ (l : List icmp_host) (n : Nat) (x : icmp_host), x ∈ (send_all sd env n l).1 →
      ∃ ih ∈ l, ∃ e, x = (icmp_send sd e ih).1
  | [], _, _, h => by simp [send_all] at h
  | y :: rest, n, x, h => by
    simp only [send_all, List.mem_cons] at h
    rcases h with rfl | h
    · exact ⟨y, by simp, env n, rfl⟩
    · obtain ⟨ih, hm, e, he⟩ := send_all_mem sd env rest (n + 1) x h
      exact ⟨ih, by simp [hm], e, he⟩

theorem init_all_mem (pton : Nat → Bool × Bool) :
    ∀ (l : List icmp_host) (n : Nat) (l1 : List icmp_host), init_all pton n l = some l1 →
      ∀ x ∈ l1, ∃ ih ∈ l, ∃ a b, init_ih a b ih = some x
  | [], _, l1, h, x, hx => by
    simp only [init_all, Option.some.injEq] at h
    subst h; simp at hx
  | y :: rest, n, l1, h, x, hx => by
    simp only [init_all] at h
    cases h1 : init_ih (pton n).1 (pton n).2 y with
    | none => simp [h1] at h
    | some y1 =>
      cases h2 : init_all pton (n + 1) rest with
      | none => simp [h1, h2] at h
      | some rest1 =>
        simp only [h1, h2, Option.some.injEq] at h
        subst h
        rcases List.mem_cons.mp hx with rfl | hx
        · exact ⟨y, by simp, _, _, h1⟩
        · obtain ⟨ih, hm, a, b, hab⟩ := init_all_mem pton rest (n + 1) rest1 h2 x hx
          exact ⟨ih, by simp [hm], a, b, hab⟩

theorem init_ih_some (a b : Bool) (ih x : icmp_host) (h : init_ih a b ih = some x) :
    x.ih_retrycount = IH_DEF_RETRYCOUNT ∧ x.ih_ihs = ih.ih_ihs ∧ x.ih_seq = ih.ih_seq ∧
    x.ih_iplist = ih.ih_iplist ∧ x.ih_id = ih.ih_id ∧ x.ih_to = ev_timer.idle := by
  unfold init_ih at h
  split at h
  · simp only [Option.some.injEq] at h; subst h; simp
  · split at h
    · simp only [Option.some.injEq] at h; subst h; simp
    · simp at h


/-! ## Lemmas: one callback of the dispatch loop -/

theorem step_socket_raw_getElem? (w : worker) (fd : Int) (env : Nat → send_env)
    (w1 : worker) (effs : List effect)
    (h : step w (event.socket_raw fd env) = some (w1, effs)) (i : Nat) :
    w1.sc_ihlist[i]? = (w.sc_ihlist[i]?).map (fun ih => (icmp_send fd (env i) ih).1) := by
  simp only [step, socket_raw, Option.some.injEq, Prod.mk.injEq] at h
  obtain ⟨rfl, _⟩ := h
  simpa using send_all_getElem? fd env w.sc_ihlist 0 i

theorem step_timeout_some (w : worker) (j : Nat) (env : send_env)
    (w1 : worker) (effs : List effect)
    (h : step w (event.timeout j env) = some (w1, effs)) :
    ∃ ih secs, w.sc_ihlist[j]? = some ih ∧ ih.ih_to = ev_timer.pending secs ∧
      w1 = { w with sc_ihlist :=
              (w.sc_ihlist.set j (ih_timeout w.ipd_sd env { ih with ih_to := ev_timer.idle }).1) } ∧
      effs = (ih_timeout w.ipd_sd env { ih with ih_to := ev_timer.idle }).2 := by
  simp only [step] at h
  cases hj : w.sc_ihlist[j]? with
  | none => simp [hj] at h
  | some ih =>
    cases ht : ih.ih_to with
    | null => simp [hj, ht] at h
    | idle => simp [hj, ht] at h
    | pending secs =>
      simp only [hj, ht, Option.some.injEq, Prod.mk.injEq] at h
      exact ⟨ih, secs, rfl, ht, h.1.symm, h.2.symm⟩

theorem step_datagram_some (w : worker) (m : recv_msg) (w1 : worker) (effs : List effect)
    (h : step w (event.datagram m) = some (w1, effs)) :
    w.ipd_sdev = true ∧ ∃ l1, icmp_raw_socket_handler w.sc_ihlist m = some (l1, effs) ∧
      w1 = { w with sc_ihlist := l1 } := by
  simp only [step] at h
  cases hs : w.ipd_sdev with
  | false => simp [hs] at h
  | true =>
    cases hh : icmp_raw_socket_handler w.sc_ihlist m with
    | none => simp [hs, hh] at h
    | some r =>
      simp only [hs, hh, if_true, Option.some.injEq, Prod.mk.injEq] at h
      exact ⟨rfl, r.1, by rw [← h.2], h.1.symm⟩

theorem step_status (w : worker) (e : event) (w1 : worker) (effs : List effect)
    (i : Nat) (ih ih1 : icmp_host)
    (hstep : step w e = some (w1, effs))
    (hi : w.sc_ihlist[i]? = some ih) (hi1 : w1.sc_ihlist[i]? = some ih1) :
    (ih.ih_ihs ≠ IHS_UP → ih1.ih_ihs = IHS_UP →
      ∃ m iplen k p, e = event.datagram m ∧ icmp_parse m = parse_result.ok iplen ∧
        find_ih w.sc_ihlist (rd16 m.buf (iplen + 4)) = some (i, ih) ∧
        m.buf.getD iplen 0 = ICMP_ECHOREPLY ∧
        find_ip ih (ntohs (rd16 m.buf (iplen + 6))) = some (k, p)) ∧
    (ih.ih_ihs = IHS_UP → ih1.ih_ihs ≠ IHS_UP →
      ∃ env, e = event.timeout i env ∧ ih.ih_retrycount = 0) := by
  cases e with
  | socket_raw fd env =>
    have := step_socket_raw_getElem? w fd env w1 effs hstep i
    rw [hi, hi1] at this
    simp only [Option.map_some', Option.some.injEq] at this
    have hs : ih1.ih_ihs = ih.ih_ihs := by rw [this, icmp_send_ihs]
    constructor
    · intro h1 h2; rw [hs] at h2; exact absurd h2 h1
    · intro h1 h2; rw [hs] at h2; exact absurd h1 h2
  | timeout j env =>
    obtain ⟨g, secs, hj, _, rfl, _⟩ := step_timeout_some w j env w1 effs hstep
    by_cases hij : j = i
    · subst hij
      rw [hi] at hj
      simp only [Option.some.injEq] at hj
      subst hj
      have hlt : j < w.sc_ihlist.length := (List.getElem?_eq_some.mp hi).1
      simp only [List.getElem?_set_self hlt, Option.some.injEq] at hi1
      have hs := ih_timeout_idle_ihs w.ipd_sd env ih
      rw [hi1] at hs
      constructor
      · intro h1 h2
        have hc : ¬ (ih.ih_ihs = IHS_UP ∧ ih.ih_retrycount = 0) := fun c => h1 c.1
        rw [if_neg hc] at hs
        rw [hs] at h2; exact absurd h2 h1
      · intro h1 h2
        by_cases hr : ih.ih_retrycount = 0
        · exact ⟨env, rfl, hr⟩
        · have hc : ¬ (ih.ih_ihs = IHS_UP ∧ ih.ih_retrycount = 0) := fun c => hr c.2
          rw [if_neg hc] at hs
          rw [hs] at h2; exact absurd h1 h2
    · simp only [List.getElem?_set_ne hij] at hi1
      rw [hi] at hi1
      simp only [Option.some.injEq] at hi1
      subst hi1
      exact ⟨fun h1 h2 => absurd h2 h1, fun h1 h2 => absurd h1 h2⟩
  | datagram m =>
    obtain ⟨_, l1, hh, rfl⟩ := step_datagram_some w m w1 effs hstep
    rcases icmp_raw_socket_handler_cases w.sc_ihlist m l1 effs hh with
      ⟨rfl, _⟩ | ⟨iplen, i0, k, ih0, p, hparse, hfind, htype, hip⟩
    · simp only at hi1
      rw [hi] at hi1
      simp only [Option.some.injEq] at hi1
      subst hi1
      exact ⟨fun h1 h2 => absurd h2 h1, fun h1 h2 => absurd h1 h2⟩
    · rw [icmp_raw_socket_handler_matched w.sc_ihlist m iplen i0 k ih0 p hparse hfind htype hip]
        at hh
      simp only [Option.some.injEq, Prod.mk.injEq] at hh
      obtain ⟨rfl, _⟩ := hh
      obtain ⟨hget, _, _⟩ := find_ih_some _ _ _ _ hfind
      by_cases hij : i0 = i
      · subst hij
        rw [hi] at hget
        simp only [Option.some.injEq] at hget
        subst hget
        have hlt : i0 < w.sc_ihlist.length := (List.getElem?_eq_some.mp hi).1
        simp only [List.getElem?_set_self hlt, Option.some.injEq] at hi1
        subst hi1
        constructor
        · intro _ _
          exact ⟨m, iplen, k, p, rfl, hparse, hfind, htype, hip⟩
        · intro _ h2
          exact absurd rfl h2
      · simp only [List.getElem?_set_ne hij] at hi1
        rw [hi] at hi1
        simp only [Option.some.injEq] at hi1
        subst hi1
        exact ⟨fun h1 h2 => absurd h2 h1, fun h1 h2 => absurd h1 h2⟩


/-! ## Lemmas: invariants of a run -/

theorem run_invariant (P : worker → Prop)
    (hstep : ∀ w e w1 effs, P w → step w e = some (w1, effs) → P w1) :
    ∀ (evs : List event) (w w1 : worker) (effs : List effect),
      P w → run w evs = some (w1, effs) → P w1
  | [], w, w1, effs, hP, h => by
    simp only [run, Option.some.injEq, Prod.mk.injEq] at h
    rw [← h.1]; exact hP
  | e :: es, w, w1, effs, hP, h => by
    simp only [run] at h
    cases hs : step w e with
    | none => simp [hs] at h
    | some r =>
      obtain ⟨wa, ea⟩ := r
      cases hr : run wa es with
      | none => simp [hs, hr] at h
      | some r2 =>
        obtain ⟨wb, eb⟩ := r2
        simp only [hs, hr, Option.some.injEq, Prod.mk.injEq] at h
        rw [← h.1]
        exact run_invariant P hstep es wa wb eb (hstep w e wa ea hP hs) hr

theorem step_retrycount_le (w : worker) (e : event) (w1 : worker) (effs : List effect)
    (hP : ∀ ih ∈ w.sc_ihlist, ih.ih_retrycount ≤ IH_DEF_RETRYCOUNT)
    (hstep : step w e = some (w1, effs)) :
    ∀ ih ∈ w1.sc_ihlist, ih.ih_retrycount ≤ IH_DEF_RETRYCOUNT := by
  intro x hx
  cases e with
  | socket_raw fd env =>
    simp only [step, socket_raw, Option.some.injEq, Prod.mk.injEq] at hstep
    obtain ⟨rfl, _⟩ := hstep
    obtain ⟨ih, hm, e, rfl⟩ := send_all_mem fd env w.sc_ihlist 0 x hx
    rw [icmp_send_retrycount]
    exact hP ih hm
  | timeout j env =>
    obtain ⟨g, secs, hj, _, rfl, _⟩ := step_timeout_some w j env w1 effs hstep
    rcases List.mem_or_eq_of_mem_set hx with h | rfl
    · exact hP x h
    · have hg := hP g (List.getElem?_mem hj)
      have := ih_timeout_retrycount w.ipd_sd env { g with ih_to := ev_timer.idle }
        (by simp only [IH_DEF_RETRYCOUNT, UINT_MOD] at hg ⊢; omega)
      rw [this]
      simp only [IH_DEF_RETRYCOUNT] at hg ⊢
      omega
  | datagram m =>
    obtain ⟨_, l1, hh, rfl⟩ := step_datagram_some w m w1 effs hstep
    rcases icmp_raw_socket_handler_cases w.sc_ihlist m l1 effs hh with
      ⟨rfl, _⟩ | ⟨iplen, i0, k, ih0, p, hparse, hfind, htype, hip⟩
    · exact hP x hx
    · rw [icmp_raw_socket_handler_matched w.sc_ihlist m iplen i0 k ih0 p hparse hfind htype hip]
        at hh
      simp only [Option.some.injEq, Prod.mk.injEq] at hh
      obtain ⟨rfl, _⟩ := hh
      rcases List.mem_or_eq_of_mem_set hx with h | rfl
      · exact hP x h
      · exact Nat.le_refl _

theorem icmp_handler_some (hosts : List icmp_host) (pton : Nat → Bool × Bool)
    (w0 : worker) (e0 : List effect) (h : icmp_handler hosts pton = some (w0, e0)) :
    init_all pton 0 hosts = some w0.sc_ihlist ∧ w0.ipd_sd = -1 ∧ w0.ipd_sdev = false ∧
    e0 = [effect.compose_to_father IMSG_SOCKET_RAW none] := by
  unfold icmp_handler at h
  cases hi : init_all pton 0 hosts with
  | none => simp [hi] at h
  | some l =>
    simp only [hi, Option.some.injEq, Prod.mk.injEq] at h
    obtain ⟨rfl, rfl⟩ := h
    exact ⟨rfl, rfl, rfl, rfl⟩

/-! ## C2: how a host's status changes -/

/-- C2: a host created by `new_ih` is not `IHS_UP`; `icmp_send` (the probe send of
the socket handoff and of `ih_timeout`) leaves the status as it is; and in
every callback of the worker, a host that was not up is up afterwards only when
the callback is `icmp_raw_socket_handler` on a datagram that `icmp_parse`
accepts, whose identifier `find_ih` resolves to this host, whose type is
`ICMP_ECHOREPLY` and whose sequence number `find_ip` finds among the host's
outstanding packets; a host that was up is not up afterwards only when the
callback is `ih_timeout` of this host and its retry counter was 0. -/
theorem status_changes_only_by_reply_and_timeout :
    (∀ id ih, new_ih true id = some ih → ih.ih_ihs ≠ IHS_UP) ∧
    (∀ sd env ih, (icmp_send sd env ih).1.ih_ihs = ih.ih_ihs) ∧
    (∀ w e w1 effs i ih ih1, step w e = some (w1, effs) →
      w.sc_ihlist[i]? = some ih → w1.sc_ihlist[i]? = some ih1 →
      (ih.ih_ihs ≠ IHS_UP → ih1.ih_ihs = IHS_UP →
        ∃ m iplen k p, e = event.datagram m ∧ icmp_parse m = parse_result.ok iplen ∧
          find_ih w.sc_ihlist (rd16 m.buf (iplen + 4)) = some (i, ih) ∧
          m.buf.getD iplen 0 = ICMP_ECHOREPLY ∧
          find_ip ih (ntohs (rd16 m.buf (iplen + 6))) = some (k, p)) ∧
      (ih.ih_ihs = IHS_UP → ih1.ih_ihs ≠ IHS_UP →
        ∃ env, e = event.timeout i env ∧ ih.ih_retrycount = 0)) := by
  refine ⟨?_, icmp_send_ihs, ?_⟩
  · intro id ih h
    simp only [new_ih, if_true, Option.some.injEq] at h
    subst h
    exact fun c => by cases c
  · intro w e w1 effs i ih ih1 hstep hi hi1
    exact step_status w e w1 effs i ih ih1 hstep hi hi1

/-! ## C3: the retry counter stays within its budget -/

/-- C3: in every state the worker reaches from `icmp_handler` (which runs
`init_ih` on every host) by socket handoffs, timer expiries and inbound
datagrams, every host's retry counter is at most `IH_DEF_RETRYCOUNT` = 3, and
`ih_timeout` leaves it one lower, or at 0 when it was 0: the unsigned counter
does not wrap. -/
theorem retrycount_within_budget (hosts : List icmp_host) (pton : Nat → Bool × Bool)
    (w0 w : worker) (e0 effs : List effect) (evs : List event)
    (hinit : icmp_handler hosts pton = some (w0, e0))
    (hrun : run w0 evs = some (w, effs)) :
    ∀ ih ∈ w.sc_ihlist, ih.ih_retrycount ≤ IH_DEF_RETRYCOUNT ∧
      ∀ sd env, (ih_timeout sd env ih).1.ih_retrycount = ih.ih_retrycount - 1 := by
  have h0 : ∀ ih ∈ w0.sc_ihlist, ih.ih_retrycount ≤ IH_DEF_RETRYCOUNT := by
    intro x hx
    obtain ⟨hi, _⟩ := icmp_handler_some hosts pton w0 e0 hinit
    obtain ⟨ih, _, a, b, hab⟩ := init_all_mem pton hosts 0 w0.sc_ihlist hi x hx
    rw [(init_ih_some a b ih x hab).1]
  have hinv := run_invariant (fun w => ∀ ih ∈ w.sc_ihlist, ih.ih_retrycount ≤ IH_DEF_RETRYCOUNT)
    (fun w e w1 effs hP hs => step_retrycount_le w e w1 effs hP hs) evs w0 w effs h0 hrun
  intro ih hm
  have hle := hinv ih hm
  refine ⟨hle, fun sd env => ih_timeout_retrycount sd env ih ?_⟩
  simp only [IH_DEF_RETRYCOUNT, UINT_MOD] at hle ⊢
  omega

/-- C3 (witness): one host, the socket handoff and one timer expiry. -/
theorem retrycount_within_budget_witness :
    ∃ w0 e0 w effs,
      icmp_handler (config_hosts [7]) pton_v4 = some (w0, e0) ∧
      run w0 [event.socket_raw 3 (fun _ => env_ok), event.timeout 0 env_ok] = some (w, effs) ∧
      ∀ ih ∈ w.sc_ihlist, ih.ih_retrycount ≤ IH_DEF_RETRYCOUNT ∧
        ∀ sd env, (ih_timeout sd env ih).1.ih_retrycount = ih.ih_retrycount - 1 :=
  ⟨_, _, _, _, rfl, rfl,
    retrycount_within_budget (config_hosts [7]) pton_v4 _ _ _ _
      [event.socket_raw 3 (fun _ => env_ok), event.timeout 0 env_ok] rfl rfl⟩

/-! ## C4: a matched echo reply -/

theorem find_ip_list_of_mem (l : List icmp_packet) (seq : Nat) (p : icmp_packet)
    (hp : p ∈ l) (hs : p.ip_seq = seq) : ∃ k q, find_ip_list l seq = some (k, q) := by
  cases h : find_ip_list l seq with
  | none => exact absurd hs ((find_ip_list_none l seq).mp h p hp)
  | some r => exact ⟨r.1, r.2, rfl⟩

/-- C4 (counterexample): two hosts carry the identifier 7; the second is down and
has an outstanding probe with sequence number 0.  The echo reply with identifier
7 and sequence number 0 matches the second host in the sense of the claim, but
`find_ih` returns the first host, which has no such packet: the handler returns
with the host list as it was and nothing composed, so the second host is still
down with the packet in its list and no `IMSG_HOST_UP` report was made. -/
theorem matched_reply_misses_later_host_with_same_id :
    ∃ ih p,
      dup_hosts[1]? = some ih ∧ p ∈ ih.ih_iplist ∧ ih.ih_ihs = IHS_DOWN ∧
      icmp_parse (icmp_datagram ICMP_ECHOREPLY 7 0) = parse_result.ok 20 ∧
      (icmp_datagram ICMP_ECHOREPLY 7 0).buf.getD 20 0 = ICMP_ECHOREPLY ∧
      rd16 (icmp_datagram ICMP_ECHOREPLY 7 0).buf (20 + 4) = ih.ih_id ∧
      ntohs (rd16 (icmp_datagram ICMP_ECHOREPLY 7 0).buf (20 + 6)) = p.ip_seq ∧
      icmp_raw_socket_handler dup_hosts (icmp_datagram ICMP_ECHOREPLY 7 0)
        = some (dup_hosts, []) ∧
      ¬ (ih.ih_ihs = IHS_UP) ∧ count_up [] ≠ 1 :=
  ⟨_, _, rfl, List.mem_singleton.mpr rfl, rfl, by decide, by decide, by decide, by decide,
    rfl, by decide, by decide⟩

/-- C4 (amended): for every host of the list that no earlier host of the list
shares its identifier with (every host, when the identifiers are pairwise
distinct: the host `find_ih` returns for its identifier) and every accepted echo
reply whose identifier is the host's and whose byte-swapped sequence number is
that of one of its outstanding packets: `icmp_raw_socket_handler` returns, the
host is `IHS_UP` with retry counter `IH_DEF_RETRYCOUNT`, the matched packet (the
first of the list with that sequence number) has been taken out of the
outstanding list and the other packets are as before (so no packet with that
sequence number is left when the sequence numbers were distinct), and the
reports composed are exactly one `IMSG_HOST_UP` if the host was down and none if
it was up. -/
theorem matched_reply_brings_host_up (ihl : List icmp_host) (m : recv_msg) (iplen i : Nat)
    (ih : icmp_host) (p : icmp_packet)
    (hi : ihl[i]? = some ih)
    (hfirst : ∀ j g, j < i → ihl[j]? = some g → g.ih_id ≠ ih.ih_id)
    (hparse : icmp_parse m = parse_result.ok iplen)
    (htype : m.buf.getD iplen 0 = ICMP_ECHOREPLY)
    (hid : rd16 m.buf (iplen + 4) = ih.ih_id)
    (hp : p ∈ ih.ih_iplist) (hseq : ntohs (rd16 m.buf (iplen + 6)) = p.ip_seq) :
    ∃ ihl1 effs ih1 l1 q l2,
      icmp_raw_socket_handler ihl m = some (ihl1, effs) ∧ ihl1[i]? = some ih1 ∧
      ih1.ih_ihs = IHS_UP ∧ ih1.ih_retrycount = IH_DEF_RETRYCOUNT ∧
      ih.ih_iplist = l1 ++ q :: l2 ∧ q.ip_seq = p.ip_seq ∧
      (∀ x ∈ l1, x.ip_seq ≠ p.ip_seq) ∧ ih1.ih_iplist = l1 ++ l2 ∧
      ((iplist_seqs ih).Nodup → q = p ∧ ∀ x ∈ ih1.ih_iplist, x.ip_seq ≠ p.ip_seq) ∧
      effs = (if ih.ih_ihs = IHS_DOWN then
                [effect.compose_to_father IMSG_HOST_UP (some ih.ih_id)] else []) ∧
      count_up effs = (if ih.ih_ihs = IHS_DOWN then 1 else 0) ∧
      count_down effs = 0 := by
  have hfind : find_ih ihl (rd16 m.buf (iplen + 4)) = some (i, ih) := by
    rw [hid]; exact find_ih_first ihl i ih hi hfirst
  obtain ⟨k, q, hip⟩ := find_ip_list_of_mem ih.ih_iplist _ p hp hseq.symm
  obtain ⟨l1, l2, hl, hk, hq, hall⟩ := find_ip_list_some _ _ _ _ hip
  have hlt : i < ihl.length := (List.getElem?_eq_some.mp hi).1
  refine ⟨_, _, _, l1, q, l2,
    icmp_raw_socket_handler_matched ihl m iplen i k ih q hparse hfind htype hip,
    List.getElem?_set_self hlt, rfl, rfl, hl, by rw [hq, hseq], ?_, ?_, ?_, rfl, ?_, ?_⟩
  · intro x hx; rw [← hseq]; exact hall x hx
  · simp only [hl, ← hk, eraseIdx_append_cons]
  · intro hnd
    simp only [iplist_seqs, hl, List.map_append, List.map_cons] at hnd
    have hnd2 := (List.nodup_append.mp hnd).2.1
    have hq2 : q.ip_seq ∉ l2.map icmp_packet.ip_seq := (List.nodup_cons.mp hnd2).1
    have hqp : q.ip_seq = p.ip_seq := by rw [hq, hseq]
    have hpq : q = p := by
      rw [hl] at hp
      rcases List.mem_append.mp hp with h | h
      · exact absurd hseq.symm (hall p h)
      · rcases List.mem_cons.mp h with h | h
        · exact h.symm
        · exact absurd (List.mem_map.mpr ⟨p, h, hqp.symm⟩) hq2
    refine ⟨hpq, ?_⟩
    intro x hx hxs
    simp only [hl, ← hk, eraseIdx_append_cons] at hx
    rcases List.mem_append.mp hx with h | h
    · exact hall x h (by rw [hxs, hseq])
    · exact hq2 (List.mem_map.mpr ⟨x, h, by rw [hxs, hqp]⟩)
  · cases ih.ih_ihs <;> simp [count_up]
  · cases ih.ih_ihs <;> simp [count_down]

/-- C4 (witness): a host that is down with one outstanding probe of sequence
number 0 receives the echo reply to it. -/
theorem matched_reply_brings_host_up_witness :
    ∃ w0 e0 w effs ih p,
      icmp_handler (config_hosts [7]) pton_v4 = some (w0, e0) ∧
      run w0 [event.socket_raw 3 (fun _ => env_ok)] = some (w, effs) ∧
      w.sc_ihlist[0]? = some ih ∧ ih.ih_iplist = [p] ∧ ih.ih_ihs = IHS_DOWN ∧
      ∃ ihl1 effs1 ih1 l1 q l2,
        icmp_raw_socket_handler w.sc_ihlist (icmp_datagram ICMP_ECHOREPLY 7 0)
          = some (ihl1, effs1) ∧ ihl1[0]? = some ih1 ∧
        ih1.ih_ihs = IHS_UP ∧ ih1.ih_retrycount = IH_DEF_RETRYCOUNT ∧
        ih.ih_iplist = l1 ++ q :: l2 ∧ q.ip_seq = p.ip_seq ∧
        (∀ x ∈ l1, x.ip_seq ≠ p.ip_seq) ∧ ih1.ih_iplist = l1 ++ l2 ∧
        ((iplist_seqs ih).Nodup → q = p ∧ ∀ x ∈ ih1.ih_iplist, x.ip_seq ≠ p.ip_seq) ∧
        effs1 = (if ih.ih_ihs = IHS_DOWN then
                  [effect.compose_to_father IMSG_HOST_UP (some ih.ih_id)] else []) ∧
        count_up effs1 = (if ih.ih_ihs = IHS_DOWN then 1 else 0) ∧
        count_down effs1 = 0 :=
  ⟨_, _, _, _, _, _, rfl, rfl, rfl, rfl, rfl,
    matched_reply_brings_host_up _ (icmp_datagram ICMP_ECHOREPLY 7 0) 20 0 _ _
      rfl (fun j _ hj => absurd hj (Nat.not_lt_zero j)) (by decide) (by decide) (by decide)
      (List.mem_singleton.mpr rfl) (by decide)⟩

/-! ## C10: a dropped datagram -/

/-- C10: a datagram that `icmp_parse` accepts and whose identifier is that of no
configured host, or whose type is not `ICMP_ECHOREPLY`, or whose sequence number
is that of no outstanding packet of the host `find_ih` returns, is dropped:
`icmp_raw_socket_handler` returns the host list it was given (status, retry
counter, sequence counter, packet list and timer of every host) with no
effect, and the worker's state after the callback is its state before. -/
theorem dropped_datagram_changes_nothing (w : worker) (m : recv_msg) (iplen : Nat)
    (hsdev : w.ipd_sdev = true)
    (hparse : icmp_parse m = parse_result.ok iplen)
    (hdrop : (∀ ih ∈ w.sc_ihlist, ih.ih_id ≠ rd16 m.buf (iplen + 4)) ∨
      m.buf.getD iplen 0 ≠ ICMP_ECHOREPLY ∨
      (∃ i ih, find_ih w.sc_ihlist (rd16 m.buf (iplen + 4)) = some (i, ih) ∧
        ∀ p ∈ ih.ih_iplist, p.ip_seq ≠ ntohs (rd16 m.buf (iplen + 6)))) :
    icmp_raw_socket_handler w.sc_ihlist m = some (w.sc_ihlist, []) ∧
    step w (event.datagram m) = some (w, []) := by
  have h : icmp_raw_socket_handler w.sc_ihlist m = some (w.sc_ihlist, []) := by
    apply icmp_raw_socket_handler_drop w.sc_ihlist m iplen hparse
    rcases hdrop with h | h | ⟨i, ih, h1, h2⟩
    · exact Or.inl ((find_ih_none _ _).mpr h)
    · exact Or.inr (Or.inl h)
    · exact Or.inr (Or.inr ⟨i, ih, h1, (find_ip_list_none _ _).mpr h2⟩)
  refine ⟨h, ?_⟩
  obtain ⟨l, sd, sdev⟩ := w
  simp only at hsdev h
  subst hsdev
  simp only [step, h, if_true]

/-- C10 (witness): the worker with one host and one outstanding probe receives an
echo reply that carries another identifier. -/
theorem dropped_datagram_changes_nothing_witness :
    ∃ w0 e0 w effs,
      icmp_handler (config_hosts [7]) pton_v4 = some (w0, e0) ∧
      run w0 [event.socket_raw 3 (fun _ => env_ok)] = some (w, effs) ∧
      icmp_raw_socket_handler w.sc_ihlist (icmp_datagram ICMP_ECHOREPLY 9 0)
        = some (w.sc_ihlist, []) ∧
      step w (event.datagram (icmp_datagram ICMP_ECHOREPLY 9 0)) = some (w, []) :=
  ⟨_, _, _, _, rfl, rfl,
    dropped_datagram_changes_nothing _ (icmp_datagram ICMP_ECHOREPLY 9 0) 20 rfl
      (by decide) (Or.inl (by decide))⟩

/-! ## Lemmas: successive timer expiries of one host -/

/-- The branch of `ih_timeout` that sends a probe. -/
theorem ih_timeout_probe (sd : Int) (env : send_env) (ih : icmp_host)
    (h : ¬ (ih.ih_ihs = IHS_UP ∧ ih.ih_retrycount = 0)) (hr : ih.ih_retrycount < UINT_MOD) :
    (ih_timeout sd env ih).1.ih_ihs = ih.ih_ihs ∧
    (ih_timeout sd env ih).1.ih_retrycount = ih.ih_retrycount - 1 ∧
    (ih_timeout sd env ih).1.ih_id = ih.ih_id ∧
    (∀ e ∈ (ih_timeout sd env ih).2, ∃ data, e = effect.sendto sd ih.ih_id data) ∧
    (env.alloc_ok = true → ∃ data, (ih_timeout sd env ih).2 = [effect.sendto sd ih.ih_id data]) := by
  refine ⟨?_, ih_timeout_retrycount sd env ih hr, ih_timeout_id sd env ih, ?_, ?_⟩
  · rw [ih_timeout_ihs, if_neg h]
  · rw [ih_timeout_send sd env ih h]
    intro e he
    have := icmp_send_no_report sd env _ e he
    split at this <;> exact this
  · intro ha
    rw [ih_timeout_send sd env ih h]
    rcases icmp_send_cases sd env
      (if ih.ih_retrycount ≠ 0 then
        { ih with ih_retrycount := (ih.ih_retrycount + UINT_MOD - 1) % UINT_MOD }
       else ih) with ⟨hf, _⟩ | ⟨ip, _, _, ⟨_, h2⟩ | ⟨_, h2⟩⟩
    · rw [ha] at hf; cases hf
    · rw [h2]; split <;> exact ⟨_, rfl⟩
    · rw [h2]; split <;> exact ⟨_, rfl⟩

theorem count_down_of_sendto (effs : List effect) (sd : Int) (id : Nat)
    (h : ∀ e ∈ effs, ∃ data, e = effect.sendto sd id data) :
    count_down effs = 0 ∧ count_up effs = 0 := by
  induction effs with
  | nil => exact ⟨rfl, rfl⟩
  | cons e rest ih =>
    obtain ⟨data, rfl⟩ := h e (by simp)
    have := ih (fun x hx => h x (by simp [hx]))
    simp only [count_down, count_up, List.filter_cons] at this ⊢
    exact this

theorem count_down_append (a b : List effect) :
    count_down (a ++ b) = count_down a + count_down b := by
  simp [count_down]

/-- A host that is down stays down under timer expiries, and they report nothing. -/
theorem timeouts_of_down (sd : Int) : ∀ (envs : List send_env) (ih : icmp_host),
    ih.ih_ihs = IHS_DOWN → ih.ih_retrycount < UINT_MOD →
    (timeouts sd envs ih).1.ih_ihs = IHS_DOWN ∧
    (timeouts sd envs ih).1.ih_retrycount = ih.ih_retrycount - envs.length ∧
    (timeouts sd envs ih).1.ih_id = ih.ih_id ∧
    ∀ e ∈ (timeouts sd envs ih).2, ∃ data, e = effect.sendto sd ih.ih_id data
  | [], ih, hd, _ => by simp [timeouts, hd]
  | env :: envs, ih, hd, hr => by
    have hc : ¬ (ih.ih_ihs = IHS_UP ∧ ih.ih_retrycount = 0) := by
      rw [hd]; exact fun c => by cases c.1
    obtain ⟨p1, p2, p3, p4, _⟩ := ih_timeout_probe sd env ih hc hr
    obtain ⟨q1, q2, q3, q4⟩ := timeouts_of_down sd envs (ih_timeout sd env ih).1
      (by rw [p1, hd]) (by rw [p2]; omega)
    simp only [timeouts, List.length_cons]
    refine ⟨q1, by rw [q2, p2]; omega, by rw [q3, p3], ?_⟩
    intro e he
    rcases List.mem_append.mp he with h | h
    · exact p4 e h
    · rw [p3] at q4; exact q4 e h

/-- A host that is up with retry counter `r` is up with counter `r - n` after
`n ≤ r` timer expiries, and down after more. -/
theorem timeouts_of_up (sd : Int) : ∀ (envs : List send_env) (ih : icmp_host),
    ih.ih_ihs = IHS_UP → ih.ih_retrycount < UINT_MOD →
    (timeouts sd envs ih).1.ih_id = ih.ih_id ∧
    (envs.length ≤ ih.ih_retrycount →
      (timeouts sd envs ih).1.ih_ihs = IHS_UP ∧
      (timeouts sd envs ih).1.ih_retrycount = ih.ih_retrycount - envs.length) ∧
    (ih.ih_retrycount < envs.length →
      (timeouts sd envs ih).1.ih_ihs = IHS_DOWN ∧ (timeouts sd envs ih).1.ih_retrycount = 0)
  | [], ih, hu, _ => by simp [timeouts, hu]
  | env :: envs, ih, hu, hr => by
    by_cases h0 : ih.ih_retrycount = 0
    · obtain ⟨_, d1, _, d3, _, d5, _⟩ := ih_timeout_down sd env ih hu h0
      obtain ⟨q1, q2, q3, _⟩ := timeouts_of_down sd envs (ih_timeout sd env ih).1 d1
        (by rw [d3]; simp [UINT_MOD])
      simp only [timeouts, List.length_cons]
      refine ⟨by rw [q3, d5], fun hle => by omega, fun _ => ⟨q1, by rw [q2, d3]; omega⟩⟩
    · have hc : ¬ (ih.ih_ihs = IHS_UP ∧ ih.ih_retrycount = 0) := fun c => h0 c.2
      obtain ⟨p1, p2, p3, _, _⟩ := ih_timeout_probe sd env ih hc hr
      obtain ⟨q1, q2, q3⟩ := timeouts_of_up sd envs (ih_timeout sd env ih).1
        (by rw [p1, hu]) (by rw [p2]; omega)
      simp only [timeouts, List.length_cons]
      refine ⟨by rw [q1, p3], ?_, ?_⟩
      · intro hle
        obtain ⟨a, b⟩ := q2 (by rw [p2]; omega)
        exact ⟨a, by rw [b, p2]; omega⟩
      · intro hlt
        exact q3 (by rw [p2]; omega)


theorem new_ih_some (id : Nat) (h0 : icmp_host) (h : new_ih true id = some h0) :
    h0.ih_ihs = IHS_DOWN ∧ h0.ih_retrycount = 0 ∧ h0.ih_seq = 0 ∧ h0.ih_iplist = [] ∧
    h0.ih_id = id % 65536 ∧ h0.ih_to = ev_timer.null := by
  simp only [new_ih, if_true, Option.some.injEq] at h
  subst h
  exact ⟨rfl, rfl, rfl, rfl, rfl, rfl⟩

/-! ## C5: a host that never replies -/

/-- C5 (counterexample): the worker with one host created by `new_ih` and
initialised by `init_ih` sends its first probe at the socket handoff and then
handles four expiries of the host's timer, every `sendto` succeeding and no
datagram arriving.  The retry counter has fallen from 3 to 0, the status is
`IHS_DOWN` as it was from the start, and no `IMSG_HOST_DOWN` report has been
composed. -/
theorem fresh_host_composes_no_down_report :
    ∃ w0 e0 w effs,
      icmp_handler (config_hosts [7]) pton_v4 = some (w0, e0) ∧
      w0.sc_ihlist.map icmp_host.ih_ihs = [IHS_DOWN] ∧
      w0.sc_ihlist.map icmp_host.ih_retrycount = [IH_DEF_RETRYCOUNT] ∧
      run w0 [event.socket_raw 3 (fun _ => env_ok), event.timeout 0 env_ok,
              event.timeout 0 env_ok, event.timeout 0 env_ok, event.timeout 0 env_ok]
        = some (w, effs) ∧
      w.sc_ihlist.map icmp_host.ih_retrycount = [0] ∧
      w.sc_ihlist.map icmp_host.ih_ihs = [IHS_DOWN] ∧
      count_down (e0 ++ effs) = 0 :=
  ⟨_, _, _, _, rfl, rfl, rfl, rfl, rfl, rfl, rfl⟩

/-- C5 (amended): a host in its initial state (created by `new_ih`, initialised by
`init_ih`) is `IHS_DOWN` with retry counter `IH_DEF_RETRYCOUNT`; after its first
probe and any number `n` of `ih_timeout` events without a matched reply, whatever
`calloc` and `sendto` return, it is still `IHS_DOWN`, its retry counter is
`IH_DEF_RETRYCOUNT - n` (0 from the third event on), and no `IMSG_HOST_DOWN`
report has been composed. -/
theorem fresh_host_stays_down_unreported (id : Nat) (a b : Bool) (h0 h1 : icmp_host)
    (sd : Int) (env0 : send_env) (envs : List send_env)
    (hnew : new_ih true id = some h0) (hinit : init_ih a b h0 = some h1) :
    h1.ih_ihs = IHS_DOWN ∧ h1.ih_retrycount = IH_DEF_RETRYCOUNT ∧
    (timeouts sd envs (icmp_send sd env0 h1).1).1.ih_ihs = IHS_DOWN ∧
    (timeouts sd envs (icmp_send sd env0 h1).1).1.ih_retrycount
      = IH_DEF_RETRYCOUNT - envs.length ∧
    count_down ((icmp_send sd env0 h1).2.1 ++ (timeouts sd envs (icmp_send sd env0 h1).1).2)
      = 0 := by
  obtain ⟨n1, _⟩ := new_ih_some id h0 hnew
  obtain ⟨i1, i2, _⟩ := init_ih_some a b h0 h1 hinit
  have hd : h1.ih_ihs = IHS_DOWN := by rw [i2, n1]
  have hs : (icmp_send sd env0 h1).1.ih_ihs = IHS_DOWN := by rw [icmp_send_ihs, hd]
  have hr : (icmp_send sd env0 h1).1.ih_retrycount = IH_DEF_RETRYCOUNT := by
    rw [icmp_send_retrycount, i1]
  obtain ⟨q1, q2, _, q4⟩ := timeouts_of_down sd envs (icmp_send sd env0 h1).1 hs
    (by rw [hr]; simp [IH_DEF_RETRYCOUNT, UINT_MOD])
  refine ⟨hd, i1, q1, by rw [q2, hr], ?_⟩
  rw [count_down_append, (count_down_of_sendto _ sd _ q4).1,
    (count_down_of_sendto _ sd _ (icmp_send_no_report sd env0 h1)).1]

/-- C5 (witness): the host with identifier 7 and an IPv4 address, five expiries. -/
theorem fresh_host_stays_down_unreported_witness :
    ∃ h0 h1, new_ih true 7 = some h0 ∧ init_ih true false h0 = some h1 ∧
      h1.ih_ihs = IHS_DOWN ∧ h1.ih_retrycount = IH_DEF_RETRYCOUNT ∧
      (timeouts 3 [env_ok, env_fail, env_ok, env_ok, env_ok]
        (icmp_send 3 env_ok h1).1).1.ih_ihs = IHS_DOWN ∧
      (timeouts 3 [env_ok, env_fail, env_ok, env_ok, env_ok]
        (icmp_send 3 env_ok h1).1).1.ih_retrycount
        = IH_DEF_RETRYCOUNT - [env_ok, env_fail, env_ok, env_ok, env_ok].length ∧
      count_down ((icmp_send 3 env_ok h1).2.1 ++
        (timeouts 3 [env_ok, env_fail, env_ok, env_ok, env_ok] (icmp_send 3 env_ok h1).1).2)
        = 0 :=
  ⟨_, _, rfl, rfl,
    fresh_host_stays_down_unreported 7 true false _ _ 3 env_ok
      [env_ok, env_fail, env_ok, env_ok, env_ok] rfl rfl⟩

/-! ## C6: a host that is up and stops replying -/

/-- C6: for a host that is `IHS_UP` with retry counter `r` and receives no matched
reply, let the `ih_timeout` events be numbered from 0.  Event `k < r` finds the
host up with counter `r - k`, leaves it up with counter `r - k - 1`, composes
no report, and calls `sendto` for a new probe when `new_ip` obtains memory.
Event `r` finds the counter at 0, sets the status to `IHS_DOWN` and composes
exactly one `IMSG_HOST_DOWN` report.  Every later event finds the host down and
composes no `IMSG_HOST_DOWN` report. -/
theorem up_host_reports_down_once (sd : Int) (envs : List send_env) (ih : icmp_host)
    (r k : Nat) (env : send_env)
    (hup : ih.ih_ihs = IHS_UP) (hr : ih.ih_retrycount = r) (hr32 : r < UINT_MOD)
    (hk : envs[k]? = some env) :
    (k < r →
      (timeouts sd (envs.take k) ih).1.ih_ihs = IHS_UP ∧
      (timeouts sd (envs.take k) ih).1.ih_retrycount = r - k ∧
      (ih_timeout sd env (timeouts sd (envs.take k) ih).1).1.ih_ihs = IHS_UP ∧
      (ih_timeout sd env (timeouts sd (envs.take k) ih).1).1.ih_retrycount = r - k - 1 ∧
      (∀ e ∈ (ih_timeout sd env (timeouts sd (envs.take k) ih).1).2,
        ∃ data, e = effect.sendto sd ih.ih_id data) ∧
      (env.alloc_ok = true → ∃ data,
        (ih_timeout sd env (timeouts sd (envs.take k) ih).1).2
          = [effect.sendto sd ih.ih_id data])) ∧
    (k = r →
      (timeouts sd (envs.take k) ih).1.ih_ihs = IHS_UP ∧
      (timeouts sd (envs.take k) ih).1.ih_retrycount = 0 ∧
      (ih_timeout sd env (timeouts sd (envs.take k) ih).1).1.ih_ihs = IHS_DOWN ∧
      (ih_timeout sd env (timeouts sd (envs.take k) ih).1).2
        = [effect.compose_to_father IMSG_HOST_DOWN (some ih.ih_id)]) ∧
    (r < k →
      (timeouts sd (envs.take k) ih).1.ih_ihs = IHS_DOWN ∧
      (ih_timeout sd env (timeouts sd (envs.take k) ih).1).1.ih_ihs = IHS_DOWN ∧
      count_down (ih_timeout sd env (timeouts sd (envs.take k) ih).1).2 = 0) := by
  have hlen : (envs.take k).length = k := by
    have : k < envs.length := (List.getElem?_eq_some.mp hk).1
    simp only [List.length_take]; omega
  obtain ⟨t1, t2, t3⟩ := timeouts_of_up sd (envs.take k) ih hup (by rw [hr]; exact hr32)
  rw [hlen, hr] at t2 t3
  refine ⟨?_, ?_, ?_⟩
  · intro hlt
    obtain ⟨a, b⟩ := t2 (by omega)
    have hc : ¬ ((timeouts sd (envs.take k) ih).1.ih_ihs = IHS_UP ∧
        (timeouts sd (envs.take k) ih).1.ih_retrycount = 0) := by
      rw [b]; exact fun c => by omega
    obtain ⟨p1, p2, _, p4, p5⟩ := ih_timeout_probe sd env _ hc (by rw [b]; omega)
    rw [t1] at p4 p5
    exact ⟨a, b, by rw [p1, a], by rw [p2, b], p4, p5⟩
  · intro heq
    obtain ⟨a, b⟩ := t2 (by omega)
    have b0 : (timeouts sd (envs.take k) ih).1.ih_retrycount = 0 := by rw [b]; omega
    obtain ⟨d0, d1, _⟩ := ih_timeout_down sd env _ a b0
    rw [t1] at d0
    exact ⟨a, b0, d1, d0⟩
  · intro hlt
    obtain ⟨a, b⟩ := t3 hlt
    have hc : ¬ ((timeouts sd (envs.take k) ih).1.ih_ihs = IHS_UP ∧
        (timeouts sd (envs.take k) ih).1.ih_retrycount = 0) := by
      rw [a]; exact fun c => by cases c.1
    obtain ⟨p1, _, _, p4, _⟩ := ih_timeout_probe sd env _ hc (by rw [b]; simp [UINT_MOD])
    exact ⟨a, by rw [p1, a], (count_down_of_sendto _ sd _ p4).1⟩


/-- The host `up_host` is the host of a worker with one configured host after the
socket handoff and the echo reply to the first probe. -/
theorem up_host_reachable :
    ∃ w0 e0 effs,
      icmp_handler (config_hosts [7]) pton_v4 = some (w0, e0) ∧
      run w0 [event.socket_raw 3 (fun _ => env_ok),
              event.datagram (icmp_datagram ICMP_ECHOREPLY 7 0)]
        = some ({ sc_ihlist := [up_host], ipd_sd := 3, ipd_sdev := true }, effs) ∧
      count_up effs = 1 :=
  ⟨_, _, _, rfl, rfl, rfl⟩

/-- C6 (witness): the host `up_host` (up, retry counter 3) and five timer
expiries; the fourth one reports the host down. -/
theorem up_host_reports_down_once_witness :
    (ih_timeout 3 env_ok
      (timeouts 3 ([env_ok, env_fail, env_ok, env_ok, env_ok].take 3) up_host).1).2
      = [effect.compose_to_father IMSG_HOST_DOWN (some up_host.ih_id)] :=
  ((up_host_reports_down_once 3 [env_ok, env_fail, env_ok, env_ok, env_ok] up_host 3 3 env_ok
      rfl rfl (by decide) rfl).2.1 rfl).2.2.2

/-! ## C8: the timer after `icmp_send` -/

/-- When `sendto` fails, `icmp_send` returns before `reschedule_icmp_send`: the
timer is as it was. -/
theorem icmp_send_failed_timer (sd : Int) (env : send_env) (ih : icmp_host)
    (hs : env.sent ≤ 0) : (icmp_send sd env ih).1.ih_to = ih.ih_to ∧ (icmp_send sd env ih).2.2 = -1 := by
  rcases icmp_send_cases sd env ih with ⟨_, h⟩ | ⟨ip, _, _, ⟨_, h⟩ | ⟨hp, _⟩⟩
  · rw [h]; exact ⟨rfl, rfl⟩
  · rw [h]; exact ⟨rfl, rfl⟩
  · omega

/-- When `sendto` succeeds, `icmp_send` arms the timer of an initialised host. -/
theorem icmp_send_ok_timer (sd : Int) (env : send_env) (ih : icmp_host)
    (ha : env.alloc_ok = true) (hs : 0 < env.sent) (ht : ih.ih_to ≠ ev_timer.null) :
    ∃ secs, (icmp_send sd env ih).1.ih_to = ev_timer.pending secs := by
  rcases icmp_send_cases sd env ih with ⟨hf, _⟩ | ⟨ip, _, _, ⟨hp, _⟩ | ⟨_, h⟩⟩
  · rw [ha] at hf; cases hf
  · omega
  · rw [h]
    cases hto : ih.ih_to with
    | null => exact absurd hto ht
    | idle => exact ⟨_, rfl⟩
    | pending s => exact ⟨_, rfl⟩

/-- C8 (the code at the failing input): the worker with one host sends its first
probe at the socket handoff; the host's timer expires and `ih_timeout` calls
`icmp_send`, in which `sendto` fails.  `icmp_send` returns -1 without calling
`reschedule_icmp_send`: the host's timer is not pending afterwards, so no later
expiry of it can occur. -/
theorem icmp_send_failure_leaves_timer_unarmed :
    ∃ w0 e0 w1 effs1 ih1 w effs,
      icmp_handler (config_hosts [7]) pton_v4 = some (w0, e0) ∧
      run w0 [event.socket_raw 3 (fun _ => env_ok)] = some (w1, effs1) ∧
      w1.sc_ihlist = [ih1] ∧ ih1.ih_to = ev_timer.pending 60 ∧
      (icmp_send 3 env_fail { ih1 with ih_to := ev_timer.idle }).2.2 = -1 ∧
      (icmp_send 3 env_fail { ih1 with ih_to := ev_timer.idle }).1.ih_to = ev_timer.idle ∧
      run w1 [event.timeout 0 env_fail] = some (w, effs) ∧
      w.sc_ihlist.map icmp_host.ih_to = [ev_timer.idle] ∧
      ∀ env, step w (event.timeout 0 env) = none :=
  ⟨_, _, _, _, _, _, _, rfl, rfl, rfl, rfl, rfl, rfl, rfl, rfl, fun _ => rfl⟩

/-! ## C9: successive sequence numbers -/

theorem new_ip_n_seq : ∀ (nows : List Nat) (ih : icmp_host), ih.ih_seq < 65536 →
    (new_ip_n nows ih).ih_seq = (ih.ih_seq + nows.length) % 65536
  | [], ih, h => by simp only [new_ip_n, List.length_nil]; omega
  | now :: nows, ih, h => by
    obtain ⟨ip, _, _, hn⟩ := new_ip_some now ih
    simp only [new_ip_n, hn, List.length_cons]
    rw [new_ip_n_seq nows _ (by simp only; omega)]
    simp only
    omega

/-- C9: for a host whose sequence counter is `s`, the `k`-th probe that `new_ip`
creates from then on carries `ip_seq = (s + k - 1) mod 65536`, is at the head of
the host's list, and leaves `ih_seq = (s + k) mod 65536`. -/
theorem new_ip_seq_increments (ih : icmp_host) (nows : List Nat) (now k : Nat)
    (hs : ih.ih_seq < 65536) (hk : k = nows.length + 1) :
    ∃ ih1 p, new_ip true now (new_ip_n nows ih) = some (ih1, p) ∧
      p.ip_seq = (ih.ih_seq + k - 1) % 65536 ∧
      ih1.ih_seq = (ih.ih_seq + k) % 65536 ∧
      ih1.ih_iplist = p :: (new_ip_n nows ih).ih_iplist := by
  obtain ⟨ip, h1, _, hn⟩ := new_ip_some now (new_ip_n nows ih)
  have hseq := new_ip_n_seq nows ih hs
  refine ⟨_, ip, hn, ?_, ?_, rfl⟩
  · rw [h1, hseq, hk]
    congr 1
  · simp only [hseq, hk]
    omega

/-- C9 (witness): the sequence counter at 65535; the second probe carries 0. -/
theorem new_ip_seq_increments_witness :
    ∃ ih1 p, new_ip true 0 (new_ip_n [0] { up_host with ih_seq := 65535 }) = some (ih1, p) ∧
      p.ip_seq = (65535 + 2 - 1) % 65536 ∧
      ih1.ih_seq = (65535 + 2) % 65536 ∧
      ih1.ih_iplist = p :: (new_ip_n [0] { up_host with ih_seq := 65535 }).ih_iplist :=
  new_ip_seq_increments { up_host with ih_seq := 65535 } [0] 0 2 (by decide) rfl

/-! ## Lemmas: the sequence numbers of the outstanding packets -/

theorem count_sendto_append (id : Nat) (a b : List effect) :
    count_sendto id (a ++ b) = count_sendto id a + count_sendto id b := by
  simp [count_sendto]

theorem count_sendto_sublist (id : Nat) (a b : List effect) (h : a.Sublist b) :
    count_sendto id a ≤ count_sendto id b := by
  simp only [count_sendto]
  exact (h.filter _).length_le

theorem past_seqs_succ (n : Nat) : past_seqs (n + 1) = n % 65536 :: past_seqs n := by
  simp [past_seqs, List.range_succ]

theorem past_seqs_nodup (n : Nat) (h : n ≤ 65536) : (past_seqs n).Nodup := by
  unfold past_seqs
  apply List.Nodup.map_on
  · intro x hx y hy hxy
    simp only [List.mem_reverse, List.mem_range] at hx hy
    omega
  · exact List.nodup_reverse.mpr (List.nodup_range n)

theorem past_seqs_sublist (n m : Nat) (h : n ≤ m) : (past_seqs n).Sublist (past_seqs m) := by
  induction m with
  | zero =>
    have : n = 0 := by omega
    subst this; exact List.Sublist.refl _
  | succ m ih =>
    by_cases hn : n = m + 1
    · subst hn; exact List.Sublist.refl _
    · rw [past_seqs_succ]
      exact List.Sublist.cons _ (ih (by omega))

theorem seqs_after_icmp_send (sd : Int) (env : send_env) (ih : icmp_host) (n : Nat)
    (h : seqs_after ih n) :
    seqs_after (icmp_send sd env ih).1 (n + count_sendto ih.ih_id (icmp_send sd env ih).2.1) := by
  obtain ⟨h1, h2⟩ := h
  rcases icmp_send_cases sd env ih with ⟨_, e⟩ | ⟨ip, hip, _, ⟨_, e⟩ | ⟨_, e⟩⟩
  · rw [e]; exact ⟨h1, h2⟩
  · rw [e]
    simp only [count_sendto, List.filter_cons, decide_True, if_true, List.filter_nil,
      List.length_singleton, seqs_after, iplist_seqs, List.map_cons, past_seqs_succ]
    refine ⟨by rw [h1]; omega, ?_⟩
    rw [hip, h1]
    exact List.Sublist.cons₂ _ h2
  · rw [e]
    simp only [count_sendto, List.filter_cons, decide_True, if_true, List.filter_nil,
      List.length_singleton, seqs_after, iplist_seqs, List.map_cons, past_seqs_succ]
    refine ⟨by rw [h1]; omega, ?_⟩
    rw [hip, h1]
    exact List.Sublist.cons₂ _ h2

theorem seqs_after_ih_timeout (sd : Int) (env : send_env) (ih : icmp_host) (n : Nat)
    (h : seqs_after ih n) :
    seqs_after (ih_timeout sd env ih).1 (n + count_sendto ih.ih_id (ih_timeout sd env ih).2) := by
  by_cases hc : ih.ih_ihs = IHS_UP ∧ ih.ih_retrycount = 0
  · obtain ⟨d0, _, d2, _, d4, _⟩ := ih_timeout_down sd env ih hc.1 hc.2
    rw [d0]
    have hcnt : count_sendto ih.ih_id
        [effect.compose_to_father IMSG_HOST_DOWN (some ih.ih_id)] = 0 := rfl
    rw [hcnt, Nat.add_zero]
    refine ⟨by rw [d4]; exact h.1, ?_⟩
    simp only [iplist_seqs, d2, List.map_nil]
    exact List.nil_sublist _
  · rw [ih_timeout_send sd env ih hc]
    have key : ∀ g : icmp_host, g.ih_seq = ih.ih_seq → g.ih_iplist = ih.ih_iplist →
        g.ih_id = ih.ih_id →
        seqs_after (icmp_send sd env g).1 (n + count_sendto ih.ih_id (icmp_send sd env g).2.1) := by
      intro g h1 h2 h3
      rw [← h3]
      exact seqs_after_icmp_send sd env g n
        ⟨by rw [h1]; exact h.1, by simp only [iplist_seqs, h2]; exact h.2⟩
    exact key _ (by split <;> rfl) (by split <;> rfl) (by split <;> rfl)

theorem seqs_after_mono (ih : icmp_host) (n : Nat) (h : seqs_after ih n) :
    n ≤ 65536 → (iplist_seqs ih).Nodup := fun hn =>
  List.Nodup.sublist h.2 (past_seqs_nodup n hn)

theorem send_all_mem_effects (sd : Int) (env : Nat → send_env) :
    ∀ (l : List icmp_host) (n : Nat) (x : icmp_host), x ∈ (send_all sd env n l).1 →
      ∃ ih ∈ l, ∃ e, x = (icmp_send sd e ih).1 ∧
        (icmp_send sd e ih).2.1.Sublist (send_all sd env n l).2
  | [], _, _, h => by simp [send_all] at h
  | y :: rest, n, x, h => by
    simp only [send_all, List.mem_cons] at h
    rcases h with rfl | h
    · exact ⟨y, by simp, env n, rfl, by simp only [send_all]; exact List.sublist_append_left _ _⟩
    · obtain ⟨ih, hm, e, he, hsub⟩ := send_all_mem_effects sd env rest (n + 1) x h
      refine ⟨ih, by simp [hm], e, he, ?_⟩
      simp only [send_all]
      exact hsub.trans (List.sublist_append_right _ _)

theorem step_seqs_bounded (w : worker) (e : event) (w1 : worker) (effs : List effect)
    (c : Nat → Nat) (hP : seqs_bounded w c) (hstep : step w e = some (w1, effs)) :
    seqs_bounded w1 (fun id => c id + count_sendto id effs) := by
  intro x hx
  cases e with
  | socket_raw fd env =>
    simp only [step, socket_raw, Option.some.injEq, Prod.mk.injEq] at hstep
    obtain ⟨rfl, rfl⟩ := hstep
    obtain ⟨ih, hm, e, rfl, hsub⟩ := send_all_mem_effects fd env w.sc_ihlist 0 x hx
    obtain ⟨n, hn, hs⟩ := hP ih hm
    refine ⟨_, ?_, seqs_after_icmp_send fd e ih n hs⟩
    rw [icmp_send_id]
    have := count_sendto_sublist ih.ih_id _ _ hsub
    beta_reduce
    omega
  | timeout j env =>
    obtain ⟨g, secs, hj, _, rfl, rfl⟩ := step_timeout_some w j env w1 effs hstep
    rcases List.mem_or_eq_of_mem_set hx with h | rfl
    · obtain ⟨n, hn, hs⟩ := hP x h
      exact ⟨n, by simp only; omega, hs⟩
    · obtain ⟨n, hn, hs⟩ := hP g (List.getElem?_mem hj)
      have hs2 : seqs_after { g with ih_to := ev_timer.idle } n := hs
      refine ⟨_, ?_, seqs_after_ih_timeout w.ipd_sd env _ n hs2⟩
      rw [ih_timeout_id]
      simp only
      omega
  | datagram m =>
    obtain ⟨_, l1, hh, rfl⟩ := step_datagram_some w m w1 effs hstep
    rcases icmp_raw_socket_handler_cases w.sc_ihlist m l1 effs hh with
      ⟨rfl, _⟩ | ⟨iplen, i0, k, ih0, p, hparse, hfind, htype, hip⟩
    · obtain ⟨n, hn, hs⟩ := hP x hx
      exact ⟨n, by simp only; omega, hs⟩
    · rw [icmp_raw_socket_handler_matched w.sc_ihlist m iplen i0 k ih0 p hparse hfind htype hip]
        at hh
      simp only [Option.some.injEq, Prod.mk.injEq] at hh
      obtain ⟨rfl, _⟩ := hh
      rcases List.mem_or_eq_of_mem_set hx with h | rfl
      · obtain ⟨n, hn, hs⟩ := hP x h
        exact ⟨n, by simp only; omega, hs⟩
      · obtain ⟨hget, _, _⟩ := find_ih_some _ _ _ _ hfind
        obtain ⟨n, hn, hs⟩ := hP ih0 (List.getElem?_mem hget)
        refine ⟨n, by simp only; omega, hs.1, ?_⟩
        simp only [iplist_seqs]
        exact ((List.eraseIdx_sublist _ _).map _).trans hs.2

theorem run_seqs_bounded : ∀ (evs : List event) (w w1 : worker) (effs : List effect)
    (c : Nat → Nat), seqs_bounded w c → run w evs = some (w1, effs) →
    seqs_bounded w1 (fun id => c id + count_sendto id effs)
  | [], w, w1, effs, c, hP, h => by
    simp only [run, Option.some.injEq, Prod.mk.injEq] at h
    obtain ⟨rfl, rfl⟩ := h
    intro x hx
    obtain ⟨n, hn, hs⟩ := hP x hx
    exact ⟨n, by simp only; omega, hs⟩
  | e :: es, w, w1, effs, c, hP, h => by
    simp only [run] at h
    cases hs : step w e with
    | none => simp [hs] at h
    | some r =>
      obtain ⟨wa, ea⟩ := r
      cases hr : run wa es with
      | none => simp [hs, hr] at h
      | some r2 =>
        obtain ⟨wb, eb⟩ := r2
        simp only [hs, hr, Option.some.injEq, Prod.mk.injEq] at h
        obtain ⟨rfl, rfl⟩ := h
        have h1 := step_seqs_bounded w e wa ea c hP hs
        have h2 := run_seqs_bounded es wa wb eb _ h1 hr
        intro x hx
        obtain ⟨n, hn, hsq⟩ := h2 x hx
        refine ⟨n, ?_, hsq⟩
        simp only [count_sendto_append] at hn ⊢
        omega


/-! ## C7: distinct sequence numbers among the outstanding packets -/

theorem run_cons (w w1 w2 : worker) (e : event) (es : List event) (effs1 effs2 : List effect)
    (h1 : step w e = some (w1, effs1)) (h2 : run w1 es = some (w2, effs2)) :
    run w (e :: es) = some (w2, effs1 ++ effs2) := by
  simp only [run, h1, h2]

/-- One expiry of the timer of the only host of a worker, the host down and
`calloc` and `sendto` succeeding: a new probe with the next sequence number. -/
theorem step_timeout_down_single (ih : icmp_host) (sd : Int) (sdev : Bool) (secs : Nat)
    (hd : ih.ih_ihs = IHS_DOWN) (ht : ih.ih_to = ev_timer.pending secs) :
    ∃ ih1 effs, step { sc_ihlist := [ih], ipd_sd := sd, ipd_sdev := sdev }
        (event.timeout 0 env_ok)
        = some ({ sc_ihlist := [ih1], ipd_sd := sd, ipd_sdev := sdev }, effs) ∧
      ih1.ih_ihs = IHS_DOWN ∧ ih1.ih_to = ev_timer.pending 60 ∧
      ih1.ih_seq = (ih.ih_seq + 1) % 65536 ∧
      iplist_seqs ih1 = ih.ih_seq :: iplist_seqs ih := by
  have hc : ¬ (({ ih with ih_to := ev_timer.idle } : icmp_host).ih_ihs = IHS_UP ∧
      ({ ih with ih_to := ev_timer.idle } : icmp_host).ih_retrycount = 0) := by
    simp only [hd]; exact fun c => by cases c.1
  have hstep : step { sc_ihlist := [ih], ipd_sd := sd, ipd_sdev := sdev }
      (event.timeout 0 env_ok)
      = some ({ sc_ihlist := [(ih_timeout sd env_ok { ih with ih_to := ev_timer.idle }).1],
                ipd_sd := sd, ipd_sdev := sdev },
              (ih_timeout sd env_ok { ih with ih_to := ev_timer.idle }).2) := by
    simp only [step, List.getElem?_cons_zero, ht, List.set_cons_zero]
  refine ⟨_, _, hstep, ?_⟩
  rw [ih_timeout_send sd env_ok _ hc]
  have key : ∀ g : icmp_host, g.ih_ihs = IHS_DOWN → g.ih_to = ev_timer.idle →
      g.ih_seq = ih.ih_seq → g.ih_iplist = ih.ih_iplist →
      (icmp_send sd env_ok g).1.ih_ihs = IHS_DOWN ∧
      (icmp_send sd env_ok g).1.ih_to = ev_timer.pending 60 ∧
      (icmp_send sd env_ok g).1.ih_seq = (ih.ih_seq + 1) % 65536 ∧
      iplist_seqs (icmp_send sd env_ok g).1 = ih.ih_seq :: iplist_seqs ih := by
    intro g g1 g2 g3 g4
    rcases icmp_send_cases sd env_ok g with ⟨hf, _⟩ | ⟨ip, hip, _, ⟨hp, _⟩ | ⟨_, e⟩⟩
    · cases hf
    · exact absurd hp (by decide)
    · rw [e]
      simp only [iplist_seqs, List.map_cons, g1, g2, g3, g4, hip, evtimer_add]
      exact ⟨trivial, by simp, trivial, trivial⟩
  exact key _ (by split <;> exact hd) (by split <;> rfl) (by split <;> rfl)
    (by split <;> rfl)

/-- The sequence numbers outstanding after `n` such expiries. -/
theorem run_timeouts_down_single : ∀ (n : Nat) (ih : icmp_host) (sd : Int) (sdev : Bool)
    (secs : Nat), ih.ih_ihs = IHS_DOWN → ih.ih_to = ev_timer.pending secs →
    ih.ih_seq < 65536 →
    ∃ ih1 effs, run { sc_ihlist := [ih], ipd_sd := sd, ipd_sdev := sdev }
        (List.replicate n (event.timeout 0 env_ok))
        = some ({ sc_ihlist := [ih1], ipd_sd := sd, ipd_sdev := sdev }, effs) ∧
      iplist_seqs ih1
        = ((List.range n).map (fun j => (ih.ih_seq + j) % 65536)).reverse ++ iplist_seqs ih
  | 0, ih, sd, sdev, _, _, _, _ => ⟨ih, [], rfl, by simp⟩
  | n + 1, ih, sd, sdev, secs, hd, ht, hs => by
    obtain ⟨ih1, effs1, hstep, a1, a2, a3, a4⟩ := step_timeout_down_single ih sd sdev secs hd ht
    obtain ⟨ih2, effs2, hrun, b⟩ := run_timeouts_down_single n ih1 sd sdev 60 a1 a2
      (by rw [a3]; omega)
    refine ⟨ih2, effs1 ++ effs2, ?_, ?_⟩
    · rw [List.replicate_succ]
      exact run_cons _ _ _ _ _ _ _ hstep hrun
    · rw [b, a4, a3, List.range_succ_eq_map, List.map_cons, List.map_map, List.reverse_cons,
        List.append_assoc, List.singleton_append]
      have e0 : (ih.ih_seq + 0) % 65536 = ih.ih_seq := by omega
      rw [e0]
      congr 2
      apply List.map_congr_left
      intro j _
      simp only [Function.comp]
      omega

/-- C7 (counterexample): the worker with one host sends its first probe at the
socket handoff and then handles 65536 expiries of the host's timer, every
`calloc` and `sendto` succeeding and no reply arriving.  The host was never up,
so no packet was ever freed; the 65537 outstanding packets carry the sequence
numbers 0, 65535, ..., 1, 0 (head first): the first and the last carry 0. -/
theorem iplist_seqs_repeat_after_wraparound :
    ∃ w0 e0 w effs,
      icmp_handler (config_hosts [7]) pton_v4 = some (w0, e0) ∧
      run w0 (event.socket_raw 3 (fun _ => env_ok) ::
          List.replicate 65536 (event.timeout 0 env_ok)) = some (w, effs) ∧
      ∃ ih ∈ w.sc_ihlist, ih.ih_iplist.length = 65537 ∧ ¬ (iplist_seqs ih).Nodup := by
  obtain ⟨w0, e0, ih1, effs1, h0, h1, a1, a2, a3, a4⟩ :
      ∃ w0 e0 ih1 effs1, icmp_handler (config_hosts [7]) pton_v4 = some (w0, e0) ∧
        step w0 (event.socket_raw 3 (fun _ => env_ok))
          = some ({ sc_ihlist := [ih1], ipd_sd := 3, ipd_sdev := true }, effs1) ∧
        ih1.ih_ihs = IHS_DOWN ∧ ih1.ih_to = ev_timer.pending 60 ∧ ih1.ih_seq = 1 ∧
        iplist_seqs ih1 = [0] :=
    ⟨_, _, _, _, rfl, rfl, rfl, rfl, rfl, rfl⟩
  obtain ⟨ih2, effs2, hrun, b⟩ := run_timeouts_down_single 65536 ih1 3 true 60 a1 a2
    (by rw [a3]; omega)
  refine ⟨w0, e0, { sc_ihlist := [ih2], ipd_sd := 3, ipd_sdev := true }, effs1 ++ effs2, h0, ?_,
    ih2, List.mem_singleton.mpr rfl, ?_, ?_⟩
  · exact run_cons _ _ _ _ _ _ _ h1 hrun
  · have hl := congrArg List.length b
    have hl1 := congrArg List.length a4
    simp only [iplist_seqs, List.length_map, List.length_append, List.length_reverse,
      List.length_range, List.length_singleton] at hl hl1
    omega
  · rw [b, a4, a3]
    intro hnd
    have hdis := (List.nodup_append.mp hnd).2.2
    have hmem : 0 ∈ ((List.range 65536).map (fun j => (1 + j) % 65536)).reverse :=
      List.mem_reverse.mpr (List.mem_map.mpr ⟨65535, List.mem_range.mpr (by omega), rfl⟩)
    exact hdis hmem (List.mem_singleton.mpr rfl)

/-! ## Lemmas: the window of the latest sequence numbers -/

theorem recent_seqs_succ (s k : Nat) (h : s < 65536) :
    recent_seqs ((s + 1) % 65536) (k + 1) = s :: recent_seqs s k := by
  have h0 : ((s + 1) % 65536 + 65535) % 65536 = s := by omega
  rw [recent_seqs, h0]

theorem recent_seqs_mem : ∀ (k s x : Nat), x ∈ recent_seqs s k →
    ∃ j, 1 ≤ j ∧ j ≤ k ∧ x = (s + 65535 * j) % 65536
  | 0, _, _, h => by rw [recent_seqs] at h; exact absurd h (List.not_mem_nil _)
  | k + 1, s, x, h => by
    rw [recent_seqs, List.mem_cons] at h
    rcases h with h | h
    · exact ⟨1, Nat.le_refl _, by omega, by omega⟩
    · obtain ⟨j, h1, h2, h3⟩ := recent_seqs_mem k _ x h
      exact ⟨j + 1, by omega, by omega, by omega⟩

theorem recent_seqs_nodup : ∀ (k s : Nat), k ≤ 65536 → (recent_seqs s k).Nodup
  | 0, _, _ => by rw [recent_seqs]; exact List.nodup_nil
  | k + 1, s, h => by
    rw [recent_seqs, List.nodup_cons]
    refine ⟨?_, recent_seqs_nodup k _ (by omega)⟩
    intro hm
    obtain ⟨j, h1, h2, h3⟩ := recent_seqs_mem k _ _ hm
    omega

theorem recent_seqs_sublist : ∀ (k m s : Nat), k ≤ m →
    (recent_seqs s k).Sublist (recent_seqs s m)
  | 0, _, _, _ => by rw [recent_seqs]; exact List.nil_sublist _
  | k + 1, 0, _, h => by omega
  | k + 1, m + 1, s, h => by
    rw [recent_seqs, recent_seqs]
    exact List.Sublist.cons₂ _ (recent_seqs_sublist k m _ (by omega))

theorem seqs_recent_mono (ih : icmp_host) (k m : Nat) (h : k ≤ m) (hs : seqs_recent ih k) :
    seqs_recent ih m :=
  ⟨hs.1, hs.2.trans (recent_seqs_sublist k m _ h)⟩

theorem seqs_recent_icmp_send (sd : Int) (env : send_env) (ih : icmp_host) (k : Nat)
    (h : seqs_recent ih k) :
    seqs_recent (icmp_send sd env ih).1 (k + count_sendto ih.ih_id (icmp_send sd env ih).2.1) := by
  obtain ⟨h1, h2⟩ := h
  have hm : (ih.ih_seq + 1) % 65536 < 65536 := Nat.mod_lt _ (by decide)
  rcases icmp_send_cases sd env ih with ⟨_, e⟩ | ⟨ip, hip, _, ⟨_, e⟩ | ⟨_, e⟩⟩
  · rw [e]; exact ⟨h1, h2⟩
  · rw [e]
    simp only [count_sendto, List.filter_cons, decide_True, if_true, List.filter_nil,
      List.length_singleton, seqs_recent, iplist_seqs, List.map_cons]
    refine ⟨hm, ?_⟩
    rw [hip, recent_seqs_succ _ _ h1]
    exact List.Sublist.cons₂ _ h2
  · rw [e]
    simp only [count_sendto, List.filter_cons, decide_True, if_true, List.filter_nil,
      List.length_singleton, seqs_recent, iplist_seqs, List.map_cons]
    refine ⟨hm, ?_⟩
    rw [hip, recent_seqs_succ _ _ h1]
    exact List.Sublist.cons₂ _ h2

theorem seqs_recent_ih_timeout (sd : Int) (env : send_env) (ih : icmp_host) (k : Nat)
    (h : seqs_recent ih k) :
    seqs_recent (ih_timeout sd env ih).1 (k + count_sendto ih.ih_id (ih_timeout sd env ih).2) := by
  by_cases hc : ih.ih_ihs = IHS_UP ∧ ih.ih_retrycount = 0
  · obtain ⟨d0, _, d2, _, d4, _⟩ := ih_timeout_down sd env ih hc.1 hc.2
    rw [d0]
    have hcnt : count_sendto ih.ih_id
        [effect.compose_to_father IMSG_HOST_DOWN (some ih.ih_id)] = 0 := rfl
    rw [hcnt, Nat.add_zero]
    refine ⟨by rw [d4]; exact h.1, ?_⟩
    simp only [iplist_seqs, d2, List.map_nil]
    exact List.nil_sublist _
  · rw [ih_timeout_send sd env ih hc]
    have key : ∀ g : icmp_host, g.ih_seq = ih.ih_seq → g.ih_iplist = ih.ih_iplist →
        g.ih_id = ih.ih_id →
        seqs_recent (icmp_send sd env g).1 (k + count_sendto ih.ih_id (icmp_send sd env g).2.1) := by
      intro g h1 h2 h3
      rw [← h3]
      exact seqs_recent_icmp_send sd env g k
        ⟨by rw [h1]; exact h.1, by simp only [iplist_seqs, h2, h1]; exact h.2⟩
    exact key _ (by split <;> rfl) (by split <;> rfl) (by split <;> rfl)

theorem send_all_effects_getElem? (sd : Int) (env : Nat → send_env) :
    ∀ (l : List icmp_host) (n i : Nat) (ih : icmp_host), l[i]? = some ih →
      (icmp_send sd (env (n + i)) ih).2.1.Sublist (send_all sd env n l).2
  | [], _, _, _, h => by simp at h
  | x :: rest, n, 0, ih, h => by
    simp only [List.getElem?_cons_zero, Option.some.injEq] at h
    subst h
    simp only [send_all, Nat.add_zero]
    exact List.sublist_append_left _ _
  | x :: rest, n, i + 1, ih, h => by
    simp only [List.getElem?_cons_succ] at h
    have := send_all_effects_getElem? sd env rest (n + 1) i ih h
    have e : n + 1 + i = n + (i + 1) := by omega
    rw [e] at this
    simp only [send_all]
    exact this.trans (List.sublist_append_right _ _)

/-- One callback keeps a host at its position with its identifier, and the
window of its sequence numbers grows by at most the probes sent for the
identifier. -/
theorem step_seqs_recent (w : worker) (e : event) (w1 : worker) (effs : List effect)
    (i : Nat) (ih : icmp_host) (k : Nat)
    (hi : w.sc_ihlist[i]? = some ih) (hs : seqs_recent ih k)
    (hstep : step w e = some (w1, effs)) :
    ∃ ih1, w1.sc_ihlist[i]? = some ih1 ∧ ih1.ih_id = ih.ih_id ∧
      seqs_recent ih1 (k + count_sendto ih.ih_id effs) := by
  cases e with
  | socket_raw fd env =>
    have hg := step_socket_raw_getElem? w fd env w1 effs hstep i
    rw [hi] at hg
    simp only [step, socket_raw, Option.some.injEq, Prod.mk.injEq] at hstep
    obtain ⟨_, rfl⟩ := hstep
    refine ⟨_, hg, icmp_send_id _ _ _, ?_⟩
    have hsub := send_all_effects_getElem? fd env w.sc_ihlist 0 i ih hi
    rw [Nat.zero_add] at hsub
    have := count_sendto_sublist ih.ih_id _ _ hsub
    exact seqs_recent_mono _ _ _ (by omega) (seqs_recent_icmp_send fd (env i) ih k hs)
  | timeout j env =>
    obtain ⟨g, secs, hj, _, rfl, rfl⟩ := step_timeout_some w j env w1 effs hstep
    by_cases hji : j = i
    · subst hji
      rw [hi] at hj
      obtain rfl := Option.some.inj hj
      have hlt : j < w.sc_ihlist.length := (List.getElem?_eq_some.mp hi).1
      have hs2 : seqs_recent { ih with ih_to := ev_timer.idle } k := hs
      refine ⟨_, List.getElem?_set_self hlt, ih_timeout_id _ _ _, ?_⟩
      exact seqs_recent_ih_timeout w.ipd_sd env _ k hs2
    · refine ⟨ih, ?_, rfl, seqs_recent_mono _ _ _ (by omega) hs⟩
      simp only
      rw [List.getElem?_set_ne hji]
      exact hi
  | datagram m =>
    obtain ⟨_, l1, hh, rfl⟩ := step_datagram_some w m w1 effs hstep
    rcases icmp_raw_socket_handler_cases w.sc_ihlist m l1 effs hh with
      ⟨rfl, _⟩ | ⟨iplen, i0, q, ih0, p, hparse, hfind, htype, hip⟩
    · exact ⟨ih, hi, rfl, seqs_recent_mono _ _ _ (by omega) hs⟩
    · rw [icmp_raw_socket_handler_matched w.sc_ihlist m iplen i0 q ih0 p hparse hfind htype hip]
        at hh
      simp only [Option.some.injEq, Prod.mk.injEq] at hh
      obtain ⟨rfl, _⟩ := hh
      by_cases hji : i0 = i
      · subst hji
        obtain ⟨hget, _, _⟩ := find_ih_some _ _ _ _ hfind
        rw [hi] at hget
        obtain rfl := Option.some.inj hget
        have hlt : i0 < w.sc_ihlist.length := (List.getElem?_eq_some.mp hi).1
        refine ⟨_, List.getElem?_set_self hlt, rfl, seqs_recent_mono _ k _ (by omega) ⟨hs.1, ?_⟩⟩
        simp only [iplist_seqs]
        exact ((List.eraseIdx_sublist _ _).map _).trans hs.2
      · refine ⟨ih, ?_, rfl, seqs_recent_mono _ _ _ (by omega) hs⟩
        simp only
        rw [List.getElem?_set_ne hji]
        exact hi

theorem run_seqs_recent : ∀ (evs : List event) (w w1 : worker) (effs : List effect)
    (i : Nat) (ih : icmp_host) (k : Nat), w.sc_ihlist[i]? = some ih → seqs_recent ih k →
    run w evs = some (w1, effs) →
    ∃ ih1, w1.sc_ihlist[i]? = some ih1 ∧ ih1.ih_id = ih.ih_id ∧
      seqs_recent ih1 (k + count_sendto ih.ih_id effs)
  | [], w, w1, effs, i, ih, k, hi, hs, h => by
    simp only [run, Option.some.injEq, Prod.mk.injEq] at h
    obtain ⟨rfl, rfl⟩ := h
    exact ⟨ih, hi, rfl, seqs_recent_mono _ _ _ (by omega) hs⟩
  | e :: es, w, w1, effs, i, ih, k, hi, hs, h => by
    simp only [run] at h
    cases hst : step w e with
    | none => simp [hst] at h
    | some r =>
      obtain ⟨wa, ea⟩ := r
      cases hr : run wa es with
      | none => simp [hst, hr] at h
      | some r2 =>
        obtain ⟨wb, eb⟩ := r2
        simp only [hst, hr, Option.some.injEq, Prod.mk.injEq] at h
        obtain ⟨rfl, rfl⟩ := h
        obtain ⟨iha, ha1, ha2, ha3⟩ := step_seqs_recent w e wa ea i ih k hi hs hst
        obtain ⟨ihb, hb1, hb2, hb3⟩ := run_seqs_recent es wa wb eb i iha _ ha1 ha3 hr
        refine ⟨ihb, hb1, hb2.trans ha2, ?_⟩
        rw [ha2] at hb3
        rw [count_sendto_append, ← Nat.add_assoc]
        exact hb3

/-- C7 (amended): take any state of the worker in which the outstanding packets
of a host carry, head first, some of the `k` sequence numbers that precede its
counter `ih_seq` (`k = 0`: `ih_iplist` is empty, as at the start of the worker,
after the host went down, or when every probe has been answered).  In every
state reached from it by any sequence of socket handoffs, timer expiries and
inbound datagrams during which at most `65536 - k` probes are sent for the
host's identifier (`sendto` calls of the run), the host is still at its position
and no two packets in its `ih_iplist` have the same sequence number `ip_seq`. -/
theorem iplist_seqs_nodup_within_window (w w1 : worker) (evs : List event)
    (effs : List effect) (i : Nat) (ih : icmp_host) (k : Nat)
    (hi : w.sc_ihlist[i]? = some ih)
    (hseq : ih.ih_seq < 65536)
    (hwin : (iplist_seqs ih).Sublist (recent_seqs ih.ih_seq k))
    (hrun : run w evs = some (w1, effs))
    (hcount : k + count_sendto ih.ih_id effs ≤ 65536) :
    ∃ ih1, w1.sc_ihlist[i]? = some ih1 ∧ ih1.ih_id = ih.ih_id ∧ (iplist_seqs ih1).Nodup := by
  obtain ⟨ih1, h1, h2, h3⟩ := run_seqs_recent evs w w1 effs i ih k hi ⟨hseq, hwin⟩ hrun
  exact ⟨ih1, h1, h2, List.Nodup.sublist h3.2 (recent_seqs_nodup _ _ hcount)⟩

/-- C7 (witness): a host with an empty list whose counter stands at 65535 sends
three probes; their sequence numbers 65535, 0, 1 pass the wrap-around. -/
theorem iplist_seqs_nodup_within_window_witness :
    ∃ w1 effs ih2,
      run { sc_ihlist := [late_host], ipd_sd := 3, ipd_sdev := true }
          [event.timeout 0 env_ok, event.timeout 0 env_ok, event.timeout 0 env_ok]
        = some (w1, effs) ∧
      w1.sc_ihlist[0]? = some ih2 ∧ iplist_seqs ih2 = [1, 0, 65535] ∧
      ∃ ih1, w1.sc_ihlist[0]? = some ih1 ∧ ih1.ih_id = late_host.ih_id ∧
        (iplist_seqs ih1).Nodup :=
  ⟨_, _, _, rfl, rfl, rfl,
    iplist_seqs_nodup_within_window { sc_ihlist := [late_host], ipd_sd := 3, ipd_sdev := true } _
      [event.timeout 0 env_ok, event.timeout 0 env_ok, event.timeout 0 env_ok] _ 0 late_host 0
      rfl (by decide) (List.nil_sublist _) rfl (by decide)⟩

/-- The case of a worker started by `icmp_handler`, counting from its start: in
every state the worker reaches from `icmp_handler` on hosts created by `new_ih`,
under any sequence of socket handoffs, timer expiries and inbound datagrams, a
host for whose identifier at most 65536 probes have been sent (`sendto` calls of
the run) has no two packets in `ih_iplist` with the same sequence number
`ip_seq`. -/
theorem iplist_seqs_nodup_before_wraparound (hosts : List icmp_host)
    (pton : Nat → Bool × Bool) (w0 w : worker) (e0 effs : List effect) (evs : List event)
    (ih : icmp_host)
    (hfresh : ∀ h ∈ hosts, ∃ id, new_ih true id = some h)
    (hinit : icmp_handler hosts pton = some (w0, e0))
    (hrun : run w0 evs = some (w, effs))
    (hmem : ih ∈ w.sc_ihlist)
    (hcount : count_sendto ih.ih_id effs ≤ 65536) :
    (iplist_seqs ih).Nodup := by
  have h0 : seqs_bounded w0 (fun _ => 0) := by
    intro x hx
    obtain ⟨hi, _⟩ := icmp_handler_some hosts pton w0 e0 hinit
    obtain ⟨g, hg, a, b, hab⟩ := init_all_mem pton hosts 0 w0.sc_ihlist hi x hx
    obtain ⟨id, hid⟩ := hfresh g hg
    obtain ⟨_, _, n3, n4, _⟩ := new_ih_some id g hid
    obtain ⟨_, _, i3, i4, _⟩ := init_ih_some a b g x hab
    refine ⟨0, Nat.le_refl _, ?_, ?_⟩
    · rw [i3, n3]
    · simp only [iplist_seqs, i4, n4, List.map_nil]
      exact List.nil_sublist _
  obtain ⟨n, hn, hs⟩ := run_seqs_bounded evs w0 w effs _ h0 hrun ih hmem
  exact seqs_after_mono ih n hs (by simp only [Nat.zero_add] at hn; omega)

/-- An instance: one host, the socket handoff and two timer expiries. -/
theorem iplist_seqs_nodup_before_wraparound_witness :
    ∃ w0 e0 w effs ih,
      icmp_handler (config_hosts [7]) pton_v4 = some (w0, e0) ∧
      run w0 [event.socket_raw 3 (fun _ => env_ok), event.timeout 0 env_ok,
              event.timeout 0 env_ok] = some (w, effs) ∧
      w.sc_ihlist = [ih] ∧ iplist_seqs ih = [2, 1, 0] ∧ (iplist_seqs ih).Nodup :=
  ⟨_, _, _, _, _, rfl, rfl, rfl, rfl,
    iplist_seqs_nodup_before_wraparound (config_hosts [7]) pton_v4 _ _ _ _
      [event.socket_raw 3 (fun _ => env_ok), event.timeout 0 env_ok, event.timeout 0 env_ok] _
      (by intro h hh; exact ⟨7, (List.mem_singleton.mp hh) ▸ rfl⟩) rfl rfl
      (List.mem_singleton.mpr rfl) (by decide)⟩

/-! ## C11: a datagram that is too short -/

theorem icmp_parse_ok_iff (m : recv_msg) (iplen : Nat) :
    icmp_parse m = parse_result.ok iplen ↔
      (m.ret % (SIZE_MOD : Int)).toNat ≠ SIZE_MOD - 1 ∧
      ¬ (m.msg_namelen < SIZEOF_SOCKADDR_IN ∨ m.sa_family ≠ AF_INET) ∧
      ¬ ((m.ret % (SIZE_MOD : Int)).toNat < (m.buf.getD 0 0 % 16) * 4 + ICMP_MINLEN) ∧
      iplen = (m.buf.getD 0 0 % 16) * 4 := by
  unfold icmp_parse
  simp only []
  split
  · simp_all
  · split
    · simp_all
    · split
      · simp_all
      · rename_i h1 h2 h3
        simp only [parse_result.ok.injEq]
        constructor
        · intro h; exact ⟨h1, h2, h3, h.symm⟩
        · intro h; exact h.2.2.2.symm

/-- C11: for every datagram that `recvmsg` returned (a byte count, not -1) whose
byte count is smaller than the IP header length `ip_hl * 4` plus `ICMP_MINLEN`,
`icmp_parse` returns -1, `icmp_raw_socket_handler` returns with the host list as
it was and no effect, and the worker's state after the callback is its state
before. -/
theorem short_datagram_is_rejected (w : worker) (m : recv_msg)
    (hsdev : w.ipd_sdev = true)
    (hret : 0 ≤ m.ret)
    (hshort : m.ret < (((m.buf.getD 0 0 % 16) * 4 + ICMP_MINLEN : Nat) : Int)) :
    icmp_parse m = parse_result.reject ∧
    icmp_raw_socket_handler w.sc_ihlist m = some (w.sc_ihlist, []) ∧
    step w (event.datagram m) = some (w, []) := by
  have hbytes : (m.ret % (SIZE_MOD : Int)).toNat = m.ret.toNat := by
    have hb : ((m.buf.getD 0 0 % 16) * 4 + ICMP_MINLEN : Nat) ≤ 68 := by
      simp only [ICMP_MINLEN]; omega
    have : m.ret % (SIZE_MOD : Int) = m.ret := by
      apply Int.emod_eq_of_lt hret
      simp only [SIZE_MOD]
      omega
    rw [this]
  have hparse : icmp_parse m = parse_result.reject := by
    unfold icmp_parse
    simp only [hbytes]
    have h1 : ¬ (m.ret.toNat = SIZE_MOD - 1) := by
      simp only [SIZE_MOD, ICMP_MINLEN] at hshort ⊢; omega
    have h2 : m.ret.toNat < (m.buf.getD 0 0 % 16) * 4 + ICMP_MINLEN := by omega
    simp only [h1, if_false, h2, if_true]
    split <;> rfl
  have hh : icmp_raw_socket_handler w.sc_ihlist m = some (w.sc_ihlist, []) := by
    simp only [icmp_raw_socket_handler, hparse]
  refine ⟨hparse, hh, ?_⟩
  obtain ⟨l, sd, sdev⟩ := w
  simp only at hsdev hh
  subst hsdev
  simp only [step, hh, if_true]

/-- C11 (witness): a datagram of 27 bytes with an IP header of 20 bytes. -/
theorem short_datagram_is_rejected_witness :
    icmp_parse { icmp_datagram ICMP_ECHOREPLY 7 0 with ret := 27 } = parse_result.reject ∧
    icmp_raw_socket_handler [up_host] { icmp_datagram ICMP_ECHOREPLY 7 0 with ret := 27 }
      = some ([up_host], []) ∧
    step { sc_ihlist := [up_host], ipd_sd := 3, ipd_sdev := true }
        (event.datagram { icmp_datagram ICMP_ECHOREPLY 7 0 with ret := 27 })
      = some ({ sc_ihlist := [up_host], ipd_sd := 3, ipd_sdev := true }, []) :=
  short_datagram_is_rejected { sc_ihlist := [up_host], ipd_sd := 3, ipd_sdev := true }
    { icmp_datagram ICMP_ECHOREPLY 7 0 with ret := 27 } rfl (by decide) (by decide)

/-! ## Lemmas: the packet that `new_ip` builds -/

theorem replicate_ip_buf :
    List.replicate IP_BUF_SIZE 0 = [0, 0, 0, 0, 0, 0, 0, 0] ++ List.replicate 1528 0 := rfl

theorem htons_lt (x : Nat) : htons x < 65536 := by
  simp only [htons]; omega

theorem ntohs_htons (x : Nat) (h : x < 65536) : ntohs (htons x) = x := by
  have h1 : x / 256 < 256 := by omega
  have h2 : x / 256 % 256 = x / 256 := Nat.mod_eq_of_lt h1
  simp only [ntohs, htons, h2]
  have h3 : (x % 256 * 256 + x / 256) % 256 = x / 256 := by omega
  have h4 : (x % 256 * 256 + x / 256) / 256 = x % 256 := by omega
  rw [h3, h4]
  omega

theorem rd16_split (x : Nat) (h : x < 65536) : x % 256 + 256 * (x / 256 % 256) = x := by
  omega

/-- The buffer of the packet `new_ip` builds: the echo request with the host's
identifier and next sequence number, and as checksum `in_cksum` of the same buffer
with a zero checksum field. -/
theorem new_ip_buf (now : Nat) (ih ih1 : icmp_host) (p : icmp_packet)
    (h : new_ip true now ih = some (ih1, p)) :
    p.ip_seq = ih.ih_seq ∧
    p.ip_buf = echo_request ih.ih_id ih.ih_seq
      (in_cksum (echo_request ih.ih_id ih.ih_seq 0) (IP_BUF_SIZE : Nat)).toNat := by
  simp only [new_ip, if_true, replicate_ip_buf, wr16, List.cons_append, List.nil_append,
    List.set_cons_zero, List.set_cons_succ, Nat.zero_mod, Nat.zero_div, Option.some.injEq,
    Prod.mk.injEq] at h
  obtain ⟨_, rfl⟩ := h
  exact ⟨rfl, rfl⟩

theorem echo_request_fields (id seq c : Nat) (hid : id < 65536) (hseq : seq < 65536) :
    (echo_request id seq c).getD 0 0 = ICMP_ECHO ∧ (echo_request id seq c).getD 1 0 = 0 ∧
    rd16 (echo_request id seq c) 4 = id ∧ ntohs (rd16 (echo_request id seq c) 6) = seq := by
  refine ⟨rfl, rfl, ?_, ?_⟩
  · simp only [rd16, echo_request, List.cons_append, List.getD_cons_succ, List.getD_cons_zero]
    omega
  · simp only [rd16, echo_request, List.cons_append, List.getD_cons_succ, List.getD_cons_zero]
    rw [rd16_split _ (htons_lt seq)]
    exact ntohs_htons seq hseq


theorem wordsum_zeros : ∀ m : Nat, wordsum (List.replicate m 0) = 0
  | 0 => rfl
  | 1 => rfl
  | m + 2 => by
    have ih := wordsum_zeros m
    simp only [List.replicate_succ, wordsum, ih]

theorem echo_request_length (id seq c : Nat) : (echo_request id seq c).length = 1536 := by
  simp only [echo_request, List.length_append, List.length_cons, List.length_nil,
    List.length_replicate]

theorem echo_request_take (id seq c : Nat) :
    (echo_request id seq c).take 512
      = [ICMP_ECHO, 0, c % 256, c / 256 % 256, id % 256, id / 256 % 256,
          htons seq % 256, htons seq / 256 % 256] ++ List.replicate 504 0 := by
  simp only [echo_request]
  rw [List.take_append_eq_append_take, List.take_of_length_le (by simp), List.take_replicate]
  rfl

theorem wordsum_cons8 (a0 a1 a2 a3 a4 a5 a6 a7 : Nat) (t : List Nat) :
    wordsum ([a0, a1, a2, a3, a4, a5, a6, a7] ++ t)
      = (a0 + 256 * a1) + ((a2 + 256 * a3) + ((a4 + 256 * a5) + ((a6 + 256 * a7) + wordsum t))) := by
  simp only [List.cons_append, List.nil_append, wordsum, List.append_eq]

theorem echo_request_wordsum (id seq c : Nat) :
    wordsum (echo_request id seq c)
      = (ICMP_ECHO + 256 * 0) + ((c % 256 + 256 * (c / 256 % 256)) +
          ((id % 256 + 256 * (id / 256 % 256)) +
            (htons seq % 256 + 256 * (htons seq / 256 % 256)))) ∧
    wordsum ((echo_request id seq c).take 512) = wordsum (echo_request id seq c) := by
  rw [echo_request_take, echo_request, wordsum_cons8, wordsum_cons8, wordsum_zeros,
    wordsum_zeros]
  exact ⟨rfl, rfl⟩

theorem in_cksum_even_len (buf : List Nat) (n : Nat) (hlen : buf.length = n)
    (heven : n % 2 = 0) :
    in_cksum buf (n : Int) = in_cksum_fold (wrap32 ((wordsum buf : Nat) : Int)) := by
  subst hlen
  exact in_cksum_even buf heven

/-- The checksum `new_ip` stores verifies over the whole buffer and over its first
512 bytes. -/
theorem echo_request_cksum (id seq : Nat) (C : Int)
    (hC : C = in_cksum (echo_request id seq 0) (IP_BUF_SIZE : Nat)) :
    in_cksum (echo_request id seq C.toNat) (IP_BUF_SIZE : Nat) = 0 ∧
    in_cksum ((echo_request id seq C.toNat).take 512) (512 : Nat) = 0 := by
  have hl0 := echo_request_length id seq 0
  have e0 : in_cksum (echo_request id seq 0) (IP_BUF_SIZE : Nat)
      = in_cksum_fold (wrap32 ((wordsum (echo_request id seq 0) : Nat) : Int)) :=
    in_cksum_even_len _ 1536 hl0 (by decide)
  have hCf : C = in_cksum_fold (wrap32 ((wordsum (echo_request id seq 0) : Nat) : Int)) :=
    hC.trans e0
  have hw0 := (echo_request_wordsum id seq 0).1
  have hr := in_cksum_fold_range (wrap32 ((wordsum (echo_request id seq 0) : Nat) : Int))
  rw [← hCf] at hr
  have hcast : ((C.toNat : Nat) : Int) = C := Int.toNat_of_nonneg hr.1
  have hcn : C.toNat < 65536 := by omega
  have hl := echo_request_length id seq C.toNat
  have e1 : in_cksum (echo_request id seq C.toNat) (IP_BUF_SIZE : Nat)
      = in_cksum_fold (wrap32 ((wordsum (echo_request id seq C.toNat) : Nat) : Int)) :=
    in_cksum_even_len _ 1536 hl (by decide)
  have hlt : ((echo_request id seq C.toNat).take 512).length = 512 := by
    rw [List.length_take, hl]; omega
  have e2 : in_cksum ((echo_request id seq C.toNat).take 512) (512 : Nat)
      = in_cksum_fold (wrap32 ((wordsum ((echo_request id seq C.toNat).take 512) : Nat) : Int)) :=
    in_cksum_even_len _ 512 hlt (by decide)
  have hw := echo_request_wordsum id seq C.toNat
  have hsum : wordsum (echo_request id seq C.toNat)
      = wordsum (echo_request id seq 0) + C.toNat := by
    rw [hw.1, hw0]
    have := rd16_split C.toNat hcn
    omega
  have hbound : wordsum (echo_request id seq 0) ≤ 2147450880 := by
    rw [hw0]
    have := htons_lt seq
    simp only [ICMP_ECHO]
    omega
  have key : in_cksum_fold (wrap32 ((wordsum (echo_request id seq C.toNat) : Nat) : Int)) = 0 := by
    rw [hsum, Nat.cast_add, hcast, hCf]
    exact fold_verify _ (Int.ofNat_nonneg _) (by exact_mod_cast hbound)
  have key2 : in_cksum_fold
      (wrap32 ((wordsum ((echo_request id seq C.toNat).take 512) : Nat) : Int)) = 0 := by
    rw [hw.2]; exact key
  exact ⟨e1.trans key, e2.trans key2⟩

/-! ## C16: a reply is correlated with its request -/

/-- C16: for every host of the list whose identifier no other host of the list
carries, and every packet `new_ip` created for it that is in its outstanding list
and whose sequence number no other packet of the list carries: a datagram whose
identifier and sequence fields hold the bytes of the packet's request is
correlated with them: `find_ih` on its identifier returns the host, and `find_ip`
on the byte-swapped sequence field returns the packet. -/
theorem reply_is_correlated (ihl : List icmp_host) (i : Nat) (ih : icmp_host)
    (p : icmp_packet) (m : recv_msg) (iplen : Nat) (g g1 : icmp_host) (now : Nat)
    (hi : ihl[i]? = some ih)
    (huniq : ∀ j x, ihl[j]? = some x → x.ih_id = ih.ih_id → j = i)
    (hid : ih.ih_id < 65536)
    (hnew : new_ip true now g = some (g1, p))
    (hgid : g.ih_id = ih.ih_id) (hgseq : g.ih_seq < 65536)
    (hp : p ∈ ih.ih_iplist)
    (hsequniq : ∀ q ∈ ih.ih_iplist, q.ip_seq = p.ip_seq → q = p)
    (hmid : rd16 m.buf (iplen + 4) = rd16 p.ip_buf 4)
    (hmseq : rd16 m.buf (iplen + 6) = rd16 p.ip_buf 6) :
    find_ih ihl (rd16 m.buf (iplen + 4)) = some (i, ih) ∧
    ∃ k, find_ip ih (ntohs (rd16 m.buf (iplen + 6))) = some (k, p) ∧
      ih.ih_iplist[k]? = some p := by
  obtain ⟨b1, b2⟩ := new_ip_buf now g g1 p hnew
  obtain ⟨_, _, f3, f4⟩ := echo_request_fields g.ih_id g.ih_seq
    (in_cksum (echo_request g.ih_id g.ih_seq 0) (IP_BUF_SIZE : Nat)).toNat
    (by rw [hgid]; exact hid) hgseq
  rw [← b2] at f3 f4
  constructor
  · rw [hmid, f3, hgid]
    apply find_ih_first ihl i ih hi
    intro j x hj hx hxid
    have := huniq j x hx hxid
    omega
  · rw [hmseq, f4, ← b1]
    obtain ⟨k, q, hfind⟩ := find_ip_list_of_mem ih.ih_iplist p.ip_seq p hp rfl
    obtain ⟨l1, l2, hl, hk, hq, _⟩ := find_ip_list_some _ _ _ _ hfind
    have hqmem : q ∈ ih.ih_iplist := by rw [hl]; simp
    have hqp : q = p := hsequniq q hqmem hq
    subst hqp
    refine ⟨k, hfind, ?_⟩
    rw [hl, ← hk, List.getElem?_append_right (Nat.le_refl _)]
    simp



/-- C16 (witness): the worker with the host 7 after the socket handoff, and the
echo reply to the host's first probe. -/
theorem reply_is_correlated_witness :
    ∃ w0 e0 w effs ih p,
      icmp_handler (config_hosts [7]) pton_v4 = some (w0, e0) ∧
      run w0 [event.socket_raw 3 (fun _ => env_ok)] = some (w, effs) ∧
      w.sc_ihlist = [ih] ∧ ih.ih_iplist = [p] ∧
      find_ih w.sc_ihlist (rd16 (icmp_datagram ICMP_ECHOREPLY 7 0).buf (20 + 4))
        = some (0, ih) ∧
      ∃ k, find_ip ih (ntohs (rd16 (icmp_datagram ICMP_ECHOREPLY 7 0).buf (20 + 6)))
          = some (k, p) ∧ ih.ih_iplist[k]? = some p :=
  ⟨_, _, _, _, _, _, rfl, rfl, rfl, rfl,
    reply_is_correlated _ 0 _ _ (icmp_datagram ICMP_ECHOREPLY 7 0) 20 idle_host _ 0
      rfl
      (fun j _ hj _ => by
        have h : j < 1 := (List.getElem?_eq_some.mp hj).1
        omega)
      (by decide) rfl rfl (by decide) (List.mem_singleton.mpr rfl)
      (fun _ hq _ => List.mem_singleton.mp hq) rfl rfl⟩

/-! ## C18: the bytes that `icmp_send` transmits -/

theorem echo_request_cksum_field (id seq c : Nat) (hc : c < 65536) :
    rd16 (echo_request id seq c) 2 = c ∧
    wr16 (echo_request id seq c) 2 0 = echo_request id seq 0 := by
  constructor
  · simp only [rd16, echo_request, List.cons_append, List.getD_cons_succ, List.getD_cons_zero]
    omega
  · simp only [wr16, echo_request, List.cons_append, List.set_cons_succ, List.set_cons_zero,
      Nat.zero_mod, Nat.zero_div]

/-- C18: for every host (identifier and sequence counter in the range of
`uint16_t`) for which `new_ip` obtains memory, `icmp_send` puts the new packet at
the head of the outstanding list and calls `sendto` once, with the first 512 of
the 1536 bytes of the packet's buffer.  These bytes are an echo request: type
`ICMP_ECHO`, code 0, the host's identifier, the packet's sequence number in
network order; `in_cksum` over them is 0, as it is over the whole buffer, the
stored checksum being `in_cksum` over the 1536 bytes with a zero checksum field. -/
theorem transmitted_probe_is_valid (sd : Int) (env : send_env) (ih : icmp_host)
    (halloc : env.alloc_ok = true) (hid : ih.ih_id < 65536) (hseq : ih.ih_seq < 65536) :
    ∃ p data,
      (icmp_send sd env ih).1.ih_iplist = p :: ih.ih_iplist ∧
      (icmp_send sd env ih).2.1 = [effect.sendto sd ih.ih_id data] ∧
      data = p.ip_buf.take 512 ∧ data.length = 512 ∧ p.ip_buf.length = IP_BUF_SIZE ∧
      data.getD 0 0 = ICMP_ECHO ∧ data.getD 1 0 = 0 ∧ rd16 data 4 = ih.ih_id ∧
      ntohs (rd16 data 6) = ih.ih_seq ∧ p.ip_seq = ih.ih_seq ∧
      in_cksum data (512 : Nat) = 0 ∧ in_cksum p.ip_buf (IP_BUF_SIZE : Nat) = 0 ∧
      ((rd16 p.ip_buf 2 : Nat) : Int) = in_cksum (wr16 p.ip_buf 2 0) (IP_BUF_SIZE : Nat) := by
  obtain ⟨p, _, _, hnew⟩ := new_ip_some env.now ih
  obtain ⟨b1, b2⟩ := new_ip_buf env.now ih _ p hnew
  obtain ⟨C, hC⟩ : ∃ C : Int, C = in_cksum (echo_request ih.ih_id ih.ih_seq 0)
      (IP_BUF_SIZE : Nat) := ⟨_, rfl⟩
  rw [← hC] at b2
  obtain ⟨k1, k2⟩ := echo_request_cksum ih.ih_id ih.ih_seq C hC
  have hr : 0 ≤ C ∧ C < 65536 := by
    rw [hC]; exact in_cksum_fold_range _
  have hcn : C.toNat < 65536 := by omega
  have hcast : ((C.toNat : Nat) : Int) = C := Int.toNat_of_nonneg hr.1
  obtain ⟨c1, c2⟩ := echo_request_cksum_field ih.ih_id ih.ih_seq C.toNat hcn
  have htake := echo_request_take ih.ih_id ih.ih_seq C.toNat
  have hlist : (icmp_send sd env ih).1.ih_iplist = p :: ih.ih_iplist ∧
      (icmp_send sd env ih).2.1 = [effect.sendto sd ih.ih_id (p.ip_buf.take 512)] := by
    rcases icmp_send_cases sd env ih with ⟨hf, _⟩ | ⟨ip, _, _, hcase⟩
    · rw [halloc] at hf; cases hf
    · simp only [icmp_send, halloc, hnew]
      split <;> simp [reschedule_icmp_send_eq]
  refine ⟨p, p.ip_buf.take 512, hlist.1, hlist.2, rfl, ?_, ?_, ?_, ?_, ?_, ?_, b1, ?_, ?_, ?_⟩
  · rw [b2, List.length_take, echo_request_length]; omega
  · rw [b2, echo_request_length]; rfl
  · rw [b2, htake]; rfl
  · rw [b2, htake]; rfl
  · rw [b2, htake]
    simp only [rd16, List.cons_append, List.getD_cons_succ, List.getD_cons_zero]
    omega
  · rw [b2, htake]
    simp only [rd16, List.cons_append, List.getD_cons_succ, List.getD_cons_zero]
    rw [rd16_split _ (htons_lt ih.ih_seq)]
    exact ntohs_htons ih.ih_seq hseq
  · rw [b2]; exact k2
  · rw [b2]; exact k1
  · rw [b2, c1, c2, hcast]; exact hC

/-- C18 (witness): the first probe of the host 7. -/
theorem transmitted_probe_is_valid_witness :
    ∃ data, (icmp_send 3 env_ok idle_host).2.1 = [effect.sendto 3 7 data] ∧
      data.length = 512 ∧ rd16 data 4 = 7 ∧ in_cksum data (512 : Nat) = 0 := by
  obtain ⟨_, data, _, h2, _, h4, _, _, _, h8, _, _, h11, _⟩ :=
    transmitted_probe_is_valid 3 env_ok idle_host rfl (by decide) (by decide)
  exact ⟨data, h2, h4, h8, h11⟩


/-! ## C17: the reads of the receive path stay inside the datagram -/

/-- The receive path looks at the buffer only at the offsets `handler_reads`. -/
theorem icmp_raw_socket_handler_reads (ihl : List icmp_host) (m m1 : recv_msg) (iplen : Nat)
    (hparse : icmp_parse m = parse_result.ok iplen)
    (hret : m1.ret = m.ret) (hlen : m1.msg_namelen = m.msg_namelen)
    (hfam : m1.sa_family = m.sa_family)
    (hbuf : ∀ o ∈ handler_reads iplen, m1.buf.getD o 0 = m.buf.getD o 0) :
    icmp_parse m1 = parse_result.ok iplen ∧
    icmp_raw_socket_handler ihl m1 = icmp_raw_socket_handler ihl m := by
  have h0 : m1.buf.getD 0 0 = m.buf.getD 0 0 := hbuf 0 (by simp [handler_reads])
  have ht : m1.buf.getD iplen 0 = m.buf.getD iplen 0 := hbuf iplen (by simp [handler_reads])
  have h4 : m1.buf.getD (iplen + 4) 0 = m.buf.getD (iplen + 4) 0 :=
    hbuf _ (by simp [handler_reads])
  have h5 : m1.buf.getD (iplen + 4 + 1) 0 = m.buf.getD (iplen + 4 + 1) 0 :=
    hbuf _ (by simp [handler_reads])
  have h6 : m1.buf.getD (iplen + 6) 0 = m.buf.getD (iplen + 6) 0 :=
    hbuf _ (by simp [handler_reads])
  have h7 : m1.buf.getD (iplen + 6 + 1) 0 = m.buf.getD (iplen + 6 + 1) 0 :=
    hbuf _ (by simp [handler_reads])
  have hp1 : icmp_parse m1 = parse_result.ok iplen := by
    rw [icmp_parse_ok_iff] at hparse ⊢
    rw [hret, hlen, hfam, h0]
    exact hparse
  refine ⟨hp1, ?_⟩
  simp only [icmp_raw_socket_handler, hp1, hparse, rd16, ht, h4, h5, h6, h7]

/-- C17: for every datagram that `icmp_parse` accepts, `recvmsg` having kept its
contract for the buffer of 1536 bytes: every offset of the buffer that
`icmp_parse` and `icmp_raw_socket_handler` read (`handler_reads`: offset 0, and
`iplen`, `iplen + 4`, `iplen + 5`, `iplen + 6`, `iplen + 7` with
`iplen = ip_hl * 4`) is smaller than the number of bytes received, which is at
most 1536; and the outcome of the handler depends on the buffer at these
offsets only. -/
theorem accepted_datagram_reads_in_bounds (m : recv_msg) (iplen : Nat)
    (hrecv : recvmsg_ok IP_BUF_SIZE m)
    (hparse : icmp_parse m = parse_result.ok iplen) :
    iplen = (m.buf.getD 0 0 % 16) * 4 ∧
    (∀ o ∈ handler_reads iplen, (o : Int) < m.ret) ∧
    m.ret ≤ (IP_BUF_SIZE : Nat) ∧
    (∀ o ∈ handler_reads iplen, o < IP_BUF_SIZE) ∧
    ∀ (ihl : List icmp_host) (m1 : recv_msg), m1.ret = m.ret →
      m1.msg_namelen = m.msg_namelen → m1.sa_family = m.sa_family →
      (∀ o ∈ handler_reads iplen, m1.buf.getD o 0 = m.buf.getD o 0) →
      icmp_raw_socket_handler ihl m1 = icmp_raw_socket_handler ihl m := by
  obtain ⟨p1, _, p3, p4⟩ := (icmp_parse_ok_iff m iplen).mp hparse
  have hret : 0 ≤ m.ret ∧ m.ret ≤ (IP_BUF_SIZE : Nat) := by
    rcases hrecv with h | h
    · exfalso
      apply p1
      rw [h]
      decide
    · exact h
  have hmod : m.ret % (SIZE_MOD : Int) = m.ret := by
    apply Int.emod_eq_of_lt hret.1
    have := hret.2
    simp only [SIZE_MOD, IP_BUF_SIZE] at this ⊢
    omega
  rw [hmod, ← p4] at p3
  have hge : ((iplen + ICMP_MINLEN : Nat) : Int) ≤ m.ret := by omega
  have hreads : ∀ o ∈ handler_reads iplen, (o : Int) < m.ret := by
    intro o ho
    simp only [handler_reads, List.mem_cons, List.mem_nil_iff, or_false] at ho
    simp only [ICMP_MINLEN] at hge
    omega
  refine ⟨p4, hreads, hret.2, ?_, ?_⟩
  · intro o ho
    have := hreads o ho
    have := hret.2
    omega
  · intro ihl m1 h1 h2 h3 h4
    exact (icmp_raw_socket_handler_reads ihl m m1 iplen hparse h1 h2 h3 h4).2

/-- C17 (witness): an echo reply of 28 bytes with an IP header of 20 bytes. -/
theorem accepted_datagram_reads_in_bounds_witness :
    (∀ o ∈ handler_reads 20, (o : Int) < (icmp_datagram ICMP_ECHOREPLY 7 0).ret) ∧
    (icmp_datagram ICMP_ECHOREPLY 7 0).ret ≤ (IP_BUF_SIZE : Nat) :=
  ⟨(accepted_datagram_reads_in_bounds (icmp_datagram ICMP_ECHOREPLY 7 0) 20
      (by decide) (by decide)).2.1,
   (accepted_datagram_reads_in_bounds (icmp_datagram ICMP_ECHOREPLY 7 0) 20
      (by decide) (by decide)).2.2.1⟩

/-! ## C15: the expiry that marks a host down -/

/-- C15: for every host that is `IHS_UP` with retry counter 0 and whose timer
expires, the callback `ih_timeout` leaves the host `IHS_DOWN` with an empty
outstanding list and an unchanged sequence counter, composes exactly one
`IMSG_HOST_DOWN` report and calls no `sendto`, and arms the timer with 60 seconds,
more than the 10 seconds that `reschedule_icmp_send` gives a host that is up. -/
theorem up_host_without_retries_goes_down (w : worker) (i : Nat) (ih : icmp_host)
    (env : send_env) (secs : Nat)
    (hi : w.sc_ihlist[i]? = some ih)
    (hup : ih.ih_ihs = IHS_UP) (hr : ih.ih_retrycount = 0)
    (hto : ih.ih_to = ev_timer.pending secs) :
    ∃ ih1,
      step w (event.timeout i env)
        = some ({ w with sc_ihlist := w.sc_ihlist.set i ih1 },
                [effect.compose_to_father IMSG_HOST_DOWN (some ih.ih_id)]) ∧
      ih1.ih_ihs = IHS_DOWN ∧ ih1.ih_iplist = [] ∧ ih1.ih_seq = ih.ih_seq ∧
      ih1.ih_retrycount = 0 ∧ ih1.ih_id = ih.ih_id ∧
      ih1.ih_to = ev_timer.pending 60 ∧
      (reschedule_icmp_send ih).ih_to = ev_timer.pending 10 ∧ 10 < 60 ∧
      count_down [effect.compose_to_father IMSG_HOST_DOWN (some ih.ih_id)] = 1 ∧
      count_sendto ih.ih_id [effect.compose_to_father IMSG_HOST_DOWN (some ih.ih_id)] = 0 := by
  obtain ⟨d0, d1, d2, d3, d4, d5, d6⟩ :=
    ih_timeout_down w.ipd_sd env { ih with ih_to := ev_timer.idle } hup hr
  refine ⟨(ih_timeout w.ipd_sd env { ih with ih_to := ev_timer.idle }).1, ?_, d1, d2, d4, d3, d5,
    d6, ?_, by omega, rfl, rfl⟩
  · simp only [step, hi, hto]
    rw [d0]
  · rw [reschedule_icmp_send_eq, hup, hto]
    rfl

/-- C15 (witness): the host `up_host_spent`, up with its retry counter at 0 and
three outstanding packets. -/
theorem up_host_without_retries_goes_down_witness :
    up_host_spent.ih_iplist.length = 3 ∧
    ∃ ih1,
      step { sc_ihlist := [up_host_spent], ipd_sd := 3, ipd_sdev := true }
          (event.timeout 0 env_ok)
        = some ({ sc_ihlist := [ih1], ipd_sd := 3, ipd_sdev := true },
                [effect.compose_to_father IMSG_HOST_DOWN (some 7)]) ∧
      ih1.ih_ihs = IHS_DOWN ∧ ih1.ih_iplist = [] ∧ ih1.ih_seq = 4 ∧
      ih1.ih_to = ev_timer.pending 60 := by
  obtain ⟨ih1, h1, h2, h3, h4, _, _, h7, _⟩ :=
    up_host_without_retries_goes_down
      { sc_ihlist := [up_host_spent], ipd_sd := 3, ipd_sdev := true } 0
      up_host_spent env_ok 10 rfl rfl rfl rfl
  exact ⟨rfl, ih1, h1, h2, h3, h4, h7⟩

/-! ## C12: the socket handoff -/

theorem send_all_enumFrom (sd : Int) (env : Nat → send_env) :
    ∀ (l : List icmp_host) (n : Nat),
      send_all sd env n l
        = ((l.enumFrom n).map (fun p => (icmp_send sd (env p.1) p.2).1),
           ((l.enumFrom n).map (fun p => (icmp_send sd (env p.1) p.2).2.1)).flatten)
  | [], _ => rfl
  | x :: rest, n => by
    simp only [send_all, send_all_enumFrom sd env rest (n + 1), List.enumFrom_cons,
      List.map_cons, List.flatten_cons]

theorem sendto_dests_append (a b : List effect) :
    sendto_dests (a ++ b) = sendto_dests a ++ sendto_dests b := by
  induction a with
  | nil => rfl
  | cons e rest ih =>
    cases e <;> simp [sendto_dests, ih]

theorem send_all_dests (sd : Int) (env : Nat → send_env) (hok : ∀ i, (env i).alloc_ok = true) :
    ∀ (l : List icmp_host) (n : Nat),
      sendto_dests (send_all sd env n l).2 = l.map icmp_host.ih_id
  | [], _ => rfl
  | x :: rest, n => by
    simp only [send_all, sendto_dests_append, send_all_dests sd env hok rest (n + 1),
      List.map_cons]
    rcases icmp_send_cases sd (env n) x with ⟨hf, _⟩ | ⟨ip, _, _, ⟨_, h⟩ | ⟨_, h⟩⟩
    · rw [hok n] at hf; cases hf
    · rw [h]; rfl
    · rw [h]; rfl

/-- C12: when `icmp_main_dispatcher` (its `imsg_read` not failing) handles an
`IMSG_SOCKET_RAW` message, it stores the descriptor of the message as `ipd_sd`,
registers the read event, and calls `icmp_send` once for each host of
`sc_ihlist` in list order: the hosts afterwards and the effects are those of
`icmp_send` on the first host, on the second, and so on; when `new_ip` obtains
memory for each, the `sendto` calls go to the hosts of the list in order.  With
an empty host list the socket is stored, nothing is sent and the host list is
still empty. -/
theorem socket_handoff_probes_every_host (w : worker) (read_ret : Int) (eagain : Bool)
    (fd : Int) (env : Nat → Nat → send_env)
    (hread : ¬ (read_ret = -1 ∧ eagain = false)) :
    ∃ w1 effs,
      icmp_main_dispatcher w read_ret eagain
          [{ type := proc_msg_type.IMSG_SOCKET_RAW.code, fd := fd }] env = some (w1, effs) ∧
      step w (event.socket_raw fd (env 0)) = some (w1, effs) ∧
      w1.ipd_sd = fd ∧ w1.ipd_sdev = true ∧
      w1.sc_ihlist = w.sc_ihlist.enum.map (fun p => (icmp_send fd (env 0 p.1) p.2).1) ∧
      effs = (w.sc_ihlist.enum.map (fun p => (icmp_send fd (env 0 p.1) p.2).2.1)).flatten ∧
      w1.sc_ihlist.length = w.sc_ihlist.length ∧
      ((∀ i, (env 0 i).alloc_ok = true) →
        sendto_dests effs = w.sc_ihlist.map icmp_host.ih_id) ∧
      (w.sc_ihlist = [] → w1.sc_ihlist = [] ∧ effs = []) := by
  have hs := send_all_enumFrom fd (env 0) w.sc_ihlist 0
  refine ⟨(socket_raw w fd (env 0)).1, (socket_raw w fd (env 0)).2, ?_, rfl, rfl, rfl, ?_, ?_,
    ?_, ?_, ?_⟩
  · simp only [icmp_main_dispatcher, hread, if_false, imsg_loop, if_true, List.append_nil]
  · simp only [socket_raw, hs, List.enum]
  · simp only [socket_raw, hs, List.enum]
  · simp only [socket_raw, hs, List.length_map, List.enumFrom_length]
  · intro hok
    exact send_all_dests fd (env 0) hok w.sc_ihlist 0
  · intro hnil
    simp only [socket_raw, hnil, send_all, and_self]

/-- C12 (witness): the worker with the hosts 7 and 9 receives descriptor 3. -/
theorem socket_handoff_probes_every_host_witness :
    ∃ w0 e0 w1 effs,
      icmp_handler (config_hosts [7, 9]) pton_v4 = some (w0, e0) ∧
      icmp_main_dispatcher w0 1 false
          [{ type := proc_msg_type.IMSG_SOCKET_RAW.code, fd := 3 }] (fun _ _ => env_ok)
        = some (w1, effs) ∧
      w1.ipd_sd = 3 ∧ w1.sc_ihlist.length = 2 ∧ sendto_dests effs = [7, 9] := by
  obtain ⟨w1, effs, h1, _, h3, _, _, _, h7, h8, _⟩ :=
    socket_handoff_probes_every_host
      { sc_ihlist := (config_hosts [7, 9]).filterMap (init_ih true false),
        ipd_sd := -1, ipd_sdev := false } 1 false 3 (fun _ _ => env_ok) (by decide)
  exact ⟨_, _, w1, effs, rfl, h1, h3, h7, h8 (fun _ => rfl)⟩

/-! ## C13: the child drops its privileges before it runs the role -/

/-- C13: in the child branch of `launch_proc` (`socketpair` succeeded, `fork`
returned 0), the entry point `pc_func` is called exactly when `getpwnam`, `chroot`,
`setgroups`, `setresgid` and `setresuid` have all succeeded, and then the calls of
the child are these, in this order, followed by `pc_func` and `_exit(0)`; when one
of them fails the child ends in `fatal` right after the failed call and `pc_func`
is not called. -/
theorem pc_func_only_after_privilege_drop (env : launch_env) (sc : serverstatd_conf)
    (pc : proc_ctx) (hsp : env.socketpair_ret ≠ -1) (hfork : env.fork_ret = 0) :
    (sys_call.pc_func ∈ (launch_proc env sc pc).2 ↔
      ∃ pw, env.pw = some pw ∧ env.chroot_ret = 0 ∧ env.setgroups_ret = 0 ∧
        env.setresgid_ret = 0 ∧ env.setresuid_ret = 0) ∧
    (∀ pw, env.pw = some pw → env.chroot_ret = 0 → env.setgroups_ret = 0 →
      env.setresgid_ret = 0 → env.setresuid_ret = 0 →
      launch_proc env sc pc
        = (launch_result.exited 0,
           [sys_call.socketpair, sys_call.fork, sys_call.close env.sp0,
            sys_call.getpwnam sc.sc_user,
            sys_call.chroot (if sc.sc_chroot = "" then pw.pw_dir else sc.sc_chroot),
            sys_call.setgroups pw.pw_gid, sys_call.setresgid pw.pw_gid,
            sys_call.setresuid pw.pw_uid, sys_call.pc_func, sys_call.exit 0])) ∧
    ((env.pw = none ∨ env.chroot_ret ≠ 0 ∨ env.setgroups_ret ≠ 0 ∨
        env.setresgid_ret ≠ 0 ∨ env.setresuid_ret ≠ 0) →
      (launch_proc env sc pc).1 = launch_result.fatal ∧
      (launch_proc env sc pc).2.getLast? = some sys_call.fatal ∧
      sys_call.pc_func ∉ (launch_proc env sc pc).2 ∧
      sys_call.exit 0 ∉ (launch_proc env sc pc).2) := by
  cases hpw : env.pw with
  | none =>
    simp [launch_proc, hsp, hfork, hpw, fatal_after]
  | some pw =>
    by_cases h1 : env.chroot_ret = 0
    · by_cases h2 : env.setgroups_ret = 0
      · by_cases h3 : env.setresgid_ret = 0
        · by_cases h4 : env.setresuid_ret = 0
          · simp [launch_proc, hsp, hfork, hpw, h1, h2, h3, h4]
          · simp [launch_proc, hsp, hfork, hpw, h1, h2, h3, h4, fatal_after]
        · simp [launch_proc, hsp, hfork, hpw, h1, h2, h3, fatal_after]
      · simp [launch_proc, hsp, hfork, hpw, h1, h2, fatal_after]
    · simp [launch_proc, hsp, hfork, hpw, h1, fatal_after]

/-- C13 (witness): the child with every call succeeding, and the child whose
`setresgid` fails. -/
theorem pc_func_only_after_privilege_drop_witness :
    sys_call.pc_func ∈ (launch_proc launch_env_child conf_example pcs_entry).2 ∧
    sys_call.pc_func ∉
      (launch_proc { launch_env_child with setresgid_ret := -1 } conf_example pcs_entry).2 :=
  ⟨(pc_func_only_after_privilege_drop launch_env_child conf_example pcs_entry
      (by decide) rfl).1.mpr ⟨_, rfl, rfl, rfl, rfl, rfl⟩,
   ((pc_func_only_after_privilege_drop { launch_env_child with setresgid_ret := -1 }
      conf_example pcs_entry (by decide) rfl).2.2
      (Or.inr (Or.inr (Or.inr (Or.inl (by decide)))))).2.2.1⟩

/-! ## C14: the supervisor's termination handler -/

theorem kill_all_eq (pcs : List proc_ctx) :
    kill_all pcs
      = (pcs.filter (fun pc => decide (pc.pc_pid ≠ 0))).map
          (fun pc => sys_call.kill pc.pc_pid SIGTERM) := by
  induction pcs with
  | nil => rfl
  | cons pc rest ih =>
    by_cases h : pc.pc_pid = 0
    · simp [kill_all, h, ih]
    · simp [kill_all, h, ih]

theorem wait_loop_again (r : wait_ret) (rest : List wait_ret) (h : wait_again r) :
    wait_loop (r :: rest) = ((wait_loop rest).1, sys_call.wait :: (wait_loop rest).2) := by
  have h1 : ¬ (r.pid = -1 ∧ r.errno ≠ EINTR ∧ r.errno ≠ ECHILD) := by
    rcases h with h | h
    · exact fun c => h c.1
    · exact fun c => c.2.1 h
  have h2 : r.pid ≠ -1 ∨ (r.pid = -1 ∧ r.errno = EINTR) := by
    rcases h with h | h
    · exact Or.inl h
    · by_cases hp : r.pid = -1
      · exact Or.inr ⟨hp, h⟩
      · exact Or.inl hp
  simp only [wait_loop, h1, if_false, h2, if_true]

theorem wait_loop_echild (r : wait_ret) (rest : List wait_ret) (hp : r.pid = -1)
    (he : r.errno = ECHILD) :
    wait_loop (r :: rest) = (handler_end.exited 0, [sys_call.wait, sys_call.exit 0]) := by
  have h1 : ¬ (r.pid = -1 ∧ r.errno ≠ EINTR ∧ r.errno ≠ ECHILD) := fun c => c.2.2 he
  have h2 : ¬ (r.pid ≠ -1 ∨ (r.pid = -1 ∧ r.errno = EINTR)) := by
    rintro (c | c)
    · exact c hp
    · rw [he] at c
      exact absurd c.2 (by decide)
  rw [wait_loop, if_neg h1, if_neg h2]

theorem wait_loop_fatal (r : wait_ret) (rest : List wait_ret) (hp : r.pid = -1)
    (hi : r.errno ≠ EINTR) (he : r.errno ≠ ECHILD) :
    wait_loop (r :: rest) = (handler_end.fatal, [sys_call.wait, sys_call.fatal]) := by
  rw [wait_loop, if_pos ⟨hp, hi, he⟩]
  rfl

theorem wait_loop_prefix : ∀ (pre : List wait_ret) (rest : List wait_ret),
    (∀ x ∈ pre, wait_again x) →
    wait_loop (pre ++ rest)
      = ((wait_loop rest).1, List.replicate pre.length sys_call.wait ++ (wait_loop rest).2)
  | [], rest, _ => rfl
  | x :: pre, rest, h => by
    have hx := h x (by simp)
    have ih := wait_loop_prefix pre rest (fun y hy => h y (by simp [hy]))
    simp only [List.cons_append, wait_loop_again x _ hx, ih, List.length_cons,
      List.replicate_succ]

theorem wait_loop_exited : ∀ (waits : List wait_ret) (st : Int),
    (wait_loop waits).1 = handler_end.exited st →
    st = 0 ∧ ∃ pre r rest, waits = pre ++ r :: rest ∧ (∀ x ∈ pre, wait_again x) ∧
      r.pid = -1 ∧ r.errno = ECHILD
  | [], st, h => by simp [wait_loop] at h
  | r :: rest, st, h => by
    by_cases h1 : r.pid = -1 ∧ r.errno ≠ EINTR ∧ r.errno ≠ ECHILD
    · simp [wait_loop, h1] at h
    · by_cases h2 : r.pid ≠ -1 ∨ (r.pid = -1 ∧ r.errno = EINTR)
      · simp only [wait_loop, h1, if_false, h2, if_true] at h
        obtain ⟨hst, pre, r1, rest1, e, hpre, hp, he⟩ := wait_loop_exited rest st h
        refine ⟨hst, r :: pre, r1, rest1, by simp [e], ?_, hp, he⟩
        intro x hx
        rcases List.mem_cons.mp hx with rfl | hx
        · rcases h2 with h2 | h2
          · exact Or.inl h2
          · exact Or.inr h2.2
        · exact hpre x hx
      · simp only [wait_loop, h1, if_false, h2, handler_end.exited.injEq] at h
        have hp : r.pid = -1 := by
          by_contra c; exact h2 (Or.inl c)
        have hne : r.errno ≠ EINTR := fun c => h2 (Or.inr ⟨hp, c⟩)
        have he : r.errno = ECHILD := by
          by_contra c; exact h1 ⟨hp, hne, c⟩
        exact ⟨h.symm, [], r, rest, rfl, by simp, hp, he⟩

/-- C14: `main_term_handler` first sends `SIGTERM` once to every entry of `pcs`
whose recorded pid is not 0, in order, then calls `wait` again after every reaped
child and every `wait` interrupted with `EINTR`.  At the first other return of
`wait`: with `ECHILD` it calls `exit(0)`, with any other `errno` it ends in `fatal`
and never calls `exit`.  It exits only so: when it has exited, the status is 0
and the last `wait` failed with `ECHILD`, all earlier ones having reaped a child
or been interrupted. -/
theorem term_handler_kills_then_reaps (pcs : List proc_ctx) (pre rest : List wait_ret)
    (r : wait_ret) (hpre : ∀ x ∈ pre, wait_again x) (hfail : r.pid = -1)
    (hintr : r.errno ≠ EINTR) :
    (r.errno = ECHILD →
      main_term_handler pcs (pre ++ r :: rest)
        = (handler_end.exited 0,
           (pcs.filter (fun pc => decide (pc.pc_pid ≠ 0))).map
               (fun pc => sys_call.kill pc.pc_pid SIGTERM)
             ++ (List.replicate (pre.length + 1) sys_call.wait ++ [sys_call.exit 0]))) ∧
    (r.errno ≠ ECHILD →
      main_term_handler pcs (pre ++ r :: rest)
        = (handler_end.fatal,
           (pcs.filter (fun pc => decide (pc.pc_pid ≠ 0))).map
               (fun pc => sys_call.kill pc.pc_pid SIGTERM)
             ++ (List.replicate (pre.length + 1) sys_call.wait ++ [sys_call.fatal]))) ∧
    (main_term_handler pcs pre
        = (handler_end.blocked,
           (pcs.filter (fun pc => decide (pc.pc_pid ≠ 0))).map
               (fun pc => sys_call.kill pc.pc_pid SIGTERM)
             ++ List.replicate (pre.length + 1) sys_call.wait)) ∧
    (∀ (waits : List wait_ret) (st : Int), (main_term_handler pcs waits).1 = handler_end.exited st →
      st = 0 ∧ ∃ pre1 r1 rest1, waits = pre1 ++ r1 :: rest1 ∧ (∀ x ∈ pre1, wait_again x) ∧
        r1.pid = -1 ∧ r1.errno = ECHILD) := by
  have hrep : ∀ n : Nat, List.replicate (n + 1) sys_call.wait
      = List.replicate n sys_call.wait ++ [sys_call.wait] := by
    intro n
    rw [List.replicate_succ']
  refine ⟨?_, ?_, ?_, ?_⟩
  · intro he
    simp only [main_term_handler, kill_all_eq, wait_loop_prefix pre (r :: rest) hpre,
      wait_loop_echild r rest hfail he, hrep, List.append_assoc, List.singleton_append]
  · intro he
    simp only [main_term_handler, kill_all_eq, wait_loop_prefix pre (r :: rest) hpre,
      wait_loop_fatal r rest hfail hintr he, hrep, List.append_assoc, List.singleton_append]
  · have := wait_loop_prefix pre [] hpre
    rw [List.append_nil] at this
    simp only [main_term_handler, kill_all_eq, this, wait_loop, hrep]
  · intro waits st h
    exact wait_loop_exited waits st h

/-- C14 (witness): one live child; `wait` is interrupted once, reaps the child,
and then fails with `ECHILD`. -/
theorem term_handler_kills_then_reaps_witness :
    main_term_handler [{ pc_pid := 4711, pc_sp0 := 4, pc_sp1 := -1 }]
        ([{ pid := -1, errno := EINTR }, { pid := 4711, errno := 0 }]
          ++ { pid := -1, errno := ECHILD } :: [])
      = (handler_end.exited 0,
         [sys_call.kill 4711 SIGTERM, sys_call.wait, sys_call.wait, sys_call.wait,
          sys_call.exit 0]) :=
  (term_handler_kills_then_reaps [{ pc_pid := 4711, pc_sp0 := 4, pc_sp1 := -1 }]
    [{ pid := -1, errno := EINTR }, { pid := 4711, errno := 0 }] []
    { pid := -1, errno := ECHILD } (by decide) rfl (by decide)).1 rfl

/-! ## C19: the pid that `launch_proc` records -/

/-- C19 (the code at the failing input): `fork` fails in `launch_proc`.  The
`case -1` falls through into `default`, so `launch_proc` returns in the parent with
`pc_pid = -1` recorded; `main_term_handler` skips only the entries whose pid is 0,
so on a terminating signal it calls `kill(-1, SIGTERM)`. -/
theorem fork_failure_makes_kill_minus_one :
    ∃ pc1 calls,
      launch_proc { launch_env_child with fork_ret := -1 } conf_example pcs_entry
        = (launch_result.returned pc1 (-1), calls) ∧
      pc1.pc_pid = -1 ∧
      sys_call.log_warn ∈ calls ∧
      (main_term_handler [pc1] [{ pid := -1, errno := ECHILD }]).2
        = [sys_call.kill (-1) SIGTERM, sys_call.wait, sys_call.exit 0] :=
  ⟨_, _, rfl, rfl, by decide, rfl⟩

/-- When `fork` succeeds in the parent, the recorded pid is that of the child and
the handler signals it. -/
theorem fork_success_records_child (env : launch_env) (sc : serverstatd_conf) (pc : proc_ctx)
    (hsp : env.socketpair_ret ≠ -1) (hpid : 0 < env.fork_ret) :
    ∃ pc1 calls, launch_proc env sc pc = (launch_result.returned pc1 env.fork_ret, calls) ∧
      pc1.pc_pid = env.fork_ret ∧ kill_all [pc1] = [sys_call.kill env.fork_ret SIGTERM] := by
  have h0 : env.fork_ret ≠ 0 := by omega
  refine ⟨_, _, by simp only [launch_proc, hsp, if_false, h0]; rfl, rfl, ?_⟩
  simp [kill_all, h0]

end Serverstatd
